import Mathlib

/-!
# Shallow embedding of the `ntrip` relay server (JavaScript)

This file embeds the core of the NTRIP relay repository in Lean 4 and proves
properties of its specification against the embedded code.

Embedding conventions:
* JavaScript strings are `List Char` (`Str` below); `String.split`,
  `String.substring`, `padStart`, … become the corresponding list operations.
* JavaScript numbers are rationals `ℚ` (the repository only manipulates
  decimal renderings of coordinates, so the exact-rational model is faithful
  at every program point the claims touch); `NaN` outcomes of `parseInt` /
  `parseFloat` are modelled with `Option`.
* JavaScript `Map` / `Set` objects are association lists / lists preserving
  insertion order.
* The sequelize database is an explicit list of records; `bcrypt` hashing is
  modelled by storing the secret itself and comparing for equality
  (`bcrypt.compare(p, hash(q)) = (p = q)`).
* Each definition carries a reference to the source file and lines it embeds.
-/

set_option maxRecDepth 4000

abbrev Str := List Char

def str (s : String) : Str := s.data

/-- `needle` occurs at the start of `hay` (JS `String.startsWith`). -/
def strStarts : Str → Str → Bool
  | [], _ => true
  | _ :: _, [] => false
  | a :: as, b :: bs => a == b && strStarts as bs

/-- `needle` occurs somewhere in `hay` (JS `String.includes`). -/
def isSubstr (needle : Str) : Str → Bool
  | [] => strStarts needle []
  | c :: rest => strStarts needle (c :: rest) || isSubstr needle rest

/-- Index of the first occurrence of `needle` in `hay` (JS `indexOf`),
`none` when absent. -/
def idxOfSeq (needle : Str) : Str → Option ℕ
  | [] => if strStarts needle [] then some 0 else none
  | c :: rest =>
    if strStarts needle (c :: rest) then some 0
    else (idxOfSeq needle rest).map (· + 1)

/-- JS `String.padStart(n, c)`. -/
def padStart (n : ℕ) (c : Char) (s : Str) : Str :=
  List.replicate (n - s.length) c ++ s

/-- The decimal digit character for `n < 10`. -/
def digitChar (n : ℕ) : Char := Char.ofNat (48 + n)

/-- Decimal rendering of a natural number (JS `Number.toString` on an
integral value). -/
def renderNat (n : ℕ) : Str :=
  if _h : n < 10 then [digitChar n]
  else renderNat (n / 10) ++ [digitChar (n % 10)]
  termination_by n
  decreasing_by
    exact Nat.div_lt_self (by omega) (by omega)

/-- Interpret a string of decimal digits as a natural number (the digit
accumulation performed by JS `parseInt` on an all-digit string). -/
def parseNatDigits (s : Str) : ℕ :=
  s.foldl (fun a c => 10 * a + (c.toNat - 48)) 0

/-- JS `Number.prototype.toFixed` rounding: round half away from zero; on the
nonnegative rationals used below this is `⌊x + 1/2⌋`. -/
def jsRound (q : ℚ) : ℤ := ⌊q + 1/2⌋

/-- `q.toFixed(k)` for `q ≥ 0`: the digit string with exactly `k` digits
after the decimal point. -/
def fixedNonneg (k : ℕ) (q : ℚ) : Str :=
  let n := (jsRound (q * (10 : ℚ) ^ k)).toNat
  renderNat (n / 10 ^ k) ++ '.' :: padStart k '0' (renderNat (n % 10 ^ k))

/-- `q.toFixed(k)` with the sign handling of JS. -/
def toFixedQ (k : ℕ) (q : ℚ) : Str :=
  if q < 0 then '-' :: fixedNonneg k (-q) else fixedNonneg k q

/-- The rational value denoted by `q.toFixed(k)` — `q` rounded to `k`
decimal places. -/
def fixedValue (k : ℕ) (q : ℚ) : ℚ :=
  if q < 0 then -(((jsRound (-q * (10 : ℚ) ^ k)).toNat : ℚ) / 10 ^ k)
  else ((jsRound (q * (10 : ℚ) ^ k)).toNat : ℚ) / 10 ^ k

/-- Magnitude part of JS `parseFloat`: leading digits, optional fraction;
`none` models `NaN`.  Trailing characters are ignored, as in JS. -/
def parseFloatMag (s : Str) : Option ℚ :=
  let intDigits := s.takeWhile Char.isDigit
  let rest := s.dropWhile Char.isDigit
  let frac : Option ℚ :=
    match rest with
    | '.' :: t =>
      let fracDigits := t.takeWhile Char.isDigit
      some ((parseNatDigits fracDigits : ℚ) / 10 ^ fracDigits.length)
    | _ => some 0
  match intDigits, rest with
  | [], '.' :: t =>
    if (t.takeWhile Char.isDigit).length = 0 then none
    else frac.map (fun f => f)
  | [], _ => none
  | _ :: _, _ => frac.map (fun f => (parseNatDigits intDigits : ℚ) + f)

/-- JS `parseFloat`; `none` models `NaN`.  An optional leading sign, then
the magnitude. -/
def parseFloatQ : Str → Option ℚ
  | [] => none
  | c :: rest =>
    if c = '-' then (parseFloatMag rest).map Neg.neg
    else if c = '+' then parseFloatMag rest
    else parseFloatMag (c :: rest)

/-- JS `parseFloat(s) || 0` (the probe's treatment of unparsable numbers). -/
def parseFloatOr0 (s : Str) : ℚ := (parseFloatQ s).getD 0

/-- JS `parseInt(s, 10)`; `none` models `NaN`.  An optional leading sign,
the leading digits; trailing non-digits are ignored. -/
def parseIntQ : Str → Option ℤ
  | [] => none
  | c :: rest =>
    if c = '-' then
      (let ds := rest.takeWhile Char.isDigit
       if ds.length = 0 then none else some (-(parseNatDigits ds : ℤ)))
    else if c = '+' then
      (let ds := rest.takeWhile Char.isDigit
       if ds.length = 0 then none else some (parseNatDigits ds : ℤ))
    else
      (let ds := (c :: rest).takeWhile Char.isDigit
       if ds.length = 0 then none else some (parseNatDigits ds : ℤ))

/-- Split a string at every occurrence of `"\r\n"` (JS `s.split('\r\n')`,
scanning left to right, non-overlapping). -/
def splitCRLF : Str → List Str
  | [] => [[]]
  | '\r' :: '\n' :: rest => [] :: splitCRLF rest
  | c :: rest =>
    match splitCRLF rest with
    | [] => [[c]]
    | h :: t => (c :: h) :: t

/-- Join lines, terminating every line with `"\r\n"` (the accumulation
`table += line + '\r\n'` used by the renderer). -/
def joinCRLF : List Str → Str
  | [] => []
  | l :: ls => l ++ '\r' :: '\n' :: joinCRLF ls

/-- Lookup in an association list modelling a JS `Map`. -/
def alookup {α : Type} [DecidableEq α] {β : Type} (k : α) :
    List (α × β) → Option β
  | [] => none
  | (k', v) :: rest => if k' = k then some v else alookup k rest

/-- `Map.delete` on the association-list model. -/
def aerase {α : Type} [DecidableEq α] {β : Type} (k : α) :
    List (α × β) → List (α × β)
  | [] => []
  | (k', v) :: rest =>
    if k' = k then aerase k rest else (k', v) :: aerase k rest

/-- `Map.set` on the association-list model: replace in place when the key
exists, else append (JS `Map` preserves insertion order). -/
def aset {α : Type} [DecidableEq α] {β : Type} (k : α) (v : β) :
    List (α × β) → List (α × β)
  | [] => [(k, v)]
  | (k', v') :: rest =>
    if k' = k then (k, v) :: rest else (k', v') :: aset k v rest

/-! ## Rover records and rover authentication

`src/src/models/Rover.js` and `_authenticateRover` in
`src/src/ntrip/ntrip-caster.js` (lines 286-308). -/

/-- A rover record (`src/src/models/Rover.js`).  Dates are day numbers;
`password` is the secret whose bcrypt hash the DB column stores —
`validatePassword` (bcrypt.compare) is modelled as comparison with it. -/
structure Rover where
  id : ℕ
  username : Str
  password : Str
  statusActive : Bool
  startDate : Option ℤ
  endDate : Option ℤ
  deriving DecidableEq

/-- `rover.validatePassword(password)` (Rover.js lines 7-9):
`bcrypt.compare(password, this.password_hash)`. -/
def Rover.validate (r : Rover) (p : Str) : Bool := p == r.password

/-- The virtual field `is_currently_active` (Rover.js lines 69-92): status
must be `active`, `start_date` (when set) must not be after today,
`end_date` (when set) must not be before today. -/
def Rover.isCurrentlyActive (r : Rover) (today : ℤ) : Bool :=
  if !r.statusActive then false
  else if (match r.startDate with | some d => decide (today < d) | none => false)
  then false
  else if (match r.endDate with | some d => decide (d < today) | none => false)
  then false
  else true

/-- `const [username, password] = credentials.split(':')`
(ntrip-caster.js line 292): the destructuring keeps only the first two
segments; `password` is `undefined` (`none`) when the string has no colon. -/
def extractCreds (credentials : Str) : Str × Option Str :=
  let parts := credentials.splitOn ':'
  (parts.headD [], parts.get? 1)

/-- `Rover.findOne({ where: { username, status: 'active' } })`
(ntrip-caster.js line 294) over the explicit rover table. -/
def findActiveRover (db : List Rover) (u : Str) : Option Rover :=
  db.find? (fun r => r.username == u && r.statusActive)

/-- `_authenticateRover` (src/src/ntrip/ntrip-caster.js lines 286-308),
taken from the base64-decoded credential string
(`Buffer.from(authHeader.slice(6), 'base64').toString()` — base64 decoding
is a bijection, so the embedding starts from the decoded octets).  Returns
the `{ id, username }` pair on success.  Note that the function never
consults `start_date` / `end_date` / `is_currently_active`. -/
def authenticateRover (db : List Rover) (credentials : Str) :
    Option (ℕ × Str) :=
  let (u, pOpt) := extractCreds credentials
  match findActiveRover db u with
  | none => none
  | some rover =>
    match pOpt with
    | none => none
    | some p => if rover.validate p then some (rover.id, rover.username) else none

/-! ## The caster's mutable state and its operations

`src/src/ntrip/ntrip-caster.js`.  `this.clients` is a `Map` from session id
(UUID, modelled as `ℕ`) to rover-session objects; `this.stations` is a `Map`
from mountpoint name to station entries each holding a `Set` of subscribed
session ids.  Destroyed sockets are recorded so that eviction is
observable. -/

/-- Sourcetable-relevant metadata of a caster station entry (the fields the
`addStation` spread copies and `getSourcetable` reads). -/
structure StationMeta where
  name : Str
  identifier : Option Str := none
  format : Option Str := none
  formatDetails : Option Str := none
  carrier : Option Str := none
  navSystem : Option Str := none
  network : Option Str := none
  country : Option Str := none
  lat : Option ℚ := none
  lon : Option ℚ := none
  nmea : Bool := false
  solution : Option Str := none
  generator : Option Str := none
  compression : Option Str := none
  fee : Bool := false
  bitrate : Option Str := none
  active : Bool := false
  deriving DecidableEq

/-- A rover session (`_setupRawClient`, lines 310-329): the client object
kept in `this.clients`. -/
structure RoverSession where
  mountpoint : Str
  sock : ℕ
  roverId : ℕ
  roverUsername : Str
  deriving DecidableEq

/-- A station entry in `this.stations`: metadata plus the subscriber set. -/
structure LiveStation where
  meta : StationMeta
  subs : List ℕ
  deriving DecidableEq

/-- The caster state: `this.clients`, `this.stations`, and the set of
destroyed rover sockets. -/
structure CasterState where
  clients : List (ℕ × RoverSession)
  stations : List (Str × LiveStation)
  destroyed : List ℕ
  deriving DecidableEq

/-- Behaviour of a rover socket during one broadcast: `socket.writable`, and
whether `socket.write` raises. -/
structure SockBeh where
  writable : Bool
  writeRaises : Bool

/-- `addStation` (lines 54-72): replace the metadata but keep the subscriber
set when the mountpoint exists (`{ ...existingStation, ...station }` — the
argument has no `clients` field); otherwise insert with an empty set. -/
def addStation (st : CasterState) (meta : StationMeta) : CasterState :=
  match alookup meta.name st.stations with
  | some existing =>
    { st with stations := aset meta.name { existing with meta := meta } st.stations }
  | none =>
    { st with stations := aset meta.name { meta := meta, subs := [] } st.stations }

/-- `_removeClient` (lines 331-347): drop the id from its station's
subscriber set (when the station still exists), destroy the socket, delete
the session from `this.clients`. -/
def removeClient (st : CasterState) (cid : ℕ) : CasterState :=
  match alookup cid st.clients with
  | none => st
  | some c =>
    let stations :=
      match alookup c.mountpoint st.stations with
      | some stn =>
        aset c.mountpoint { stn with subs := stn.subs.erase cid } st.stations
      | none => st.stations
    { clients := aerase cid st.clients
      stations := stations
      destroyed := if c.sock ∈ st.destroyed then st.destroyed else st.destroyed ++ [c.sock] }

/-- `removeStation` (lines 74-87) together with the `close` callbacks of the
destroyed subscriber sockets (each of which runs `_removeClient` once the
event loop is quiescent): destroy every subscriber's socket, delete the
station, then process the close events. -/
def removeStation (st : CasterState) (mp : Str) : CasterState × Bool :=
  match alookup mp st.stations with
  | none => (st, false)
  | some stn =>
    let st1 : CasterState := { st with stations := aerase mp st.stations }
    (stn.subs.foldl (fun s cid => removeClient s cid) st1, true)

/-- `_setupRawClient` (lines 310-329): mint the session, add it to
`this.clients` and to the station's subscriber set.  `cid` stands for the
fresh `crypto.randomUUID()`. -/
def setupRawClient (st : CasterState) (cid : ℕ) (sock : ℕ) (mp : Str)
    (roverId : ℕ) (roverUsername : Str) : CasterState :=
  let session : RoverSession :=
    { mountpoint := mp, sock := sock, roverId := roverId,
      roverUsername := roverUsername }
  let clients := aset cid session st.clients
  match alookup mp st.stations with
  | some stn =>
    { st with clients := clients,
              stations := aset mp { stn with subs := stn.subs ++ [cid] } st.stations }
  | none => { st with clients := clients }

/-- `stop` (lines 42-52): destroy every client socket, clear both maps. -/
def stopCaster (st : CasterState) : CasterState :=
  { clients := []
    stations := []
    destroyed :=
      (st.clients.foldl
        (fun d kv => if kv.2.sock ∈ d then d else d ++ [kv.2.sock]) st.destroyed) }

/-- The iteration body of `broadcast` (lines 94-105) over the snapshot of
the subscriber set, threading the state, the success count and the list of
session ids actually written to.  A present, writable subscriber is written
(counted) unless the write raises, in which case it is evicted via
`_removeClient`; a subscriber that is missing from `this.clients` or whose
socket is not writable is skipped. -/
def broadcastGo (env : ℕ → SockBeh) :
    List ℕ → CasterState → ℕ → List ℕ → CasterState × ℕ × List ℕ
  | [], s, cnt, written => (s, cnt, written)
  | cid :: rest, s, cnt, written =>
    match alookup cid s.clients with
    | none => broadcastGo env rest s cnt written
    | some c =>
      if (env c.sock).writable then
        if (env c.sock).writeRaises then
          broadcastGo env rest (removeClient s cid) cnt written
        else broadcastGo env rest s (cnt + 1) (written ++ [cid])
      else broadcastGo env rest s cnt written

/-- `broadcast(mountpoint, data)` (src/src/ntrip/ntrip-caster.js lines
89-107).  Returns the final state, the success count and the ids written
to.  The payload itself is opaque to the control flow. -/
def broadcast (env : ℕ → SockBeh) (st : CasterState) (mp : Str) :
    CasterState × ℕ × List ℕ :=
  match alookup mp st.stations with
  | none => (st, 0, [])
  | some stn =>
    if stn.subs.length = 0 then (st, 0, [])
    else broadcastGo env stn.subs st 0 []

/-! ## Request dispatch for a mountpoint connection

`_handleParsedRequest` (src/src/ntrip/ntrip-caster.js lines 245-284),
restricted to the `GET /<mountpoint>` branch the claims are about. -/

inductive CasterResponse
  | notFound
  | unauthorized
  | icyOk
  deriving DecidableEq

/-- The mountpoint branch of `_handleParsedRequest` (lines 256-281):
unknown or inactive mountpoint → 404; failed authentication → 401 and the
connection is closed with no session; success → `ICY 200 OK` and
`_setupRawClient`.  `decodedCreds` is the base64-decoded Basic credential
string (`none` when the `Authorization` header is absent or does not start
with `Basic `, in which case `_authenticateRover` returns `null`).  `cid`
and `sock` stand for the fresh session UUID and the accepted socket. -/
def handleMountpointRequest (st : CasterState) (db : List Rover) (mp : Str)
    (decodedCreds : Option Str) (cid sock : ℕ) : CasterResponse × CasterState :=
  match alookup mp st.stations with
  | none => (.notFound, st)
  | some stn =>
    if !stn.meta.active then (.notFound, st)
    else
      match decodedCreds with
      | none => (.unauthorized, st)
      | some creds =>
        match authenticateRover db creds with
        | none => (.unauthorized, st)
        | some (rid, uname) => (.icyOk, setupRawClient st cid sock mp rid uname)

/-! ## Residual bytes after the request headers

`_handleRawConnection` in `src/unnamed/part_007` (lines 277-326) — the
revision that has a rover-side NMEA ingest (`_handleClientData`, bound to
the socket's `'data'` event by `_setupRawClient`, line 508).  After the
header terminator is found, the bytes past `headerEnd + 4` are re-emitted
on the socket under the event name `'clientData'`. -/

def headerTerminator : Str := str "\r\n\r\n"

/-- `requestBuffer.indexOf('\r\n\r\n')`. -/
def findHeaderEnd (buf : Str) : Option ℕ := idxOfSeq headerTerminator buf

/-- The events emitted by part_007's `onData` once the terminator is found
(lines 308-313): the residual bytes go out as a `'clientData'` event. -/
def residualEmit (buf : Str) : List (Str × Str) :=
  match findHeaderEnd buf with
  | none => []
  | some i =>
    let remaining := buf.drop (i + 4)
    if remaining.length > 0 then [(str "clientData", remaining)] else []

/-- The socket events part_007's `_setupRawClient` (lines 508-513)
subscribes to; `_handleClientData` — the NMEA ingest — is bound to
`'data'`. -/
def streamingListeners : List Str := [str "data", str "close", str "error"]

/-- The payloads that reach `_handleClientData`: those emitted under the
event name its listener is registered for. -/
def deliveredToIngest (buf : Str) : List Str :=
  ((residualEmit buf).filter (fun ev => ev.1 == str "data")).map (fun ev => ev.2)

/-! ## The source-client state machine

`src/src/ntrip/ntrip-client.js`.  The socket is reduced to the three flags
the control flow reads: whether one exists, whether its listeners are still
attached (`removeAllListeners`), and the `connected` flag; plus the pending
reconnect timer and the attempt counter.  Handler outputs are recorded as
actions. -/

inductive ClientAction
  | dial
  | writeRequest
  | emitConnected
  | emitDisconnected
  | emitAuthError
  | emitMaxAttemptsError
  | emitFrame (data : Str)
  | scheduleReconnect
  deriving DecidableEq

structure ClientState where
  hasSocket : Bool
  listeners : Bool
  connected : Bool
  reconnectTimer : Bool
  reconnectAttempts : ℕ
  maxReconnectAttempts : ℕ
  deriving DecidableEq

/-- `disconnect()` (lines 56-69): clear the `connected` flag and the pending
reconnect timer; when a socket exists, remove all of its listeners, destroy
it and emit `'disconnected'`. -/
def disconnectClient (s : ClientState) : ClientState × List ClientAction :=
  let s1 := { s with connected := false, reconnectTimer := false }
  if s1.hasSocket then
    ({ s1 with hasSocket := false, listeners := false }, [.emitDisconnected])
  else (s1, [])

/-- `connect()` (lines 30-54): tear down an existing socket first, clear any
pending reconnect timer, then create a socket with its listeners attached
and begin the TCP dial. -/
def connectClient (s : ClientState) : ClientState × List ClientAction :=
  let (s1, a1) := if s.hasSocket then disconnectClient s else (s, [])
  let s2 := { s1 with reconnectTimer := false, hasSocket := true, listeners := true }
  (s2, a1 ++ [.dial])

/-- `_handleConnect` (lines 83-87): on TCP establishment, write the request
header and reset the attempt counter. -/
def handleConnect (s : ClientState) : ClientState × List ClientAction :=
  ({ s with reconnectAttempts := 0 }, [.writeRequest])

/-- `_handleData` (lines 89-111).  Before the handshake completes, a chunk
containing `ICY 200 OK` flips `connected` and forwards any bytes past the
header terminator as the first RTCM frame; any other chunk emits an
authentication error and runs `disconnect()`.  After the handshake every
chunk is forwarded verbatim. -/
def handleData (s : ClientState) (chunk : Str) : ClientState × List ClientAction :=
  if !s.connected then
    if isSubstr (str "ICY 200 OK") chunk then
      let s1 := { s with connected := true }
      let residualFrames : List ClientAction :=
        match findHeaderEnd chunk with
        | some i => if i + 4 < chunk.length then [.emitFrame (chunk.drop (i + 4))] else []
        | none => []
      (s1, .emitConnected :: residualFrames)
    else
      let (s1, a1) := disconnectClient s
      (s1, .emitAuthError :: a1)
  else (s, [.emitFrame chunk])

/-- `_handleClose` (lines 125-138): below the attempt budget, bump the
counter and schedule `connect()`; at the budget, emit the permanent
error. -/
def handleClose (s : ClientState) : ClientState × List ClientAction :=
  let s1 := { s with connected := false }
  if s1.reconnectAttempts < s1.maxReconnectAttempts then
    ({ s1 with reconnectAttempts := s1.reconnectAttempts + 1, reconnectTimer := true },
     [.emitDisconnected, .scheduleReconnect])
  else (s1, [.emitDisconnected, .emitMaxAttemptsError])

inductive ClientEvent
  | tcpConnected
  | dataEvent (chunk : Str)
  | closeEvent
  | timerFire
  deriving DecidableEq

/-- Which events the runtime can still deliver to this client: socket events
need a socket with listeners attached; the reconnect timer only fires while
set.  (`connect()` calls made by the supervisor are not client-initiated
events.) -/
def deliverable (s : ClientState) : ClientEvent → Bool
  | .tcpConnected => s.hasSocket && s.listeners
  | .dataEvent _ => s.hasSocket && s.listeners
  | .closeEvent => s.hasSocket && s.listeners
  | .timerFire => s.reconnectTimer

/-- One step of the client's event loop; `none` when the event cannot be
delivered. -/
def stepClient (s : ClientState) : ClientEvent → Option (ClientState × List ClientAction)
  | .tcpConnected => if deliverable s .tcpConnected then some (handleConnect s) else none
  | .dataEvent chunk =>
    if deliverable s (.dataEvent chunk) then some (handleData s chunk) else none
  | .closeEvent => if deliverable s .closeEvent then some (handleClose s) else none
  | .timerFire =>
    if deliverable s .timerFire then
      some (connectClient { s with reconnectTimer := false })
    else none

/-! ## The relay supervisor's `stopRelay`

`src/src/services/relay.service.js` lines 240-303 and the revision in
`src/unnamed/part_000` lines 160-195.  The supervisor state is the
`this.clients` map (mountpoint name → relay entry, whose `station.name` the
orphan scan reads) and the key set of the caster's station map. -/

structure RelayEntry where
  stationName : Str
  deriving DecidableEq

structure RelayState where
  relays : List (Str × RelayEntry)
  casterStations : List Str
  deriving DecidableEq

structure StopOutcome where
  state : RelayState
  success : Bool
  deriving DecidableEq

/-- `stopRelay(stationName)` in src/src/services/relay.service.js (lines
240-303): delete the keyed relay entry (disconnecting its client and
clearing its timer), remove the station from the caster when registered,
then sweep orphaned entries whose `station.name` matches; when none of the
three stages found anything, return
`{ success: false, message: 'No relay or station found for this station' }`. -/
def stopRelay (st : RelayState) (name : Str) : StopOutcome :=
  let found1 := (alookup name st.relays).isSome
  let relays1 := aerase name st.relays
  let foundCaster := name ∈ st.casterStations
  let caster1 := st.casterStations.filter (fun n => n ≠ name)
  let orphans := relays1.filter (fun kv => kv.2.stationName = name)
  let relays2 := relays1.filter (fun kv => kv.2.stationName ≠ name)
  { state := { relays := relays2, casterStations := caster1 }
    success := found1 || decide foundCaster || !orphans.isEmpty }

/-- `stopRelay(stationName, updateDb)` in `src/unnamed/part_000` (lines
160-195): delete the keyed entry when present, always call
`caster.removeStation`, and return `{ success: true }` unconditionally. -/
def stopRelayP0 (st : RelayState) (name : Str) : StopOutcome :=
  { state :=
      { relays := aerase name st.relays
        casterStations := st.casterStations.filter (fun n => n ≠ name) }
    success := true }

/-! ## Sourcetable rendering and the probe's STR-line parser

`getSourcetable` (src/src/ntrip/ntrip-caster.js lines 109-162) and
`fetchMountpointsFromSource` (src/unnamed/part_000 lines 348-397). -/

structure CasterOptions where
  host : Str
  port : ℕ
  operatorName : Str
  country : Str
  deriving DecidableEq

/-- JS `a || b` for an optional string `a`: `undefined` and the empty string
are falsy. -/
def jsOrStr (x : Option Str) (d : Str) : Str :=
  match x with
  | some s => if s.isEmpty then d else s
  | none => d

/-- JS truthiness of an optional number (`!station.lat`): `undefined`,
`null` and `0` are falsy. -/
def qTruthy : Option ℚ → Bool
  | none => false
  | some q => decide (q ≠ 0)

/-- One `STR` line (lines 120-139): the eighteen positional fields joined
with `';'`. -/
def renderSTRline (opts : CasterOptions) (mp : Str) (m : StationMeta)
    (la lo : ℚ) : Str :=
  List.intercalate [';']
    [ str "STR", mp, jsOrStr m.identifier mp,
      jsOrStr m.format (str "RTCM 3.2"),
      jsOrStr m.formatDetails (str "1004(1),1005/1006(5),1019(5),1020(5)"),
      jsOrStr m.carrier (str "2"),
      jsOrStr m.navSystem (str "GPS+GLO+GAL+BDS"),
      jsOrStr m.network (str "CORS"),
      jsOrStr m.country opts.country,
      toFixedQ 4 la, toFixedQ 4 lo,
      (if m.nmea then str "1" else str "0"),
      jsOrStr m.solution (str "1"),
      jsOrStr m.generator (str "NTRIP-JS-Relay/1.0"),
      jsOrStr m.compression (str "none"),
      str "B",
      (if m.fee then str "Y" else str "N"),
      jsOrStr m.bitrate (str "2400") ]

/-- The renderer's guard (lines 114-118): a station is skipped unless
`station.active` and its `lat` and `lon` are truthy. -/
def strEntryOf (opts : CasterOptions) (kv : Str × LiveStation) : Option Str :=
  if kv.2.meta.active && qTruthy kv.2.meta.lat && qTruthy kv.2.meta.lon then
    some (renderSTRline opts kv.1 kv.2.meta (kv.2.meta.lat.getD 0) (kv.2.meta.lon.getD 0))
  else none

/-- The `CAS` line (lines 143-146). -/
def casLine (opts : CasterOptions) : Str :=
  let host := if opts.host == str "0.0.0.0" then str "127.0.0.1" else opts.host
  List.intercalate [';']
    [ str "CAS", host, renderNat opts.port, str "VN_CASTER", opts.operatorName,
      str "0", opts.country, str "16.0000", str "106.0000", [] ]

/-- The `NET` line (lines 148-150). -/
def netLine (opts : CasterOptions) : Str :=
  List.intercalate [';']
    [ str "NET", str "VN_NETWORK", opts.operatorName, str "B", str "N",
      [], [], str "Vietnam CORS Network Relay" ]

/-- The lines of the sourcetable body, each of which the renderer terminates
with `"\r\n"` (lines 140, 146, 150, 152). -/
def tableLines (opts : CasterOptions) (stations : List (Str × LiveStation)) :
    List Str :=
  (stations.filterMap (strEntryOf opts)) ++
    [casLine opts, netLine opts, str "ENDSOURCETABLE"]

/-- The sourcetable body string. -/
def tableBody (opts : CasterOptions) (stations : List (Str × LiveStation)) : Str :=
  joinCRLF (tableLines opts stations)

/-- The response header lines (lines 154-159); the final `""` renders the
blank line before the body.  `Content-Length` is `Buffer.byteLength(table)`
— the body is ASCII at every relevant input so the byte length is the
character count. -/
def sourcetableHeaderLines (bodyLen : ℕ) : List Str :=
  [ str "SOURCETABLE 200 OK", str "Server: NTRIP-JS-Caster/1.0",
    str "Content-Type: text/plain", str "Connection: close",
    str "Content-Length: " ++ renderNat bodyLen, [] ]

/-- `getSourcetable()` (lines 109-162): header plus body. -/
def getSourcetable (opts : CasterOptions)
    (stations : List (Str × LiveStation)) : Str :=
  joinCRLF (sourcetableHeaderLines (tableBody opts stations).length) ++
    tableBody opts stations

/-- The record `fetchMountpointsFromSource` builds per `STR;` line
(src/unnamed/part_000 lines 367-377). -/
structure MpRecord where
  mountpoint : Str
  identifier : Str
  format : Str
  formatDetails : Str
  carrier : Str
  navSystem : Str
  network : Str
  country : Str
  latitude : ℚ
  longitude : ℚ
  nmea : Bool
  solution : Bool
  generator : Str
  authentication : Str
  deriving DecidableEq

/-- `line.split(';')` plus the field picks of part_000 lines 369-376. -/
def parseSTRline (line : Str) : MpRecord :=
  let fields := line.splitOn ';'
  { mountpoint := fields.getD 1 []
    identifier := fields.getD 2 []
    format := fields.getD 3 []
    formatDetails := fields.getD 4 []
    carrier := fields.getD 5 []
    navSystem := fields.getD 6 []
    network := fields.getD 7 []
    country := fields.getD 8 []
    latitude := parseFloatOr0 (fields.getD 9 [])
    longitude := parseFloatOr0 (fields.getD 10 [])
    nmea := fields.getD 12 [] == str "1"
    solution := fields.getD 13 [] == str "1"
    generator := fields.getD 14 []
    authentication := jsOrStr (some (fields.getD 16 [])) (str "N") }

inductive ProbeResult
  | unauthorized
  | invalid
  | ok (records : List MpRecord)
  deriving DecidableEq

/-- The `close` handler of `fetchMountpointsFromSource` (part_000 lines
355-383): require `SOURCETABLE 200 OK` somewhere in the accumulated
response (distinguishing a `401 Unauthorized` reply), split the response on
`"\r\n"`, keep the lines starting with `STR;`, parse each. -/
def fetchMountpoints (responseData : Str) : ProbeResult :=
  if !(isSubstr (str "SOURCETABLE 200 OK") responseData) then
    if isSubstr (str "401 Unauthorized") responseData then .unauthorized
    else .invalid
  else
    .ok ((((splitCRLF responseData).filter
        (fun l => strStarts (str "STR;") l))).map parseSTRline)

/-- The mountpoints the renderer emitted, with the latitude and longitude
values denoted by their 4-decimal renderings. -/
def renderedMps (stations : List (Str × LiveStation)) : List (Str × ℚ × ℚ) :=
  stations.filterMap (fun kv =>
    if kv.2.meta.active && qTruthy kv.2.meta.lat && qTruthy kv.2.meta.lon then
      some (kv.1, fixedValue 4 (kv.2.meta.lat.getD 0),
            fixedValue 4 (kv.2.meta.lon.getD 0))
    else none)

/-- A string free of the separators the sourcetable round trip relies on. -/
def cleanStr (s : Str) : Bool :=
  !s.contains ';' && !s.contains '\r' && !s.contains '\n'

/-- All string fields an `STR` line interpolates for station `kv`. -/
def cleanEntry (opts : CasterOptions) (kv : Str × LiveStation) : Bool :=
  cleanStr kv.1 && cleanStr (jsOrStr kv.2.meta.identifier kv.1) &&
    cleanStr (jsOrStr kv.2.meta.format (str "RTCM 3.2")) &&
    cleanStr (jsOrStr kv.2.meta.formatDetails
      (str "1004(1),1005/1006(5),1019(5),1020(5)")) &&
    cleanStr (jsOrStr kv.2.meta.carrier (str "2")) &&
    cleanStr (jsOrStr kv.2.meta.navSystem (str "GPS+GLO+GAL+BDS")) &&
    cleanStr (jsOrStr kv.2.meta.network (str "CORS")) &&
    cleanStr (jsOrStr kv.2.meta.country opts.country) &&
    cleanStr (jsOrStr kv.2.meta.solution (str "1")) &&
    cleanStr (jsOrStr kv.2.meta.generator (str "NTRIP-JS-Relay/1.0")) &&
    cleanStr (jsOrStr kv.2.meta.compression (str "none")) &&
    cleanStr (jsOrStr kv.2.meta.bitrate (str "2400"))

/-- The option strings interpolated into the `CAS` / `NET` lines. -/
def cleanOpts (opts : CasterOptions) : Bool :=
  cleanStr opts.host && cleanStr opts.operatorName && cleanStr opts.country

/-! ## NMEA GGA formatting and parsing

`_formatNmeaGGA` (src/src/ntrip/ntrip-client.js lines 162-184) and
`_parseGGA` (src/unnamed/part_007 lines 548-565). -/

/-- Uppercase hexadecimal digit. -/
def hexDigitChar (n : ℕ) : Char :=
  if n < 10 then Char.ofNat (48 + n) else Char.ofNat (55 + n)

/-- `n.toString(16).toUpperCase()` for a natural number. -/
def renderHex (n : ℕ) : Str :=
  if _h : n < 16 then [hexDigitChar n]
  else renderHex (n / 16) ++ [hexDigitChar (n % 16)]
  termination_by n
  decreasing_by
    exact Nat.div_lt_self (by omega) (by omega)

/-- The parsed fields of a GGA sentence (part_007 lines 552-560); `none`
models a `NaN` component. -/
structure ParsedGGA where
  lat : Option ℚ
  lon : Option ℚ
  alt : Option ℚ
  quality : Option ℤ
  satellites : Option ℤ
  deriving DecidableEq

/-- `NaN`-propagating addition. -/
def optAdd : Option ℚ → Option ℚ → Option ℚ
  | some a, some b => some (a + b)
  | _, _ => none

/-- `NaN`-propagating division by 60. -/
def optDiv60 : Option ℚ → Option ℚ
  | some a => some (a / 60)
  | none => none

/-- `fields[i] === 'S' ? -lat : lat`. -/
def optNegIf (b : Bool) (x : Option ℚ) : Option ℚ :=
  if b then x.map Neg.neg else x

/-- `_parseGGA` (src/unnamed/part_007 lines 548-565): split on `','`;
at least ten fields; latitude `DDMM.mmmmm` from field 2 via
`parseInt(substring(0,2)) + parseFloat(substring(2))/60`, longitude
`DDDMM.mmmmm` from field 4 with a three-digit degree part; `S` / `W`
negate; altitude field 9, quality field 6, satellites field 7. -/
def parseGGA (gga : Str) : Option ParsedGGA :=
  let fields := gga.splitOn ','
  if fields.length < 10 then none
  else
    let f2 := fields.getD 2 []
    let f4 := fields.getD 4 []
    let latm := optAdd ((parseIntQ (f2.take 2)).map (fun z => (z : ℚ)))
      (optDiv60 (parseFloatQ (f2.drop 2)))
    let lonm := optAdd ((parseIntQ (f4.take 3)).map (fun z => (z : ℚ)))
      (optDiv60 (parseFloatQ (f4.drop 3)))
    some
      { lat := optNegIf (fields.getD 3 [] == str "S") latm
        lon := optNegIf (fields.getD 5 [] == str "W") lonm
        alt := parseFloatQ (fields.getD 9 [])
        quality := parseIntQ (fields.getD 6 [])
        satellites := parseIntQ (fields.getD 7 []) }

/-- `position.alt.toFixed(1)`; a `NaN` altitude renders as `"NaN"`. -/
def renderAlt : Option ℚ → Str
  | some a => toFixedQ 1 a
  | none => str "NaN"

/-- The fifteen comma-joined fields of the formatted sentence body
(line 176): `GPGGA,<time>,<lat>,<hem>,<lon>,<hem>,1,08,1.0,<alt.1>,M,0.0,M,,`. -/
def ggaBodyFields (timeStr latStr latHem lonStr lonHem altStr : Str) :
    List Str :=
  [str "GPGGA", timeStr, latStr, latHem, lonStr, lonHem, str "1", str "08",
   str "1.0", altStr, str "M", str "0.0", str "M", [], []]

/-- `_formatNmeaGGA` (src/src/ntrip/ntrip-client.js lines 162-184).  The
UTC time string is a parameter (the source reads the wall clock); latitude
renders as `DD` (2-padded degrees) followed by minutes `toFixed(5)` padded
to 8 characters, longitude with 3-padded degrees; the checksum is the XOR
of the body's char codes, rendered as two uppercase hex digits. -/
def formatNmeaGGA (timeStr : Str) (lat lon : ℚ) (altN : Option ℚ) : Str :=
  let latDeg := (⌊|lat|⌋).toNat
  let latMin := (|lat| - (latDeg : ℚ)) * 60
  let latStr := padStart 2 '0' (renderNat latDeg) ++
    padStart 8 '0' (fixedNonneg 5 latMin)
  let latHem := if 0 ≤ lat then str "N" else str "S"
  let lonDeg := (⌊|lon|⌋).toNat
  let lonMin := (|lon| - (lonDeg : ℚ)) * 60
  let lonStr := padStart 3 '0' (renderNat lonDeg) ++
    padStart 8 '0' (fixedNonneg 5 lonMin)
  let lonHem := if 0 ≤ lon then str "E" else str "W"
  let body := List.intercalate [',']
    (ggaBodyFields timeStr latStr latHem lonStr lonHem (renderAlt altN))
  let checksum := body.foldl (fun a c => a ^^^ c.toNat) 0
  '$' :: body ++ '*' :: padStart 2 '0' (renderHex checksum) ++ str "\r\n"

/-- The `DDMM.mmmmm` / `DDDMM.mmmmm` text the formatter emits for one
coordinate: `w`-padded whole degrees followed by the 8-padded
`toFixed(5)` minutes. -/
def degMinStr (w : ℕ) (q : ℚ) : Str :=
  padStart w '0' (renderNat (⌊|q|⌋).toNat) ++
    padStart 8 '0' (fixedNonneg 5 ((|q| - ((⌊|q|⌋).toNat : ℚ)) * 60))

/-- Syntactic validity of the latitude field: `DDMM.mmmmm` with `DD ≤ 90`
and `MM ≤ 59`. -/
def latFieldOK (s : Str) : Bool :=
  match s with
  | [a, b, c, d, dot, e1, e2, e3, e4, e5] =>
    a.isDigit && b.isDigit && c.isDigit && d.isDigit && dot == '.' &&
      e1.isDigit && e2.isDigit && e3.isDigit && e4.isDigit && e5.isDigit &&
      decide (10 * (a.toNat - 48) + (b.toNat - 48) ≤ 90) &&
      decide (10 * (c.toNat - 48) + (d.toNat - 48) ≤ 59)
  | _ => false

/-- Syntactic validity of the longitude field: `DDDMM.mmmmm` with
`DDD ≤ 180` and `MM ≤ 59`. -/
def lonFieldOK (s : Str) : Bool :=
  match s with
  | [a, b, c, d, e, dot, e1, e2, e3, e4, e5] =>
    a.isDigit && b.isDigit && c.isDigit && d.isDigit && e.isDigit &&
      dot == '.' &&
      e1.isDigit && e2.isDigit && e3.isDigit && e4.isDigit && e5.isDigit &&
      decide (100 * (a.toNat - 48) + 10 * (b.toNat - 48) + (c.toNat - 48) ≤ 180) &&
      decide (10 * (d.toNat - 48) + (e.toNat - 48) ≤ 59)
  | _ => false

/-- A syntactically valid GGA sentence in the sense of the round-trip
claim: at least ten comma-separated fields, a well-formed `DDMM.mmmmm`
latitude with hemisphere `N`/`S`, a well-formed `DDDMM.mmmmm` longitude
with hemisphere `E`/`W`. -/
def validGGA (x : Str) : Bool :=
  let fields := x.splitOn ','
  decide (10 ≤ fields.length) && latFieldOK (fields.getD 2 []) &&
    (fields.getD 3 [] == str "N" || fields.getD 3 [] == str "S") &&
    lonFieldOK (fields.getD 4 []) &&
    (fields.getD 5 [] == str "E" || fields.getD 5 [] == str "W")

/-! ## The caster's session/subscriber consistency invariant -/

/-- `cid` is a member of the subscriber set of the registered station
`mp`. -/
def subOk (st : CasterState) (cid : ℕ) (mp : Str) : Bool :=
  match alookup mp st.stations with
  | some stn => decide (cid ∈ stn.subs)
  | none => false

/-- Every rover session points at a registered station that lists it. -/
def clientsConsistent (st : CasterState) : Bool :=
  st.clients.all (fun kv => subOk st kv.1 kv.2.mountpoint)

/-- Every subscriber id of every station is a session keyed in
`this.clients` whose `mountpoint` is that station. -/
def stationsConsistent (st : CasterState) : Bool :=
  st.stations.all (fun skv =>
    skv.2.subs.all (fun cid =>
      match alookup cid st.clients with
      | some c => c.mountpoint == skv.1
      | none => false))

/-- The mutual-consistency invariant of the caster state, together with the
key/set uniqueness a JS `Map`/`Set` provides. -/
def casterInv (st : CasterState) : Prop :=
  clientsConsistent st = true ∧ stationsConsistent st = true ∧
    (st.clients.map Prod.fst).Nodup ∧ (st.stations.map Prod.fst).Nodup ∧
    ∀ kv ∈ st.stations, kv.2.subs.Nodup

instance (st : CasterState) : Decidable (casterInv st) := by
  unfold casterInv; infer_instance

/-! ## Concrete objects used to evaluate the model -/

/-- Day number used as "today" in concrete evaluations. -/
def demoToday : ℤ := 20290

/-- A rover whose subscription expired yesterday but whose `status` column
is still `'active'`. -/
def expiredRover : Rover :=
  { id := 7, username := str "rover1", password := str "rover123",
    statusActive := true, startDate := none, endDate := some (demoToday - 1) }

/-- Metadata of the registered demo station `VRS01`. -/
def demoMeta : StationMeta :=
  { name := str "VRS01", lat := some (21 : ℚ), lon := some (106 : ℚ),
    active := true }

/-- Caster state with the single registered, subscriber-free station
`VRS01`. -/
def demoCaster : CasterState :=
  { clients := [], stations := [(str "VRS01", { meta := demoMeta, subs := [] })],
    destroyed := [] }

/-- Caster state with one rover session subscribed to `VRS01`. -/
def demoCasterOneClient : CasterState :=
  { clients := [(1, { mountpoint := str "VRS01", sock := 5, roverId := 7,
                      roverUsername := str "rover1" })]
    stations := [(str "VRS01", { meta := demoMeta, subs := [1] })]
    destroyed := [] }

/-- A socket environment in which every socket reports `writable: false`. -/
def envUnwritable : ℕ → SockBeh := fun _ => { writable := false, writeRaises := false }

/-- A freshly dialling client state (handshake not yet complete). -/
def demoClientHandshaking : ClientState :=
  { hasSocket := true, listeners := true, connected := false,
    reconnectTimer := false, reconnectAttempts := 0, maxReconnectAttempts := 10 }

/-- A handshake chunk whose status line contains `401` but whose body
contains the bytes `ICY 200 OK`. -/
def chunk401icy : Str := str "HTTP/1.1 401 Unauthorized\r\n\r\nICY 200 OK"

/-- Socket environment for a three-subscriber broadcast: socket 11 accepts
the write, socket 12 raises on write, socket 13 is not writable. -/
def w3Env : ℕ → SockBeh := fun k =>
  if k = 11 then { writable := true, writeRaises := false }
  else if k = 12 then { writable := true, writeRaises := true }
  else { writable := false, writeRaises := false }

/-- Caster state with three rover sessions subscribed to `MP`. -/
def w3State : CasterState :=
  { clients :=
      [ (1, { mountpoint := str "MP", sock := 11, roverId := 1,
              roverUsername := str "a" }),
        (2, { mountpoint := str "MP", sock := 12, roverId := 2,
              roverUsername := str "b" }),
        (3, { mountpoint := str "MP", sock := 13, roverId := 3,
              roverUsername := str "c" }) ]
    stations := [(str "MP", { meta := demoMeta, subs := [1, 2, 3] })]
    destroyed := [] }

/-- Caster options used in concrete sourcetable evaluations. -/
def demoOpts : CasterOptions :=
  { host := str "0.0.0.0", port := 2101,
    operatorName := str "VN Relay", country := str "VNM" }

/-! ## Generic lemmas about the association-list and string toolkit -/

theorem alookup_aerase_self {α β : Type} [DecidableEq α] (k : α)
    (l : List (α × β)) : alookup k (aerase k l) = none := by
  induction l with
  | nil => rfl
  | cons kv rest ih =>
    obtain ⟨k', v⟩ := kv
    by_cases h : k' = k
    · simpa [aerase, h] using ih
    · simpa [aerase, h, alookup] using ih

theorem alookup_aerase_other {α β : Type} [DecidableEq α] {k k' : α}
    (h : k' ≠ k) (l : List (α × β)) :
    alookup k' (aerase k l) = alookup k' l := by
  induction l with
  | nil => rfl
  | cons kv rest ih =>
    obtain ⟨a, v⟩ := kv
    by_cases hk : a = k
    · have h2 : k ≠ k' := fun hh => h hh.symm
      simp [aerase, hk, alookup, h2, ih]
    · by_cases hk' : a = k'
      · simp [aerase, hk, alookup, hk', h]
      · simp [aerase, hk, alookup, hk', ih]

/-! ## C1: an expired rover with correct credentials is authenticated -/

/-- C1 (code bug evidence): the rover `rover1` has `status = 'active'` but
`end_date` equal to yesterday, so `is_currently_active` is `false`; yet a
connection to the registered mountpoint `VRS01` carrying the correct Basic
credentials `rover1:rover123` is authenticated by `_authenticateRover`
(which never consults the dates), receives `ICY 200 OK` rather than 401,
and a rover session is created.  The claim says such a request receives 401
and creates no session. -/
theorem c1_expired_rover_gets_icy_and_session :
    expiredRover.isCurrentlyActive demoToday = false ∧
    authenticateRover [expiredRover] (str "rover1:rover123") =
      some (7, str "rover1") ∧
    (handleMountpointRequest demoCaster [expiredRover] (str "VRS01")
        (some (str "rover1:rover123")) 1 5).1 = CasterResponse.icyOk ∧
    (alookup 1 (handleMountpointRequest demoCaster [expiredRover] (str "VRS01")
        (some (str "rover1:rover123")) 1 5).2.clients).isSome = true := by
  decide

/-! ## C4: residual bytes behind the header terminator are dropped -/

/-- C4 (code bug evidence): an accept-buffer carrying a GGA sentence behind
`\r\n\r\n` produces a `'clientData'` emission for the residual bytes, but
the streaming phase only listens on `'data'`, so nothing reaches the NMEA
ingest `_handleClientData` — the residual bytes are dropped, where the
claim requires them to be delivered as the first inbound datagram. -/
theorem c4_residual_bytes_dropped :
    residualEmit (str "GET /VRS01 HTTP/1.1\r\n\r\n$GPGGA,060000.00,2101.71000,N,10551.25000,E,1,08,1.0,100.0,M,0.0,M,,*47") =
      [(str "clientData",
        str "$GPGGA,060000.00,2101.71000,N,10551.25000,E,1,08,1.0,100.0,M,0.0,M,,*47")] ∧
    (str "clientData") ∉ streamingListeners ∧
    deliveredToIngest (str "GET /VRS01 HTTP/1.1\r\n\r\n$GPGGA,060000.00,2101.71000,N,10551.25000,E,1,08,1.0,100.0,M,0.0,M,,*47") = [] := by
  decide

/-! ## C9: where the reconnect attempt counter is reset -/

/-- C9 (counterexample): from a handshaking state with three consumed
attempts, the TCP-establishment handler `_handleConnect` already resets the
counter to 0 while the connection is still not streaming; and processing
`ICY 200 OK` (the Handshaking→Streaming transition) leaves the counter at
3.  The claim asserts the reset happens exactly at the latter transition
and not at TCP establishment. -/
theorem c9_reset_at_tcp_connect_cex :
    (handleConnect { demoClientHandshaking with reconnectAttempts := 3 }).1.reconnectAttempts = 0 ∧
    (handleConnect { demoClientHandshaking with reconnectAttempts := 3 }).1.connected = false ∧
    (handleData { demoClientHandshaking with reconnectAttempts := 3 }
        (str "ICY 200 OK\r\n\r\n")).1.connected = true ∧
    (handleData { demoClientHandshaking with reconnectAttempts := 3 }
        (str "ICY 200 OK\r\n\r\n")).1.reconnectAttempts = 3 := by
  decide

/-- C9 (amended): the attempt counter is reset exactly by `_handleConnect`
— the Dialing→Handshaking transition on TCP establishment — and the data
handler (including the `ICY 200 OK` success path) never modifies it, so
attempts whose TCP dial succeeds refresh the budget even when the handshake
then fails. -/
theorem c9_attempt_counter_reset_location (s : ClientState) (chunk : Str) :
    (handleConnect s).1.reconnectAttempts = 0 ∧
    (handleData s chunk).1.reconnectAttempts = s.reconnectAttempts := by
  refine ⟨rfl, ?_⟩
  unfold handleData disconnectClient
  split
  · split
    · rfl
    · dsimp only
      split <;> rfl
  · rfl

theorem mem_aerase_key_ne {α β : Type} [DecidableEq α] {k : α}
    {l : List (α × β)} : ∀ kv ∈ aerase k l, kv.1 ≠ k := by
  induction l with
  | nil => intro kv h; cases h
  | cons hd rest ih =>
    obtain ⟨a, v⟩ := hd
    intro kv hkv
    by_cases ha : a = k
    · exact ih kv (by simpa [aerase, ha] using hkv)
    · rcases (by simpa [aerase, ha] using hkv : kv = (a, v) ∨ kv ∈ aerase k rest) with
        h | h
      · rw [h]; exact ha
      · exact ih kv h

theorem alookup_eq_none_of_keys_ne {α β : Type} [DecidableEq α] {k : α}
    {l : List (α × β)} (h : ∀ kv ∈ l, kv.1 ≠ k) : alookup k l = none := by
  induction l with
  | nil => rfl
  | cons hd rest ih =>
    obtain ⟨a, v⟩ := hd
    have ha : a ≠ k := h (a, v) (List.mem_cons_self _ _)
    simpa [alookup, ha] using ih (fun kv hkv => h kv (List.mem_cons_of_mem _ hkv))

theorem aerase_eq_self_of_keys_ne {α β : Type} [DecidableEq α] {k : α}
    {l : List (α × β)} (h : ∀ kv ∈ l, kv.1 ≠ k) : aerase k l = l := by
  induction l with
  | nil => rfl
  | cons hd rest ih =>
    obtain ⟨a, v⟩ := hd
    have ha : a ≠ k := h (a, v) (List.mem_cons_self _ _)
    simp [aerase, ha, ih (fun kv hkv => h kv (List.mem_cons_of_mem _ hkv))]

/-! ## C6: stopping an absent mountpoint -/

/-- C6 (counterexample): with no running relay and no registered caster
station, `stopRelay` in src/src/services/relay.service.js returns
`success: false` (`'No relay or station found for this station'`), where
the claim says the operation always succeeds. -/
theorem c6_stop_absent_mountpoint_fails_cex :
    (stopRelay { relays := [], casterStations := [] } (str "VRS01")).success = false := by
  decide

/-- C6 (amended): `stopRelay` is idempotent in its state effect (a second
application changes nothing) and it removes the relay entry and the caster
station; it reports success exactly when a keyed relay entry, a registered
caster station, or an orphaned entry with matching `station.name` existed;
on a mountpoint with none of these it returns `success: false`.  The
part_000 revision of `stopRelay` returns success unconditionally. -/
theorem c6_stop_relay_semantics (st : RelayState) (name : Str) :
    (stopRelay (stopRelay st name).state name).state = (stopRelay st name).state ∧
    ((stopRelay st name).success = true ↔
      ((alookup name st.relays).isSome = true ∨ name ∈ st.casterStations ∨
        ∃ kv ∈ aerase name st.relays, kv.2.stationName = name)) ∧
    alookup name (stopRelay st name).state.relays = none ∧
    name ∉ (stopRelay st name).state.casterStations ∧
    (stopRelayP0 st name).success = true := by
  have relays1 := aerase name st.relays
  refine ⟨?_, ?_, ?_, ?_, rfl⟩
  · have hkeys : ∀ kv ∈ (aerase name st.relays).filter
        (fun kv => kv.2.stationName ≠ name), kv.1 ≠ name := by
      intro kv hkv
      exact mem_aerase_key_ne kv (List.mem_of_mem_filter hkv)
    have hstn : ∀ kv ∈ (aerase name st.relays).filter
        (fun kv => kv.2.stationName ≠ name), kv.2.stationName ≠ name := by
      intro kv hkv
      simpa using List.of_mem_filter hkv
    have hcs : ∀ n ∈ st.casterStations.filter (fun n => n ≠ name), n ≠ name := by
      intro n hn; simpa using List.of_mem_filter hn
    simp only [stopRelay]
    congr 1
    · rw [aerase_eq_self_of_keys_ne hkeys]
      exact List.filter_eq_self.mpr (fun kv hkv => by
        simpa using hstn kv hkv)
    · exact List.filter_eq_self.mpr (fun n hn => by simpa using hcs n hn)
  · simp only [stopRelay, Bool.or_eq_true, decide_eq_true_eq,
      Bool.not_eq_true', List.isEmpty_eq_false_iff_exists_mem]
    constructor
    · rintro ((h | h) | ⟨kv, hkv⟩)
      · exact Or.inl h
      · exact Or.inr (Or.inl h)
      · exact Or.inr (Or.inr ⟨kv, List.mem_of_mem_filter hkv,
          by simpa using List.of_mem_filter hkv⟩)
    · rintro (h | h | ⟨kv, hkv, hname⟩)
      · exact Or.inl (Or.inl h)
      · exact Or.inl (Or.inr h)
      · exact Or.inr ⟨kv, List.mem_filter.mpr ⟨hkv, by simpa using hname⟩⟩
  · exact alookup_eq_none_of_keys_ne (fun kv hkv =>
      mem_aerase_key_ne kv (List.mem_of_mem_filter hkv))
  · intro hmem
    have := List.of_mem_filter hmem
    simp at this

theorem not_mem_of_mem_splitOn {α : Type} [DecidableEq α] {x : α}
    {xs l : List α} (h : l ∈ xs.splitOn x) : x ∉ l := by
  induction xs generalizing l with
  | nil =>
    simp only [List.splitOn_nil, List.mem_singleton] at h
    simp [h]
  | cons c xs ih =>
    rw [List.splitOn, List.splitOnP_cons] at h
    by_cases hc : c = x
    · simp only [hc, beq_self_eq_true, if_pos] at h
      rcases List.mem_cons.mp h with h | h
      · simp [h]
      · exact ih (by simpa [List.splitOn] using h)
    · simp only [beq_eq_false_iff_ne.mpr (Ne.symm (fun hh => hc hh.symm)),
        Bool.false_eq_true, if_neg, not_false_eq_true] at h
      obtain ⟨h0, t, hsplit⟩ : ∃ h0 t, xs.splitOnP (· == x) = h0 :: t := by
        rcases heq : xs.splitOnP (· == x) with _ | ⟨h0, t⟩
        · exact absurd heq (List.splitOnP_ne_nil _ xs)
        · exact ⟨h0, t, rfl⟩
      rw [hsplit] at h
      simp only [List.modifyHead, List.mem_cons] at h
      rcases h with h | h
      · rw [h]
        intro hmem
        rcases List.mem_cons.mp hmem with hh | hh
        · exact hc hh.symm
        · exact ih (by rw [List.splitOn, hsplit]; exact List.mem_cons_self _ _) hh
      · exact ih (by rw [List.splitOn, hsplit]; exact List.mem_cons_of_mem _ h)

theorem splitOn_append_cons {α : Type} [DecidableEq α] {x : α} {u : List α}
    (hu : x ∉ u) (t : List α) :
    (u ++ x :: t).splitOn x = u :: t.splitOn x := by
  induction u with
  | nil =>
    rw [List.nil_append, List.splitOn, List.splitOnP_cons]
    simp [List.splitOn]
  | cons c u ih =>
    have hc : ¬(c == x) = true := by
      simp only [beq_iff_eq]
      intro hh
      exact hu (by simp [hh])
    rw [List.cons_append, List.splitOn, List.splitOnP_cons, if_neg hc]
    have ihh := ih (fun hmem => hu (List.mem_cons_of_mem _ hmem))
    rw [List.splitOn] at ihh
    rw [ihh]
    rfl

/-! ## C10: Basic credentials are split on every colon -/

/-- C10: `_authenticateRover` splits the decoded credentials on `':'` and
keeps only the first segment as username and the second as password: for a
decoded credential string `u:p:rest` (no colon inside `u` or `p`) the
extracted pair is `(u, p)` — everything from the second colon on is
discarded; the password the check ever sees contains no colon, so a rover
whose stored password contains a colon can never authenticate. -/
theorem c10_colon_split_auth (u p rest : Str) (r : Rover) (creds : Str)
    (hu : ':' ∉ u) (hp : ':' ∉ p) (hcolon : ':' ∈ r.password) :
    extractCreds (u ++ ':' :: (p ++ ':' :: rest)) = (u, some p) ∧
    (∀ q, ((creds.splitOn ':').get? 1) = some q → ':' ∉ q) ∧
    authenticateRover [r] creds = none := by
  refine ⟨?_, ?_, ?_⟩
  · rw [extractCreds, splitOn_append_cons hu, splitOn_append_cons hp]
    rfl
  · intro q hq
    exact not_mem_of_mem_splitOn (List.get?_mem hq)
  · rw [authenticateRover]
    rcases hfind : findActiveRover [r] ((extractCreds creds).1) with _ | r0
    · simp [extractCreds] at hfind ⊢
      rw [hfind]
    · have hr0 : r0 = r := by
        rw [findActiveRover] at hfind
        by_cases hok : (r.username == (extractCreds creds).1 && r.statusActive) = true
        · simpa [List.find?, hok] using hfind.symm
        · simp [List.find?, hok] at hfind
      subst hr0
      simp only [extractCreds] at hfind ⊢
      rw [hfind]
      rcases hq : (creds.splitOn ':').get? 1 with _ | q
      · simp [hq]
      · have hnc : ':' ∉ q := not_mem_of_mem_splitOn (List.get?_mem hq)
        have hne : q ≠ r0.password := by
          intro hh
          rw [hh] at hnc
          exact hnc hcolon
        simp [hq, Rover.validate, hne]

/-- Witness for C10 at the concrete credentials `user:pa:ss` against a rover
whose stored password is `pa:ss`. -/
theorem c10_colon_split_auth_witness :
    ':' ∉ str "user" ∧ ':' ∉ str "pa" ∧
    ':' ∈ (str "pa:ss") ∧
    (extractCreds (str "user" ++ ':' :: (str "pa" ++ ':' :: str "ss")) =
        (str "user", some (str "pa")) ∧
      (∀ q, (((str "user:pa:ss").splitOn ':').get? 1) = some q → ':' ∉ q) ∧
      authenticateRover
        [{ id := 9, username := str "user", password := str "pa:ss",
           statusActive := true, startDate := none, endDate := none }]
        (str "user:pa:ss") = none) :=
  ⟨by decide, by decide, by decide,
    c10_colon_split_auth (str "user") (str "pa") (str "ss") _ (str "user:pa:ss")
      (by decide) (by decide) (by decide)⟩

/-! ## C5: handling of the handshake response -/

/-- C5 (counterexample): a handshake chunk whose status line is
`HTTP/1.1 401 Unauthorized` but whose body happens to contain the bytes
`ICY 200 OK` makes `_handleData` treat the handshake as successful: the
client sets `connected`, emits no authentication error and does not close —
the detection is `response.includes('ICY 200 OK')` over the whole chunk,
not a status-line check, so the claim as stated fails on this input. -/
theorem c5_status401_with_icy_body_connects_cex :
    isSubstr (str "401") ((splitCRLF chunk401icy).headD []) = true ∧
    (handleData demoClientHandshaking chunk401icy).1.connected = true ∧
    ClientAction.emitAuthError ∉ (handleData demoClientHandshaking chunk401icy).2 ∧
    (handleData demoClientHandshaking chunk401icy).1.hasSocket = true := by
  decide

/-- C5 (amended): whenever the handshake chunk does not contain
`ICY 200 OK` — in particular the caster's plain 401 response — the client
emits the authentication-failure error and runs `disconnect()`: the socket
is destroyed with its listeners removed and the reconnect timer cleared, no
reconnect is scheduled, and from the resulting state no socket event or
timer can be delivered, so the client itself never initiates another
`connect()`. -/
theorem c5_non_icy_handshake_no_reconnect (s : ClientState) (chunk : Str)
    (hconn : s.connected = false) (hsock : s.hasSocket = true)
    (hicy : isSubstr (str "ICY 200 OK") chunk = false) :
    ClientAction.emitAuthError ∈ (handleData s chunk).2 ∧
    (handleData s chunk).1.hasSocket = false ∧
    (handleData s chunk).1.listeners = false ∧
    (handleData s chunk).1.reconnectTimer = false ∧
    ClientAction.scheduleReconnect ∉ (handleData s chunk).2 ∧
    ClientAction.dial ∉ (handleData s chunk).2 ∧
    ∀ e, stepClient (handleData s chunk).1 e = none := by
  have hd : handleData s chunk =
      (⟨false, false, false, false, s.reconnectAttempts, s.maxReconnectAttempts⟩,
       [ClientAction.emitAuthError, ClientAction.emitDisconnected]) := by
    rw [handleData, hconn]
    simp only [Bool.not_false, if_true, hicy, Bool.false_eq_true, if_false,
      disconnectClient]
    rw [if_pos (by rw [hsock])]
  rw [hd]
  refine ⟨by simp, rfl, rfl, rfl, by simp, by simp, ?_⟩
  intro e
  cases e <;> simp [stepClient, deliverable]

/-- Witness for C5 (amended) at the caster's plain 401 response. -/
theorem c5_non_icy_handshake_no_reconnect_witness :
    demoClientHandshaking.connected = false ∧
    demoClientHandshaking.hasSocket = true ∧
    isSubstr (str "ICY 200 OK") (str "HTTP/1.1 401 Unauthorized\r\n\r\nERROR - Authentication failed") = false ∧
    (ClientAction.emitAuthError ∈ (handleData demoClientHandshaking
        (str "HTTP/1.1 401 Unauthorized\r\n\r\nERROR - Authentication failed")).2 ∧
      (handleData demoClientHandshaking
        (str "HTTP/1.1 401 Unauthorized\r\n\r\nERROR - Authentication failed")).1.hasSocket = false ∧
      (handleData demoClientHandshaking
        (str "HTTP/1.1 401 Unauthorized\r\n\r\nERROR - Authentication failed")).1.listeners = false ∧
      (handleData demoClientHandshaking
        (str "HTTP/1.1 401 Unauthorized\r\n\r\nERROR - Authentication failed")).1.reconnectTimer = false ∧
      ClientAction.scheduleReconnect ∉ (handleData demoClientHandshaking
        (str "HTTP/1.1 401 Unauthorized\r\n\r\nERROR - Authentication failed")).2 ∧
      ClientAction.dial ∉ (handleData demoClientHandshaking
        (str "HTTP/1.1 401 Unauthorized\r\n\r\nERROR - Authentication failed")).2 ∧
      ∀ e, stepClient (handleData demoClientHandshaking
        (str "HTTP/1.1 401 Unauthorized\r\n\r\nERROR - Authentication failed")).1 e = none) :=
  ⟨rfl, rfl, by decide,
    c5_non_icy_handshake_no_reconnect demoClientHandshaking
      (str "HTTP/1.1 401 Unauthorized\r\n\r\nERROR - Authentication failed")
      rfl rfl (by decide)⟩

theorem alookup_aset_self {α β : Type} [DecidableEq α] (k : α) (v : β)
    (l : List (α × β)) : alookup k (aset k v l) = some v := by
  induction l with
  | nil => simp [aset, alookup]
  | cons hd rest ih =>
    obtain ⟨a, w⟩ := hd
    by_cases ha : a = k
    · simp [aset, ha, alookup]
    · simp [aset, ha, alookup, ih]

theorem alookup_aset_other {α β : Type} [DecidableEq α] {k k' : α}
    (h : k' ≠ k) (v : β) (l : List (α × β)) :
    alookup k' (aset k v l) = alookup k' l := by
  induction l with
  | nil => simp [aset, alookup, Ne.symm h]
  | cons hd rest ih =>
    obtain ⟨a, w⟩ := hd
    by_cases ha : a = k
    · have h2 : k ≠ k' := fun hh => h hh.symm
      simp [aset, ha, alookup, h2]
    · by_cases ha' : a = k'
      · simp [aset, ha, alookup, ha', h]
      · simp [aset, ha, alookup, ha', ih]

theorem alookup_mem {α β : Type} [DecidableEq α] {k : α} {v : β}
    {l : List (α × β)} (h : alookup k l = some v) : (k, v) ∈ l := by
  induction l with
  | nil => cases h
  | cons hd rest ih =>
    obtain ⟨a, w⟩ := hd
    by_cases ha : a = k
    · rw [alookup, if_pos ha] at h
      have hw : w = v := Option.some.inj h
      rw [← ha, ← hw]
      exact List.mem_cons_self _ _
    · rw [alookup, if_neg ha] at h
      exact List.mem_cons_of_mem _ (ih h)

/-! Preservation lemmas for `removeClient`. -/

theorem removeClient_lookup_self (s : CasterState) (cid : ℕ) :
    alookup cid (removeClient s cid).clients = none := by
  rw [removeClient]
  rcases hc : alookup cid s.clients with _ | c
  · exact hc
  · exact alookup_aerase_self cid s.clients

theorem removeClient_lookup_other {s : CasterState} {cid cid' : ℕ}
    (h : cid' ≠ cid) :
    alookup cid' (removeClient s cid).clients = alookup cid' s.clients := by
  rw [removeClient]
  rcases hc : alookup cid s.clients with _ | c
  · rfl
  · exact alookup_aerase_other h s.clients

theorem removeClient_lookup_none {s : CasterState} {cid cid' : ℕ}
    (h : alookup cid' s.clients = none) :
    alookup cid' (removeClient s cid).clients = none := by
  by_cases he : cid' = cid
  · rw [he]; exact removeClient_lookup_self s cid
  · rw [removeClient_lookup_other he]; exact h

theorem removeClient_destroyed_mono {s : CasterState} {cid k : ℕ}
    (h : k ∈ s.destroyed) : k ∈ (removeClient s cid).destroyed := by
  rw [removeClient]
  rcases hc : alookup cid s.clients with _ | c
  · exact h
  · dsimp only
    split
    · exact h
    · exact List.mem_append_left _ h

theorem removeClient_station_notmem {s : CasterState} {cid cid' : ℕ} {mp : Str}
    (h : ∀ stn, alookup mp s.stations = some stn → cid' ∉ stn.subs) :
    ∀ stn, alookup mp (removeClient s cid).stations = some stn → cid' ∉ stn.subs := by
  rw [removeClient]
  rcases hc : alookup cid s.clients with _ | c
  · exact h
  · dsimp only
    rcases hst : alookup c.mountpoint s.stations with _ | stn0
    · exact h
    · intro stn hstn
      by_cases hmp : mp = c.mountpoint
      · rw [hmp, alookup_aset_self] at hstn
        have : stn.subs = stn0.subs.erase cid := by
          rw [← (Option.some.injEq _ _).mp hstn]
        rw [this]
        intro hmem
        exact h stn0 (hmp ▸ hst) (List.mem_of_mem_erase hmem)
      · rw [alookup_aset_other hmp] at hstn
        exact h stn hstn

theorem removeClient_station_mem {s : CasterState} {cid cid' : ℕ} {mp : Str}
    (hne : cid' ≠ cid)
    (h : ∀ stn, alookup mp s.stations = some stn → cid' ∈ stn.subs) :
    ∀ stn, alookup mp (removeClient s cid).stations = some stn → cid' ∈ stn.subs := by
  rw [removeClient]
  rcases hc : alookup cid s.clients with _ | c
  · exact h
  · dsimp only
    rcases hst : alookup c.mountpoint s.stations with _ | stn0
    · exact h
    · intro stn hstn
      by_cases hmp : mp = c.mountpoint
      · rw [hmp, alookup_aset_self] at hstn
        have : stn.subs = stn0.subs.erase cid := by
          rw [← (Option.some.injEq _ _).mp hstn]
        rw [this]
        exact List.mem_erase_of_ne hne |>.mpr (h stn0 (hmp ▸ hst))
      · rw [alookup_aset_other hmp] at hstn
        exact h stn hstn

theorem removeClient_subs_nodup {s : CasterState} {cid : ℕ}
    (h : ∀ mp' stn', alookup mp' s.stations = some stn' → stn'.subs.Nodup) :
    ∀ mp' stn', alookup mp' (removeClient s cid).stations = some stn' →
      stn'.subs.Nodup := by
  rw [removeClient]
  rcases hc : alookup cid s.clients with _ | c
  · exact h
  · dsimp only
    rcases hst : alookup c.mountpoint s.stations with _ | stn0
    · exact h
    · intro mp' stn hstn
      by_cases hmp : mp' = c.mountpoint
      · rw [hmp, alookup_aset_self] at hstn
        have : stn.subs = stn0.subs.erase cid := by
          rw [← (Option.some.injEq _ _).mp hstn]
        rw [this]
        exact (h _ stn0 hst).erase cid
      · rw [alookup_aset_other hmp] at hstn
        exact h mp' stn hstn

/-! Preservation lemmas for `broadcastGo`. -/

theorem broadcastGo_lookup_none (env : ℕ → SockBeh) (L : List ℕ) :
    ∀ (s : CasterState) (cnt : ℕ) (w : List ℕ) (cid' : ℕ),
      alookup cid' s.clients = none →
      alookup cid' (broadcastGo env L s cnt w).1.clients = none := by
  induction L with
  | nil => intro s cnt w cid' h; exact h
  | cons cid rest ih =>
    intro s cnt w cid' h
    rw [broadcastGo]
    rcases hc : alookup cid s.clients with _ | c
    · exact ih s cnt w cid' h
    · dsimp only
      by_cases hw : (env c.sock).writable
      · by_cases hr : (env c.sock).writeRaises
        · simp only [hw, hr, if_true]
          exact ih _ cnt w cid' (removeClient_lookup_none h)
        · simp only [hw, hr, if_true, Bool.false_eq_true, if_false]
          exact ih s _ _ cid' h
      · simp only [hw, Bool.false_eq_true, if_false]
        exact ih s cnt w cid' h

theorem broadcastGo_station_notmem (env : ℕ → SockBeh) (mp : Str) (L : List ℕ) :
    ∀ (s : CasterState) (cnt : ℕ) (w : List ℕ) (cid' : ℕ),
      (∀ stn, alookup mp s.stations = some stn → cid' ∉ stn.subs) →
      ∀ stn, alookup mp (broadcastGo env L s cnt w).1.stations = some stn →
        cid' ∉ stn.subs := by
  induction L with
  | nil => intro s cnt w cid' h; exact h
  | cons cid rest ih =>
    intro s cnt w cid' h
    rw [broadcastGo]
    rcases hc : alookup cid s.clients with _ | c
    · exact ih s cnt w cid' h
    · dsimp only
      by_cases hw : (env c.sock).writable
      · by_cases hr : (env c.sock).writeRaises
        · simp only [hw, hr, if_true]
          exact ih _ cnt w cid' (removeClient_station_notmem h)
        · simp only [hw, hr, if_true, Bool.false_eq_true, if_false]
          exact ih s _ _ cid' h
      · simp only [hw, Bool.false_eq_true, if_false]
        exact ih s cnt w cid' h

theorem broadcastGo_destroyed_mono (env : ℕ → SockBeh) (L : List ℕ) :
    ∀ (s : CasterState) (cnt : ℕ) (w : List ℕ) (k : ℕ),
      k ∈ s.destroyed → k ∈ (broadcastGo env L s cnt w).1.destroyed := by
  induction L with
  | nil => intro s cnt w k h; exact h
  | cons cid rest ih =>
    intro s cnt w k h
    rw [broadcastGo]
    rcases hc : alookup cid s.clients with _ | c
    · exact ih s cnt w k h
    · dsimp only
      by_cases hw : (env c.sock).writable
      · by_cases hr : (env c.sock).writeRaises
        · simp only [hw, hr, if_true]
          exact ih _ cnt w k (removeClient_destroyed_mono h)
        · simp only [hw, hr, if_true, Bool.false_eq_true, if_false]
          exact ih s _ _ k h
      · simp only [hw, Bool.false_eq_true, if_false]
        exact ih s cnt w k h

theorem broadcastGo_lookup_of_not_mem (env : ℕ → SockBeh) (L : List ℕ) :
    ∀ (s : CasterState) (cnt : ℕ) (w : List ℕ) (cid' : ℕ), cid' ∉ L →
      alookup cid' (broadcastGo env L s cnt w).1.clients =
        alookup cid' s.clients := by
  induction L with
  | nil => intro s cnt w cid' _; rfl
  | cons cid rest ih =>
    intro s cnt w cid' h
    have hne : cid' ≠ cid := fun hh => h (hh ▸ List.mem_cons_self _ _)
    have hrest : cid' ∉ rest := fun hh => h (List.mem_cons_of_mem _ hh)
    rw [broadcastGo]
    rcases hc : alookup cid s.clients with _ | c
    · exact ih s cnt w cid' hrest
    · dsimp only
      by_cases hw : (env c.sock).writable
      · by_cases hr : (env c.sock).writeRaises
        · simp only [hw, hr, if_true]
          rw [ih _ cnt w cid' hrest, removeClient_lookup_other hne]
        · simp only [hw, hr, if_true, Bool.false_eq_true, if_false]
          exact ih s _ _ cid' hrest
      · simp only [hw, Bool.false_eq_true, if_false]
        exact ih s cnt w cid' hrest

theorem broadcastGo_station_mem_of_not_mem (env : ℕ → SockBeh) (mp : Str)
    (L : List ℕ) :
    ∀ (s : CasterState) (cnt : ℕ) (w : List ℕ) (cid' : ℕ), cid' ∉ L →
      (∀ stn, alookup mp s.stations = some stn → cid' ∈ stn.subs) →
      ∀ stn, alookup mp (broadcastGo env L s cnt w).1.stations = some stn →
        cid' ∈ stn.subs := by
  induction L with
  | nil => intro s cnt w cid' _ h; exact h
  | cons cid rest ih =>
    intro s cnt w cid' h hmem
    have hne : cid' ≠ cid := fun hh => h (hh ▸ List.mem_cons_self _ _)
    have hrest : cid' ∉ rest := fun hh => h (List.mem_cons_of_mem _ hh)
    rw [broadcastGo]
    rcases hc : alookup cid s.clients with _ | c
    · exact ih s cnt w cid' hrest hmem
    · dsimp only
      by_cases hw : (env c.sock).writable
      · by_cases hr : (env c.sock).writeRaises
        · simp only [hw, hr, if_true]
          exact ih _ cnt w cid' hrest (removeClient_station_mem hne hmem)
        · simp only [hw, hr, if_true, Bool.false_eq_true, if_false]
          exact ih s _ _ cid' hrest hmem
      · simp only [hw, Bool.false_eq_true, if_false]
        exact ih s cnt w cid' hrest hmem

/-- The written list and the success count of `broadcastGo`: the ids
appended are exactly the present, writable, non-raising subscribers, in
order, and the count grows by their number. -/
theorem broadcastGo_written (env : ℕ → SockBeh) (L : List ℕ) :
    ∀ (s : CasterState) (cnt : ℕ) (w : List ℕ), L.Nodup →
      (broadcastGo env L s cnt w).2.2 = w ++ L.filter (fun cid =>
        match alookup cid s.clients with
        | some c => (env c.sock).writable && !(env c.sock).writeRaises
        | none => false) ∧
      (broadcastGo env L s cnt w).2.1 = cnt + (L.filter (fun cid =>
        match alookup cid s.clients with
        | some c => (env c.sock).writable && !(env c.sock).writeRaises
        | none => false)).length := by
  induction L with
  | nil => intro s cnt w _; exact ⟨(List.append_nil w).symm, rfl⟩
  | cons cid rest ih =>
    intro s cnt w hnd
    have hnd' : rest.Nodup := hnd.of_cons
    have hcidrest : cid ∉ rest := (List.nodup_cons.mp hnd).1
    rw [broadcastGo]
    rcases hc : alookup cid s.clients with _ | c
    · rw [List.filter_cons]
      simp only [hc]
      exact ih s cnt w hnd'
    · dsimp only
      by_cases hw : (env c.sock).writable
      · by_cases hr : (env c.sock).writeRaises
        · simp only [hw, hr, if_true]
          rw [List.filter_cons]
          simp only [hc, hw, hr, Bool.not_true, Bool.and_false,
            Bool.false_eq_true, if_false]
          have hcong : rest.filter (fun cid' =>
              match alookup cid' (removeClient s cid).clients with
              | some c' => (env c'.sock).writable && !(env c'.sock).writeRaises
              | none => false) = rest.filter (fun cid' =>
              match alookup cid' s.clients with
              | some c' => (env c'.sock).writable && !(env c'.sock).writeRaises
              | none => false) := by
            apply List.filter_congr
            intro a ha
            rw [removeClient_lookup_other
              (fun hh => hcidrest (by rw [← hh]; exact ha))]
          have := ih (removeClient s cid) cnt w hnd'
          rw [hcong] at this
          exact this
        · simp only [hw, hr, if_true, Bool.false_eq_true, if_false]
          rw [List.filter_cons]
          simp only [hc, hw, hr, Bool.not_false, Bool.and_true, if_true]
          obtain ⟨h1, h2⟩ := ih s (cnt + 1) (w ++ [cid]) hnd'
          refine ⟨?_, ?_⟩
          · rw [h1, List.append_assoc, List.singleton_append]
          · rw [h2, List.length_cons]
            omega
      · simp only [hw, Bool.false_eq_true, if_false]
        rw [List.filter_cons]
        simp only [hc, hw, Bool.false_and, Bool.false_eq_true, if_false]
        exact ih s cnt w hnd'

/-- Eviction in `broadcastGo`: a present, writable subscriber whose write
raises ends up removed from the client map and from the `mp` subscriber
set, its socket destroyed. -/
theorem broadcastGo_evicts (env : ℕ → SockBeh) (mp : Str) (L : List ℕ) :
    ∀ (s : CasterState) (cnt : ℕ) (w : List ℕ), L.Nodup →
      (∀ mp' stn', alookup mp' s.stations = some stn' → stn'.subs.Nodup) →
      ∀ cid ∈ L, ∀ c, alookup cid s.clients = some c → c.mountpoint = mp →
        (env c.sock).writable = true → (env c.sock).writeRaises = true →
        alookup cid (broadcastGo env L s cnt w).1.clients = none ∧
        (∀ stn', alookup mp (broadcastGo env L s cnt w).1.stations = some stn' →
          cid ∉ stn'.subs) ∧
        c.sock ∈ (broadcastGo env L s cnt w).1.destroyed := by
  induction L with
  | nil => intro s cnt w _ _ cid hmem; cases hmem
  | cons cid0 rest ih =>
    intro s cnt w hnd hsubnd cid hmem c hlook hcmp hw hr
    have hnd' : rest.Nodup := hnd.of_cons
    rcases List.mem_cons.mp hmem with heq | hmemrest
    · subst heq
      rw [broadcastGo, hlook]
      dsimp only
      simp only [hw, hr, if_true]
      refine ⟨?_, ?_, ?_⟩
      · exact broadcastGo_lookup_none env rest _ cnt w cid
          (removeClient_lookup_self s cid)
      · refine broadcastGo_station_notmem env mp rest _ cnt w cid ?_
        rw [removeClient, hlook]
        dsimp only
        rcases hst : alookup c.mountpoint s.stations with _ | stn0
        · intro stn hstn
          rw [← hcmp, hst] at hstn
          cases hstn
        · intro stn hstn
          rw [← hcmp, alookup_aset_self] at hstn
          have : stn.subs = stn0.subs.erase cid := by
            rw [← (Option.some.injEq _ _).mp hstn]
          rw [this]
          exact (hsubnd _ stn0 hst).not_mem_erase
      · refine broadcastGo_destroyed_mono env rest _ cnt w c.sock ?_
        rw [removeClient, hlook]
        dsimp only
        split
        · assumption
        · exact List.mem_append_right _ (List.mem_singleton_self _)
    · have hne : cid ≠ cid0 := fun hh =>
        (List.nodup_cons.mp hnd).1 (hh ▸ hmemrest)
      rw [broadcastGo]
      rcases hc : alookup cid0 s.clients with _ | c0
      · exact ih s cnt w hnd' hsubnd cid hmemrest c hlook hcmp hw hr
      · dsimp only
        by_cases hw0 : (env c0.sock).writable
        · by_cases hr0 : (env c0.sock).writeRaises
          · simp only [hw0, hr0, if_true]
            refine ih _ cnt w hnd' (removeClient_subs_nodup hsubnd) cid hmemrest c
              ?_ hcmp hw hr
            rw [removeClient_lookup_other hne]
            exact hlook
          · simp only [hw0, hr0, if_true, Bool.false_eq_true, if_false]
            exact ih s _ _ hnd' hsubnd cid hmemrest c hlook hcmp hw hr
        · simp only [hw0, Bool.false_eq_true, if_false]
          exact ih s cnt w hnd' hsubnd cid hmemrest c hlook hcmp hw hr

/-- Retention in `broadcastGo`: a present subscriber whose socket is not
writable is skipped — its session entry and its membership in the `mp`
subscriber set survive the broadcast. -/
theorem broadcastGo_retains (env : ℕ → SockBeh) (mp : Str) (L : List ℕ) :
    ∀ (s : CasterState) (cnt : ℕ) (w : List ℕ), L.Nodup →
      ∀ cid ∈ L, ∀ c, alookup cid s.clients = some c →
        (env c.sock).writable = false →
        (∀ stn, alookup mp s.stations = some stn → cid ∈ stn.subs) →
        alookup cid (broadcastGo env L s cnt w).1.clients = some c ∧
        (∀ stn, alookup mp (broadcastGo env L s cnt w).1.stations = some stn →
          cid ∈ stn.subs) := by
  induction L with
  | nil => intro s cnt w _ cid hmem; cases hmem
  | cons cid0 rest ih =>
    intro s cnt w hnd cid hmem c hlook hw hmemst
    have hnd' : rest.Nodup := hnd.of_cons
    rcases List.mem_cons.mp hmem with heq | hmemrest
    · subst heq
      have hrest : cid ∉ rest := (List.nodup_cons.mp hnd).1
      rw [broadcastGo, hlook]
      dsimp only
      simp only [hw, Bool.false_eq_true, if_false]
      refine ⟨?_, ?_⟩
      · rw [broadcastGo_lookup_of_not_mem env rest s cnt w cid hrest]
        exact hlook
      · exact broadcastGo_station_mem_of_not_mem env mp rest s cnt w cid hrest hmemst
    · have hne : cid ≠ cid0 := fun hh =>
        (List.nodup_cons.mp hnd).1 (hh ▸ hmemrest)
      rw [broadcastGo]
      rcases hc : alookup cid0 s.clients with _ | c0
      · exact ih s cnt w hnd' cid hmemrest c hlook hw hmemst
      · dsimp only
        by_cases hw0 : (env c0.sock).writable
        · by_cases hr0 : (env c0.sock).writeRaises
          · simp only [hw0, hr0, if_true]
            refine ih _ cnt w hnd' cid hmemrest c ?_ hw
              (removeClient_station_mem hne hmemst)
            rw [removeClient_lookup_other hne]
            exact hlook
          · simp only [hw0, hr0, if_true, Bool.false_eq_true, if_false]
            exact ih s _ _ hnd' cid hmemrest c hlook hw hmemst
        · simp only [hw0, Bool.false_eq_true, if_false]
          exact ih s cnt w hnd' cid hmemrest c hlook hw hmemst

theorem stationsConsistent_spec {st : CasterState}
    (h : stationsConsistent st = true) {mp : Str} {stn : LiveStation}
    (hstn : alookup mp st.stations = some stn) :
    ∀ cid ∈ stn.subs, ∃ c, alookup cid st.clients = some c ∧ c.mountpoint = mp := by
  intro cid hcid
  have hmem := alookup_mem hstn
  have h1 := List.all_eq_true.mp h (mp, stn) hmem
  have h2 := List.all_eq_true.mp h1 cid hcid
  rcases hc : alookup cid st.clients with _ | c
  · rw [hc] at h2; cases h2
  · rw [hc] at h2
    exact ⟨c, rfl, by simpa using h2⟩

theorem casterInv_subs_nodup {st : CasterState} (h : casterInv st) :
    ∀ mp' stn', alookup mp' st.stations = some stn' → stn'.subs.Nodup :=
  fun _ stn' hl => h.2.2.2.2 (_, stn') (alookup_mem hl)

/-! ## C2: broadcast semantics -/

/-- C2 (counterexample): the lone subscriber of `VRS01` has a non-writable
socket; the claim requires it to be evicted (removed from the subscriber
set and the client map, socket destroyed), but `broadcast` returns with the
state completely unchanged — the subscriber is still registered and its
socket not destroyed — and a success count of 0. -/
theorem c2_nonwritable_not_evicted_cex :
    (envUnwritable 5).writable = false ∧
    (broadcast envUnwritable demoCasterOneClient (str "VRS01")).2.1 = 0 ∧
    (broadcast envUnwritable demoCasterOneClient (str "VRS01")).1 =
      demoCasterOneClient ∧
    alookup 1 (broadcast envUnwritable demoCasterOneClient (str "VRS01")).1.clients =
      some { mountpoint := str "VRS01", sock := 5, roverId := 7,
             roverUsername := str "rover1" } := by
  decide

/-- C2 (amended): for a consistent caster state and a registered mountpoint,
`broadcast` writes to exactly the subscribers that are present in the
client map, writable and whose write does not raise (the returned count is
their number and the returned list is exactly that sublist); a present,
writable subscriber whose write raises is evicted — removed from the
client map and from the mountpoint's subscriber set, its socket destroyed;
but a subscriber whose socket is not writable is merely skipped: it stays
in the client map and in the subscriber set (the eviction of non-writable
subscribers happens only in the part_007 revision of `broadcast`, not in
src/src/ntrip/ntrip-caster.js). -/
theorem c2_broadcast_amended (env : ℕ → SockBeh) (st : CasterState) (mp : Str)
    (stn : LiveStation) (hinv : casterInv st)
    (hstn : alookup mp st.stations = some stn) :
    (broadcast env st mp).2.1 = (broadcast env st mp).2.2.length ∧
    (broadcast env st mp).2.2 = stn.subs.filter (fun cid =>
      match alookup cid st.clients with
      | some c => (env c.sock).writable && !(env c.sock).writeRaises
      | none => false) ∧
    (∀ cid ∈ stn.subs, ∀ c, alookup cid st.clients = some c →
      (env c.sock).writable = true → (env c.sock).writeRaises = true →
        alookup cid (broadcast env st mp).1.clients = none ∧
        (∀ stn', alookup mp (broadcast env st mp).1.stations = some stn' →
          cid ∉ stn'.subs) ∧
        c.sock ∈ (broadcast env st mp).1.destroyed) ∧
    (∀ cid ∈ stn.subs, ∀ c, alookup cid st.clients = some c →
      (env c.sock).writable = false →
        alookup cid (broadcast env st mp).1.clients = some c ∧
        (∀ stn', alookup mp (broadcast env st mp).1.stations = some stn' →
          cid ∈ stn'.subs)) := by
  have hnd : stn.subs.Nodup := casterInv_subs_nodup hinv mp stn hstn
  have hsubnd := casterInv_subs_nodup hinv
  rw [broadcast, hstn]
  dsimp only
  by_cases hempty : stn.subs.length = 0
  · have hnil : stn.subs = [] := List.length_eq_zero.mp hempty
    simp only [hempty, if_true]
    refine ⟨rfl, by rw [hnil]; rfl, ?_, ?_⟩
    · intro cid hcid; rw [hnil] at hcid; cases hcid
    · intro cid hcid; rw [hnil] at hcid; cases hcid
  · simp only [hempty, if_false]
    obtain ⟨hw1, hw2⟩ := broadcastGo_written env stn.subs st 0 [] hnd
    refine ⟨?_, ?_, ?_, ?_⟩
    · rw [hw1, hw2]
      simp
    · rw [hw1]; rfl
    · intro cid hcid c hlook hw hr
      obtain ⟨c', hc', hcmp'⟩ := stationsConsistent_spec hinv.2.1 hstn cid hcid
      have hcc : c = c' := by
        rw [hlook] at hc'
        exact Option.some.inj hc'
      exact broadcastGo_evicts env mp stn.subs st 0 [] hnd hsubnd cid hcid c
        hlook (by rw [hcc]; exact hcmp') hw hr
    · intro cid hcid c hlook hw
      refine broadcastGo_retains env mp stn.subs st 0 [] hnd cid hcid c hlook hw ?_
      intro stn' hstn'
      rw [hstn] at hstn'
      rw [← Option.some.inj hstn']
      exact hcid

/-- Witness for C2 (amended) at a three-subscriber station: socket 11
accepts the write, socket 12 raises, socket 13 is not writable. -/
theorem c2_broadcast_amended_witness :
    casterInv w3State ∧
    alookup (str "MP") w3State.stations = some { meta := demoMeta, subs := [1, 2, 3] } ∧
    ((broadcast w3Env w3State (str "MP")).2.1 =
        (broadcast w3Env w3State (str "MP")).2.2.length ∧
      (broadcast w3Env w3State (str "MP")).2.2 =
        (({ meta := demoMeta, subs := [1, 2, 3] } : LiveStation)).subs.filter (fun cid =>
          match alookup cid w3State.clients with
          | some c => (w3Env c.sock).writable && !(w3Env c.sock).writeRaises
          | none => false) ∧
      (∀ cid ∈ (({ meta := demoMeta, subs := [1, 2, 3] } : LiveStation)).subs,
        ∀ c, alookup cid w3State.clients = some c →
        (w3Env c.sock).writable = true → (w3Env c.sock).writeRaises = true →
          alookup cid (broadcast w3Env w3State (str "MP")).1.clients = none ∧
          (∀ stn', alookup (str "MP") (broadcast w3Env w3State (str "MP")).1.stations =
              some stn' → cid ∉ stn'.subs) ∧
          c.sock ∈ (broadcast w3Env w3State (str "MP")).1.destroyed) ∧
      (∀ cid ∈ (({ meta := demoMeta, subs := [1, 2, 3] } : LiveStation)).subs,
        ∀ c, alookup cid w3State.clients = some c →
        (w3Env c.sock).writable = false →
          alookup cid (broadcast w3Env w3State (str "MP")).1.clients = some c ∧
          (∀ stn', alookup (str "MP") (broadcast w3Env w3State (str "MP")).1.stations =
              some stn' → cid ∈ stn'.subs))) :=
  ⟨by decide, by decide,
    c2_broadcast_amended w3Env w3State (str "MP")
      { meta := demoMeta, subs := [1, 2, 3] } (by decide) (by decide)⟩

/-! More association-list lemmas, used for the consistency invariant. -/

theorem mem_aerase_iff {α β : Type} [DecidableEq α] {k : α} {kv : α × β}
    {l : List (α × β)} : kv ∈ aerase k l ↔ kv ∈ l ∧ kv.1 ≠ k := by
  induction l with
  | nil => simp [aerase]
  | cons hd rest ih =>
    obtain ⟨a, v⟩ := hd
    by_cases ha : a = k
    · rw [aerase, if_pos ha, ih]
      constructor
      · rintro ⟨hm, hne⟩
        exact ⟨List.mem_cons_of_mem _ hm, hne⟩
      · rintro ⟨hm, hne⟩
        rcases List.mem_cons.mp hm with hh | hh
        · exact absurd (by rw [hh, ha]) hne
        · exact ⟨hh, hne⟩
    · rw [aerase, if_neg ha]
      constructor
      · intro hm
        rcases List.mem_cons.mp hm with hh | hh
        · exact ⟨by rw [hh]; exact List.mem_cons_self _ _, by rw [hh]; exact ha⟩
        · obtain ⟨h1, h2⟩ := ih.mp hh
          exact ⟨List.mem_cons_of_mem _ h1, h2⟩
      · rintro ⟨hm, hne⟩
        rcases List.mem_cons.mp hm with hh | hh
        · rw [hh]; exact List.mem_cons_self _ _
        · exact List.mem_cons_of_mem _ (ih.mpr ⟨hh, hne⟩)

theorem alookup_none_iff {α β : Type} [DecidableEq α] {k : α}
    {l : List (α × β)} : alookup k l = none ↔ ∀ kv ∈ l, kv.1 ≠ k := by
  constructor
  · intro h kv hm
    induction l with
    | nil => cases hm
    | cons hd rest ih =>
      obtain ⟨a, v⟩ := hd
      by_cases ha : a = k
      · rw [alookup, if_pos ha] at h; cases h
      · rw [alookup, if_neg ha] at h
        rcases List.mem_cons.mp hm with hh | hh
        · rw [hh]; exact ha
        · exact ih h hh
  · exact alookup_eq_none_of_keys_ne

theorem aerase_sublist {α β : Type} [DecidableEq α] (k : α)
    (l : List (α × β)) : (aerase k l).Sublist l := by
  induction l with
  | nil => exact List.Sublist.refl _
  | cons hd rest ih =>
    obtain ⟨a, v⟩ := hd
    by_cases ha : a = k
    · rw [aerase, if_pos ha]
      exact ih.cons _
    · rw [aerase, if_neg ha]
      exact ih.cons₂ _

theorem mem_aset_sub {α β : Type} [DecidableEq α] {k : α} {v : β}
    {kv : α × β} {l : List (α × β)} (h : kv ∈ aset k v l) :
    kv = (k, v) ∨ kv ∈ l := by
  induction l with
  | nil => simpa [aset] using h
  | cons hd rest ih =>
    obtain ⟨a, w⟩ := hd
    by_cases ha : a = k
    · rw [aset, if_pos ha] at h
      rcases List.mem_cons.mp h with hh | hh
      · exact Or.inl hh
      · exact Or.inr (List.mem_cons_of_mem _ hh)
    · rw [aset, if_neg ha] at h
      rcases List.mem_cons.mp h with hh | hh
      · exact Or.inr (by rw [hh]; exact List.mem_cons_self _ _)
      · rcases ih hh with hh2 | hh2
        · exact Or.inl hh2
        · exact Or.inr (List.mem_cons_of_mem _ hh2)

theorem mem_aset_keep {α β : Type} [DecidableEq α] {k : α} (v : β)
    {kv : α × β} {l : List (α × β)} (h : kv ∈ l) (hne : kv.1 ≠ k) :
    kv ∈ aset k v l := by
  induction l with
  | nil => cases h
  | cons hd rest ih =>
    obtain ⟨a, w⟩ := hd
    by_cases ha : a = k
    · rw [aset, if_pos ha]
      rcases List.mem_cons.mp h with hh | hh
      · exact absurd (by rw [hh]; exact ha) hne
      · exact List.mem_cons_of_mem _ hh
    · rw [aset, if_neg ha]
      rcases List.mem_cons.mp h with hh | hh
      · rw [hh]; exact List.mem_cons_self _ _
      · exact List.mem_cons_of_mem _ (ih hh)

theorem mem_aset_self {α β : Type} [DecidableEq α] (k : α) (v : β)
    (l : List (α × β)) : (k, v) ∈ aset k v l := by
  induction l with
  | nil => simp [aset]
  | cons hd rest ih =>
    obtain ⟨a, w⟩ := hd
    by_cases ha : a = k
    · rw [aset, if_pos ha]; exact List.mem_cons_self _ _
    · rw [aset, if_neg ha]; exact List.mem_cons_of_mem _ ih

theorem mem_keys_aset {α β : Type} [DecidableEq α] {k b : α} {v : β}
    {l : List (α × β)} (h : b ∈ (aset k v l).map Prod.fst) :
    b = k ∨ b ∈ l.map Prod.fst := by
  obtain ⟨kv, hkv, hb⟩ := List.mem_map.mp h
  rcases mem_aset_sub hkv with hh | hh
  · left; rw [← hb, hh]
  · right; exact List.mem_map.mpr ⟨kv, hh, hb⟩

theorem keys_aset_nodup {α β : Type} [DecidableEq α] {k : α} {v : β}
    {l : List (α × β)} (h : (l.map Prod.fst).Nodup) :
    ((aset k v l).map Prod.fst).Nodup := by
  induction l with
  | nil => simp [aset]
  | cons hd rest ih =>
    obtain ⟨a, w⟩ := hd
    rw [List.map_cons, List.nodup_cons] at h
    by_cases ha : a = k
    · rw [aset, if_pos ha, List.map_cons, List.nodup_cons]
      exact ⟨by rw [← ha]; exact h.1, h.2⟩
    · rw [aset, if_neg ha, List.map_cons, List.nodup_cons]
      refine ⟨?_, ih h.2⟩
      intro hmem
      rcases mem_keys_aset hmem with hh | hh
      · exact ha hh
      · exact h.1 hh

theorem alookup_of_mem_nodup {α β : Type} [DecidableEq α] {l : List (α × β)}
    (hnd : (l.map Prod.fst).Nodup) {k : α} {v : β} (h : (k, v) ∈ l) :
    alookup k l = some v := by
  induction l with
  | nil => cases h
  | cons hd rest ih =>
    obtain ⟨a, w⟩ := hd
    rw [List.map_cons, List.nodup_cons] at hnd
    rcases List.mem_cons.mp h with hh | hh
    · have h1 : k = a := congrArg Prod.fst hh
      have h2 : v = w := congrArg Prod.snd hh
      rw [alookup, if_pos h1.symm, h2]
    · have hk : a ≠ k := by
        intro hak
        exact hnd.1 (List.mem_map.mpr ⟨(k, v), hh, by rw [hak]⟩)
      rw [alookup, if_neg hk]
      exact ih hnd.2 hh

theorem mem_aset_iff_nodup {α β : Type} [DecidableEq α] {k : α} {v old : β}
    {l : List (α × β)} (hnd : (l.map Prod.fst).Nodup)
    (hk : alookup k l = some old) {kv : α × β} :
    kv ∈ aset k v l ↔ (kv = (k, v) ∨ (kv ∈ l ∧ kv.1 ≠ k)) := by
  induction l with
  | nil => cases hk
  | cons hd rest ih =>
    obtain ⟨a, w⟩ := hd
    rw [List.map_cons, List.nodup_cons] at hnd
    by_cases ha : a = k
    · rw [aset, if_pos ha]
      constructor
      · intro hm
        rcases List.mem_cons.mp hm with hh | hh
        · exact Or.inl hh
        · refine Or.inr ⟨List.mem_cons_of_mem _ hh, ?_⟩
          intro hkv
          refine hnd.1 (List.mem_map.mpr ⟨kv, hh, ?_⟩)
          rw [hkv, ha]
      · rintro (hh | ⟨hm, hne⟩)
        · rw [hh]; exact List.mem_cons_self _ _
        · rcases List.mem_cons.mp hm with hh2 | hh2
          · exact absurd (by rw [hh2, ha] : kv.1 = k) hne
          · exact List.mem_cons_of_mem _ hh2
    · rw [alookup, if_neg ha] at hk
      rw [aset, if_neg ha]
      constructor
      · intro hm
        rcases List.mem_cons.mp hm with hh | hh
        · exact Or.inr ⟨by rw [hh]; exact List.mem_cons_self _ _, by rw [hh]; exact ha⟩
        · rcases (ih hnd.2 hk).mp hh with hh2 | hh2
          · exact Or.inl hh2
          · exact Or.inr ⟨List.mem_cons_of_mem _ hh2.1, hh2.2⟩
      · rintro (hh | ⟨hm, hne⟩)
        · exact List.mem_cons_of_mem _ ((ih hnd.2 hk).mpr (Or.inl hh))
        · rcases List.mem_cons.mp hm with hh2 | hh2
          · rw [hh2]; exact List.mem_cons_self _ _
          · exact List.mem_cons_of_mem _ ((ih hnd.2 hk).mpr (Or.inr ⟨hh2, hne⟩))

theorem casterInv_iff (st : CasterState) : casterInv st ↔
    ((∀ kv ∈ st.clients, ∃ stn,
        alookup kv.2.mountpoint st.stations = some stn ∧ kv.1 ∈ stn.subs) ∧
      (∀ skv ∈ st.stations, ∀ cid ∈ skv.2.subs,
        ∃ c, alookup cid st.clients = some c ∧ c.mountpoint = skv.1) ∧
      (st.clients.map Prod.fst).Nodup ∧ (st.stations.map Prod.fst).Nodup ∧
      ∀ kv ∈ st.stations, kv.2.subs.Nodup) := by
  constructor
  · rintro ⟨h1, h2, h3, h4, h5⟩
    refine ⟨?_, ?_, h3, h4, h5⟩
    · intro kv hkv
      have hb := List.all_eq_true.mp h1 kv hkv
      rcases halo : alookup kv.2.mountpoint st.stations with _ | stn
      · rw [subOk, halo] at hb; cases hb
      · rw [subOk, halo] at hb
        exact ⟨stn, rfl, by simpa using hb⟩
    · intro skv hskv cid hcid
      have hb := List.all_eq_true.mp (List.all_eq_true.mp h2 skv hskv) cid hcid
      rcases halo : alookup cid st.clients with _ | c
      · rw [halo] at hb; cases hb
      · rw [halo] at hb
        exact ⟨c, rfl, by simpa using hb⟩
  · rintro ⟨h1, h2, h3, h4, h5⟩
    refine ⟨?_, ?_, h3, h4, h5⟩
    · apply List.all_eq_true.mpr
      intro kv hkv
      obtain ⟨stn, hstn, hmem⟩ := h1 kv hkv
      rw [subOk, hstn]
      simpa using hmem
    · apply List.all_eq_true.mpr
      intro skv hskv
      apply List.all_eq_true.mpr
      intro cid hcid
      obtain ⟨c, hc, hcm⟩ := h2 skv hskv cid hcid
      rw [hc]
      simpa using hcm

/-- `_removeClient` preserves the mutual-consistency invariant. -/
theorem removeClient_inv {st : CasterState} (h : casterInv st) (cid : ℕ) :
    casterInv (removeClient st cid) := by
  rw [casterInv_iff] at h
  obtain ⟨h1, h2, h3, h4, h5⟩ := h
  rcases hc : alookup cid st.clients with _ | c
  · rw [removeClient, hc]
    exact (casterInv_iff st).mpr ⟨h1, h2, h3, h4, h5⟩
  · rw [casterInv_iff]
    rw [removeClient, hc]
    dsimp only
    rcases hst : alookup c.mountpoint st.stations with _ | stn0
    · refine ⟨?_, ?_, ?_, h4, h5⟩
      · intro kv hkv
        obtain ⟨hkv', _⟩ := mem_aerase_iff.mp hkv
        exact h1 kv hkv'
      · intro skv hskv cid' hcid'
        obtain ⟨c', hc', hcm'⟩ := h2 skv hskv cid' hcid'
        have hne : cid' ≠ cid := by
          intro hh
          rw [hh, hc] at hc'
          have hcc : c = c' := Option.some.inj hc'
          have := alookup_of_mem_nodup h4 hskv
          rw [← hcm', ← hcc, hst] at this
          cases this
        exact ⟨c', by rw [alookup_aerase_other hne]; exact hc', hcm'⟩
      · exact h3.sublist ((aerase_sublist cid st.clients).map Prod.fst)
    · have hstn0mem : (c.mountpoint, stn0) ∈ st.stations := alookup_mem hst
      have hstn0nd : stn0.subs.Nodup := h5 _ hstn0mem
      refine ⟨?_, ?_, ?_, keys_aset_nodup h4, ?_⟩
      · intro kv hkv
        obtain ⟨hkv', hkne⟩ := mem_aerase_iff.mp hkv
        obtain ⟨stn, hstn, hmem⟩ := h1 kv hkv'
        by_cases hmp : kv.2.mountpoint = c.mountpoint
        · have hstn' : stn = stn0 := by
            rw [hmp, hst] at hstn
            exact (Option.some.inj hstn).symm
          refine ⟨{ stn0 with subs := stn0.subs.erase cid },
            by rw [hmp, alookup_aset_self], ?_⟩
          exact (List.mem_erase_of_ne hkne).mpr (hstn' ▸ hmem)
        · exact ⟨stn, by rw [alookup_aset_other hmp]; exact hstn, hmem⟩
      · intro skv hskv cid' hcid'
        rcases (mem_aset_iff_nodup h4 hst).mp hskv with hnew | ⟨hold, holdne⟩
        · subst hnew
          dsimp only at hcid' ⊢
          have hmem0 : cid' ∈ stn0.subs := List.mem_of_mem_erase hcid'
          have hne : cid' ≠ cid := ((hstn0nd.mem_erase_iff).mp hcid').1
          obtain ⟨c', hc', hcm'⟩ := h2 _ hstn0mem cid' hmem0
          exact ⟨c', by rw [alookup_aerase_other hne]; exact hc', hcm'⟩
        · obtain ⟨c', hc', hcm'⟩ := h2 skv hold cid' hcid'
          have hne : cid' ≠ cid := by
            intro hh
            rw [hh, hc] at hc'
            have hcc : c = c' := Option.some.inj hc'
            rw [← hcc] at hcm'
            exact holdne hcm'.symm
          exact ⟨c', by rw [alookup_aerase_other hne]; exact hc', hcm'⟩
      · exact h3.sublist ((aerase_sublist cid st.clients).map Prod.fst)
      · intro kv hkv
        rcases (mem_aset_iff_nodup h4 hst).mp hkv with hnew | ⟨hold, _⟩
        · subst hnew
          exact hstn0nd.erase cid
        · exact h5 kv hold

/-- `_setupRawClient` preserves the invariant when the session id is fresh
and the mountpoint is registered (as `_handleParsedRequest` guarantees). -/
theorem setupRawClient_inv {st : CasterState} (h : casterInv st)
    {cid : ℕ} (sock : ℕ) {mp : Str} {stn : LiveStation} (rid : ℕ) (un : Str)
    (hfresh : alookup cid st.clients = none)
    (hstn : alookup mp st.stations = some stn) :
    casterInv (setupRawClient st cid sock mp rid un) := by
  rw [casterInv_iff] at h
  obtain ⟨h1, h2, h3, h4, h5⟩ := h
  have hstnmem : (mp, stn) ∈ st.stations := alookup_mem hstn
  have hcidfresh : ∀ kv ∈ st.clients, kv.1 ≠ cid := alookup_none_iff.mp hfresh
  have hcidnosub : ∀ skv ∈ st.stations, cid ∉ skv.2.subs := by
    intro skv hskv hmem
    obtain ⟨c', hc', _⟩ := h2 skv hskv cid hmem
    rw [hfresh] at hc'
    cases hc'
  rw [casterInv_iff, setupRawClient, hstn]
  dsimp only
  refine ⟨?_, ?_, ?_, keys_aset_nodup h4, ?_⟩
  · intro kv hkv
    rcases mem_aset_sub hkv with hnew | hold
    · subst hnew
      refine ⟨{ stn with subs := stn.subs ++ [cid] },
        by rw [alookup_aset_self], ?_⟩
      exact List.mem_append_right _ (List.mem_singleton_self _)
    · obtain ⟨stn', hstn', hmem'⟩ := h1 kv hold
      by_cases hmp : kv.2.mountpoint = mp
      · have : stn' = stn := by
          rw [hmp, hstn] at hstn'
          exact (Option.some.inj hstn').symm
        refine ⟨{ stn with subs := stn.subs ++ [cid] },
          by rw [hmp, alookup_aset_self], ?_⟩
        exact List.mem_append_left _ (this ▸ hmem')
      · exact ⟨stn', by rw [alookup_aset_other hmp]; exact hstn', hmem'⟩
  · intro skv hskv cid' hcid'
    rcases (mem_aset_iff_nodup h4 hstn).mp hskv with hnew | ⟨hold, holdne⟩
    · subst hnew
      dsimp only at hcid' ⊢
      rcases List.mem_append.mp hcid' with hmem0 | hsing
      · obtain ⟨c', hc', hcm'⟩ := h2 _ hstnmem cid' hmem0
        have hne : cid' ≠ cid := fun hh =>
          hcidnosub _ hstnmem (hh ▸ hmem0)
        exact ⟨c', by rw [alookup_aset_other hne]; exact hc', hcm'⟩
      · have : cid' = cid := List.mem_singleton.mp hsing
        subst this
        exact ⟨_, alookup_aset_self _ _ _, rfl⟩
    · obtain ⟨c', hc', hcm'⟩ := h2 skv hold cid' hcid'
      have hne : cid' ≠ cid := fun hh => hcidnosub skv hold (hh ▸ hcid')
      exact ⟨c', by rw [alookup_aset_other hne]; exact hc', hcm'⟩
  · have : ((aset cid
        { mountpoint := mp, sock := sock, roverId := rid, roverUsername := un }
        st.clients).map Prod.fst).Nodup := keys_aset_nodup h3
    exact this
  · intro kv hkv
    rcases (mem_aset_iff_nodup h4 hstn).mp hkv with hnew | ⟨hold, _⟩
    · subst hnew
      dsimp only
      rw [List.nodup_append]
      exact ⟨h5 _ hstnmem, List.nodup_singleton _,
        by intro a ha hb; rw [List.mem_singleton.mp hb] at ha
           exact hcidnosub _ hstnmem ha⟩
    · exact h5 kv hold

/-- `addStation` preserves the invariant: an existing entry keeps its
subscriber set, a new entry starts empty. -/
theorem addStation_inv {st : CasterState} (h : casterInv st)
    (m : StationMeta) : casterInv (addStation st m) := by
  rw [casterInv_iff] at h
  obtain ⟨h1, h2, h3, h4, h5⟩ := h
  rw [addStation]
  rcases hex : alookup m.name st.stations with _ | existing
  · dsimp only
    rw [casterInv_iff]
    have hnwkey : ∀ skv ∈ st.stations, skv.1 ≠ m.name := alookup_none_iff.mp hex
    refine ⟨?_, ?_, h3, keys_aset_nodup h4, ?_⟩
    · intro kv hkv
      obtain ⟨stn', hstn', hmem'⟩ := h1 kv hkv
      have hmp : kv.2.mountpoint ≠ m.name := by
        intro hh
        rw [hh, hex] at hstn'
        cases hstn'
      exact ⟨stn', by rw [alookup_aset_other hmp]; exact hstn', hmem'⟩
    · intro skv hskv cid' hcid'
      rcases mem_aset_sub hskv with hnew | hold
      · subst hnew
        cases hcid'
      · exact h2 skv hold cid' hcid'
    · intro kv hkv
      rcases mem_aset_sub hkv with hnew | hold
      · subst hnew
        exact List.nodup_nil
      · exact h5 kv hold
  · dsimp only
    rw [casterInv_iff]
    have hexmem : (m.name, existing) ∈ st.stations := alookup_mem hex
    refine ⟨?_, ?_, h3, keys_aset_nodup h4, ?_⟩
    · intro kv hkv
      obtain ⟨stn', hstn', hmem'⟩ := h1 kv hkv
      by_cases hmp : kv.2.mountpoint = m.name
      · have : stn' = existing := by
          rw [hmp, hex] at hstn'
          exact (Option.some.inj hstn').symm
        exact ⟨{ existing with meta := m }, by rw [hmp, alookup_aset_self],
          this ▸ hmem'⟩
      · exact ⟨stn', by rw [alookup_aset_other hmp]; exact hstn', hmem'⟩
    · intro skv hskv cid' hcid'
      rcases (mem_aset_iff_nodup h4 hex).mp hskv with hnew | ⟨hold, _⟩
      · subst hnew
        exact h2 (m.name, existing) hexmem cid' hcid'
      · exact h2 skv hold cid' hcid'
    · intro kv hkv
      rcases (mem_aset_iff_nodup h4 hex).mp hkv with hnew | ⟨hold, _⟩
      · subst hnew
        exact h5 (m.name, existing) hexmem
      · exact h5 kv hold

theorem mem_foldl_aerase {β : Type} (L : List ℕ) :
    ∀ (cl : List (ℕ × β)) (kv : ℕ × β),
      kv ∈ L.foldl (fun acc cid => aerase cid acc) cl ↔
        kv ∈ cl ∧ kv.1 ∉ L := by
  induction L with
  | nil => intro cl kv; simp
  | cons cid rest ih =>
    intro cl kv
    rw [List.foldl_cons, ih, mem_aerase_iff]
    constructor
    · rintro ⟨⟨hm, hne⟩, hnr⟩
      refine ⟨hm, ?_⟩
      intro hh
      rcases List.mem_cons.mp hh with hh2 | hh2
      · exact hne hh2
      · exact hnr hh2
    · rintro ⟨hm, hn⟩
      exact ⟨⟨hm, fun hh => hn (hh ▸ List.mem_cons_self _ _)⟩,
        fun hh => hn (List.mem_cons_of_mem _ hh)⟩

theorem alookup_foldl_aerase_of_not_mem {β : Type} (L : List ℕ) :
    ∀ (cl : List (ℕ × β)) (k : ℕ), k ∉ L →
      alookup k (L.foldl (fun acc cid => aerase cid acc) cl) = alookup k cl := by
  induction L with
  | nil => intro cl k _; rfl
  | cons cid rest ih =>
    intro cl k hk
    rw [List.foldl_cons,
      ih _ k (fun hh => hk (List.mem_cons_of_mem _ hh)),
      alookup_aerase_other (fun hh => hk (by rw [hh]; exact List.mem_cons_self _ _))]

theorem foldl_aerase_sublist {β : Type} (L : List ℕ) :
    ∀ cl : List (ℕ × β),
      (L.foldl (fun acc cid => aerase cid acc) cl).Sublist cl := by
  induction L with
  | nil => intro cl; exact List.Sublist.refl _
  | cons cid rest ih =>
    intro cl
    rw [List.foldl_cons]
    exact (ih _).trans (aerase_sublist cid cl)

/-- When every client about to be removed points at an already-deleted
station, the close-callback sweep leaves the station map untouched and
performs exactly the key deletions on the client map. -/
theorem foldl_removeClient_spec (L : List ℕ) :
    ∀ s : CasterState,
      (∀ cid ∈ L, ∀ c, alookup cid s.clients = some c →
        alookup c.mountpoint s.stations = none) →
      (L.foldl removeClient s).stations = s.stations ∧
      (L.foldl removeClient s).clients =
        L.foldl (fun acc cid => aerase cid acc) s.clients := by
  induction L with
  | nil => intro s _; exact ⟨rfl, rfl⟩
  | cons cid rest ih =>
    intro s hcond
    rw [List.foldl_cons, List.foldl_cons]
    rcases hc : alookup cid s.clients with _ | c
    · have hs : removeClient s cid = s := by rw [removeClient, hc]
      have hcl : aerase cid s.clients = s.clients :=
        aerase_eq_self_of_keys_ne (alookup_none_iff.mp hc)
      rw [hs, hcl]
      exact ih s (fun cid' hm => hcond cid' (List.mem_cons_of_mem _ hm))
    · have hstn := hcond cid (List.mem_cons_self _ _) c hc
      have hs : (removeClient s cid).stations = s.stations ∧
          (removeClient s cid).clients = aerase cid s.clients ∧ True := by
        rw [removeClient, hc]
        dsimp only
        rw [hstn]
        exact ⟨rfl, rfl, trivial⟩
      obtain ⟨hsst, hscl, _⟩ := hs
      have hcond' : ∀ cid' ∈ rest, ∀ c',
          alookup cid' (removeClient s cid).clients = some c' →
          alookup c'.mountpoint (removeClient s cid).stations = none := by
        intro cid' hm c' hc'
        rw [hsst]
        rw [hscl] at hc'
        by_cases he : cid' = cid
        · rw [he, alookup_aerase_self] at hc'
          cases hc'
        · rw [alookup_aerase_other he] at hc'
          exact hcond cid' (List.mem_cons_of_mem _ hm) c' hc'
      obtain ⟨ih1, ih2⟩ := ih (removeClient s cid) hcond'
      rw [ih1, ih2, hsst, hscl]
      exact ⟨rfl, rfl⟩

/-- `removeStation` — including the deferred `_removeClient` close
callbacks of the destroyed subscriber sockets — preserves the invariant. -/
theorem removeStation_inv {st : CasterState} (h : casterInv st) (mp : Str) :
    casterInv (removeStation st mp).1 := by
  have hinv := h
  rw [casterInv_iff] at h
  obtain ⟨h1, h2, h3, h4, h5⟩ := h
  rw [removeStation]
  rcases hst : alookup mp st.stations with _ | stn
  · exact hinv
  · dsimp only
    have hstnmem : (mp, stn) ∈ st.stations := alookup_mem hst
    set st1 : CasterState := { st with stations := aerase mp st.stations } with hst1
    have hcond : ∀ cid ∈ stn.subs, ∀ c, alookup cid st1.clients = some c →
        alookup c.mountpoint st1.stations = none := by
      intro cid hm c hc
      obtain ⟨c', hc', hcm'⟩ := h2 _ hstnmem cid hm
      have hcc : c = c' := by
        rw [hc] at hc'
        exact Option.some.inj hc'
      rw [hcc, hcm']
      exact alookup_aerase_self mp st.stations
    obtain ⟨hfst, hfcl⟩ := foldl_removeClient_spec stn.subs st1 hcond
    rw [casterInv_iff, hfst, hfcl]
    refine ⟨?_, ?_, ?_, ?_, ?_⟩
    · intro kv hkv
      obtain ⟨hkv', hnotin⟩ := (mem_foldl_aerase stn.subs st.clients kv).mp hkv
      obtain ⟨stn', hstn', hmem'⟩ := h1 kv hkv'
      have hmp : kv.2.mountpoint ≠ mp := by
        intro hh
        rw [hh, hst] at hstn'
        have : stn' = stn := (Option.some.inj hstn').symm
        exact hnotin (this ▸ hmem')
      exact ⟨stn', by
        show alookup kv.2.mountpoint (aerase mp st.stations) = some stn'
        rw [alookup_aerase_other hmp]; exact hstn', hmem'⟩
    · intro skv hskv cid' hcid'
      obtain ⟨hold, holdne⟩ := mem_aerase_iff.mp hskv
      obtain ⟨c', hc', hcm'⟩ := h2 skv hold cid' hcid'
      have hnotin : cid' ∉ stn.subs := by
        intro hmem
        obtain ⟨c'', hc'', hcm''⟩ := h2 _ hstnmem cid' hmem
        rw [hc'] at hc''
        have : c' = c'' := Option.some.inj hc''
        rw [← this] at hcm''
        exact holdne (by rw [← hcm', hcm''])
      exact ⟨c', by
        rw [alookup_foldl_aerase_of_not_mem stn.subs st.clients cid' hnotin]
        exact hc', hcm'⟩
    · exact h3.sublist ((foldl_aerase_sublist stn.subs st.clients).map Prod.fst)
    · exact h4.sublist ((aerase_sublist mp st.stations).map Prod.fst)
    · intro kv hkv
      exact h5 kv (mem_aerase_iff.mp hkv).1

/-- Every `broadcastGo` step is either a no-op or a `_removeClient`, so the
invariant is preserved. -/
theorem broadcastGo_inv (env : ℕ → SockBeh) (L : List ℕ) :
    ∀ (s : CasterState) (cnt : ℕ) (w : List ℕ), casterInv s →
      casterInv (broadcastGo env L s cnt w).1 := by
  induction L with
  | nil => intro s cnt w h; exact h
  | cons cid rest ih =>
    intro s cnt w h
    rw [broadcastGo]
    rcases hc : alookup cid s.clients with _ | c
    · exact ih s cnt w h
    · dsimp only
      by_cases hw : (env c.sock).writable
      · by_cases hr : (env c.sock).writeRaises
        · simp only [hw, hr, if_true]
          exact ih _ cnt w (removeClient_inv h cid)
        · simp only [hw, hr, if_true, Bool.false_eq_true, if_false]
          exact ih s _ _ h
      · simp only [hw, Bool.false_eq_true, if_false]
        exact ih s cnt w h

theorem broadcast_inv {st : CasterState} (h : casterInv st)
    (env : ℕ → SockBeh) (mp : Str) : casterInv (broadcast env st mp).1 := by
  rw [broadcast]
  rcases hst : alookup mp st.stations with _ | stn
  · exact h
  · dsimp only
    by_cases he : stn.subs.length = 0
    · simp only [he, if_true]; exact h
    · simp only [he, if_false]
      exact broadcastGo_inv env stn.subs st 0 [] h

theorem stopCaster_inv (st : CasterState) : casterInv (stopCaster st) := by
  rw [casterInv_iff]
  refine ⟨?_, ?_, ?_, ?_, ?_⟩ <;> simp [stopCaster]

/-! ## C3: the session/subscriber consistency invariant is preserved -/

/-- C3: in every consistent caster state, each rover session points at a
currently-registered station whose subscriber set contains it (and
conversely each subscriber id is a session keyed with that mountpoint), and
this mutual consistency is preserved by every state operation: mountpoint
registration (`addStation`), session setup on successful authentication
(`_setupRawClient`, with its fresh UUID and the registration check
performed by `_handleParsedRequest`), client removal (`_removeClient`),
mountpoint unregistration including the deferred close callbacks
(`removeStation`), broadcast eviction (`broadcast`), and caster stop
(`stop`). -/
theorem c3_caster_consistency_preserved (st : CasterState)
    (hinv : casterInv st) :
    (∀ m, casterInv (addStation st m)) ∧
    (∀ cid sock mp stn rid un, alookup cid st.clients = none →
      alookup mp st.stations = some stn →
      casterInv (setupRawClient st cid sock mp rid un)) ∧
    (∀ cid, casterInv (removeClient st cid)) ∧
    (∀ mp, casterInv (removeStation st mp).1) ∧
    (∀ env mp, casterInv (broadcast env st mp).1) ∧
    casterInv (stopCaster st) :=
  ⟨fun m => addStation_inv hinv m,
    fun _ sock _ _ rid un hfresh hstn =>
      setupRawClient_inv hinv sock rid un hfresh hstn,
    fun cid => removeClient_inv hinv cid,
    fun mp => removeStation_inv hinv mp,
    fun env mp => broadcast_inv hinv env mp,
    stopCaster_inv st⟩

/-- Witness for C3 at the one-client demo state. -/
theorem c3_caster_consistency_preserved_witness :
    casterInv demoCasterOneClient ∧
    ((∀ m, casterInv (addStation demoCasterOneClient m)) ∧
      (∀ cid sock mp stn rid un,
        alookup cid demoCasterOneClient.clients = none →
        alookup mp demoCasterOneClient.stations = some stn →
        casterInv (setupRawClient demoCasterOneClient cid sock mp rid un)) ∧
      (∀ cid, casterInv (removeClient demoCasterOneClient cid)) ∧
      (∀ mp, casterInv (removeStation demoCasterOneClient mp).1) ∧
      (∀ env mp, casterInv (broadcast env demoCasterOneClient mp).1) ∧
      casterInv (stopCaster demoCasterOneClient)) :=
  ⟨by decide, c3_caster_consistency_preserved demoCasterOneClient (by decide)⟩

/-! ## Digit-string lemmas -/

theorem digitChar_toNat {d : ℕ} (h : d < 10) : (digitChar d).toNat = 48 + d := by
  interval_cases d <;> rfl

theorem renderNat_digits (n : ℕ) :
    ∀ c ∈ renderNat n, 48 ≤ c.toNat ∧ c.toNat ≤ 57 := by
  induction n using Nat.strong_induction_on with
  | _ n ih =>
    rw [renderNat]
    split
    · intro c hc
      rw [List.mem_singleton.mp hc, digitChar_toNat (by omega)]
      omega
    · intro c hc
      rcases List.mem_append.mp hc with hh | hh
      · exact ih (n / 10) (Nat.div_lt_self (by omega) (by omega)) c hh
      · rw [List.mem_singleton.mp hh, digitChar_toNat (Nat.mod_lt _ (by omega))]
        have := Nat.mod_lt n (show 0 < 10 by omega)
        omega

theorem renderNat_isDigit (n : ℕ) : ∀ c ∈ renderNat n, c.isDigit = true := by
  intro c hc
  obtain ⟨h1, h2⟩ := renderNat_digits n c hc
  rw [Char.isDigit, Bool.and_eq_true, decide_eq_true_eq, decide_eq_true_eq]
  exact ⟨h1, h2⟩

theorem isDigit_toNat {c : Char} (h : c.isDigit = true) :
    48 ≤ c.toNat ∧ c.toNat ≤ 57 := by
  rw [Char.isDigit, Bool.and_eq_true, decide_eq_true_eq, decide_eq_true_eq] at h
  exact h

theorem parseNatDigits_append (a b : Str) :
    parseNatDigits (a ++ b) =
      b.foldl (fun acc c => 10 * acc + (c.toNat - 48)) (parseNatDigits a) := by
  rw [parseNatDigits, List.foldl_append]
  rfl

theorem parseNat_renderNat (n : ℕ) : parseNatDigits (renderNat n) = n := by
  induction n using Nat.strong_induction_on with
  | _ n ih =>
    rw [renderNat]
    split
    · rename_i h
      rw [parseNatDigits, List.foldl_cons, List.foldl_nil, digitChar_toNat h]
      omega
    · rename_i h
      rw [parseNatDigits_append,
        ih (n / 10) (Nat.div_lt_self (by omega) (by omega))]
      rw [List.foldl_cons, List.foldl_nil, digitChar_toNat (Nat.mod_lt _ (by omega))]
      omega

theorem parseNatDigits_replicate_zero (j : ℕ) (s : Str) :
    parseNatDigits (List.replicate j '0' ++ s) = parseNatDigits s := by
  induction j with
  | zero => rfl
  | succ j ih =>
    rw [List.replicate_succ, List.cons_append, parseNatDigits, List.foldl_cons]
    have : (10 * 0 + ('0'.toNat - 48)) = 0 := by decide
    rw [this]
    exact ih

theorem parseNat_padStart (k : ℕ) (s : Str) :
    parseNatDigits (padStart k '0' s) = parseNatDigits s := by
  rw [padStart, parseNatDigits_replicate_zero]

theorem renderNat_ne_nil (n : ℕ) : renderNat n ≠ [] := by
  rw [renderNat]
  split
  · simp
  · simp

theorem renderNat_length_le {n k : ℕ} (hk : 1 ≤ k) (h : n < 10 ^ k) :
    (renderNat n).length ≤ k := by
  induction n using Nat.strong_induction_on generalizing k with
  | _ n ih =>
    rw [renderNat]
    split
    · simpa using hk
    · rename_i hten
      rw [List.length_append, List.length_singleton]
      have hk2 : 2 ≤ k := by
        by_contra hcon
        have : k = 1 := by omega
        rw [this] at h
        simp at h
        omega
      have hdiv : n / 10 < 10 ^ (k - 1) := by
        have h10 : 10 ^ k = 10 ^ (k - 1) * 10 := by
          rw [← pow_succ]
          congr 1
          omega
        rw [h10] at h
        exact Nat.div_lt_of_lt_mul (by omega)
      have := ih (n / 10) (Nat.div_lt_self (by omega) (by omega))
        (k := k - 1) (by omega) hdiv
      omega

theorem padStart_length {k : ℕ} {s : Str} (h : s.length ≤ k) (c : Char) :
    (padStart k c s).length = k := by
  rw [padStart, List.length_append, List.length_replicate]
  omega

theorem padStart_all {k : ℕ} {s : Str} {p : Char → Prop} (hc : p '0')
    (hs : ∀ c ∈ s, p c) : ∀ c ∈ padStart k '0' s, p c := by
  intro c hmem
  rcases List.mem_append.mp hmem with hh | hh
  · rw [List.eq_of_mem_replicate hh]
    exact hc
  · exact hs c hh

/-! Lemmas about `takeWhile` / `dropWhile` on digit strings. -/

theorem takeWhile_append_stop {p : Char → Bool} {a : Str} {d : Char}
    (ha : ∀ c ∈ a, p c = true) (hd : p d = false) (t : Str) :
    (a ++ d :: t).takeWhile p = a ∧ (a ++ d :: t).dropWhile p = d :: t := by
  induction a with
  | nil =>
    rw [List.nil_append]
    constructor
    · simp [List.takeWhile_cons, hd]
    · simp [List.dropWhile_cons, hd]
  | cons c a ih =>
    have hc : p c = true := ha c (List.mem_cons_self _ _)
    obtain ⟨ih1, ih2⟩ := ih (fun x hx => ha x (List.mem_cons_of_mem _ hx))
    constructor
    · simp only [List.cons_append, List.takeWhile_cons, hc, if_true, ih1]
    · simp only [List.cons_append, List.dropWhile_cons, hc, if_true, ih2]

theorem takeWhile_all {p : Char → Bool} {a : Str} (ha : ∀ c ∈ a, p c = true) :
    a.takeWhile p = a := by
  induction a with
  | nil => rfl
  | cons c a ih =>
    simp only [List.takeWhile_cons, ha c (List.mem_cons_self _ _), if_true,
      ih (fun x hx => ha x (List.mem_cons_of_mem _ hx))]

theorem not_isDigit_dot : ('.' : Char).isDigit = false := rfl

theorem not_isDigit_star : ('*' : Char).isDigit = false := rfl

/-! Evaluation of the JS number parsers on digit strings. -/

theorem parseFloatMag_digits_dot {a b : Str} (hane : a ≠ [])
    (ha : ∀ c ∈ a, c.isDigit = true) (hb : ∀ c ∈ b, c.isDigit = true) :
    parseFloatMag (a ++ '.' :: b) =
      some ((parseNatDigits a : ℚ) + (parseNatDigits b : ℚ) / 10 ^ b.length) := by
  obtain ⟨ht, hdw⟩ := takeWhile_append_stop ha not_isDigit_dot b
  rcases a with _ | ⟨c, a'⟩
  · exact absurd rfl hane
  · rw [parseFloatMag]
    simp only [ht, hdw, takeWhile_all hb]
    rfl

theorem parseFloatQ_of_digit_head {c : Char} {cs : Str}
    (h : c.isDigit = true) : parseFloatQ (c :: cs) = parseFloatMag (c :: cs) := by
  have h1 : c ≠ '-' := by intro hh; rw [hh] at h; cases h
  have h2 : c ≠ '+' := by intro hh; rw [hh] at h; cases h
  rw [parseFloatQ, if_neg h1, if_neg h2]

theorem parseIntQ_all_digits {a : Str} (hane : a ≠ [])
    (ha : ∀ c ∈ a, c.isDigit = true) :
    parseIntQ a = some (parseNatDigits a : ℤ) := by
  rcases a with _ | ⟨c, rest⟩
  · exact absurd rfl hane
  · have hc : c.isDigit = true := ha c (List.mem_cons_self _ _)
    have h1 : c ≠ '-' := by intro hh; rw [hh] at hc; cases hc
    have h2 : c ≠ '+' := by intro hh; rw [hh] at hc; cases hc
    rw [parseIntQ, if_neg h1, if_neg h2]
    simp only [takeWhile_all ha, List.length_cons]
    simp

/-! Rounding bounds. -/

theorem jsRound_nonneg {q : ℚ} (h : 0 ≤ q) : 0 ≤ jsRound q := by
  rw [jsRound]
  have : ((0 : ℤ) : ℚ) ≤ q + 1/2 := by push_cast; linarith
  exact Int.le_floor.mpr this

theorem jsRound_dist (q : ℚ) : |((jsRound q : ℚ)) - q| ≤ 1/2 := by
  rw [jsRound]
  have h1 : ((⌊q + 1/2⌋ : ℤ) : ℚ) ≤ q + 1/2 := Int.floor_le _
  have h2 : q + 1/2 < ((⌊q + 1/2⌋ : ℤ) : ℚ) + 1 := Int.lt_floor_add_one _
  rw [abs_le]
  constructor <;> linarith

/-! `strStarts` / `isSubstr` facts. -/

theorem strStarts_append_self (p t : Str) : strStarts p (p ++ t) = true := by
  induction p with
  | nil => rfl
  | cons c p ih => simp [strStarts, ih]

theorem isSubstr_of_starts {p s : Str} (h : strStarts p s = true) :
    isSubstr p s = true := by
  rcases s with _ | ⟨c, rest⟩
  · rw [isSubstr]; exact h
  · rw [isSubstr, h, Bool.true_or]

/-! `splitCRLF` structure. -/

theorem splitCRLF_crlf (rest : Str) :
    splitCRLF ('\r' :: '\n' :: rest) = [] :: splitCRLF rest := rfl

theorem splitCRLF_cons_eq {c : Char} {rest : Str}
    (hne : ∀ r, c = '\r' → rest = '\n' :: r → False) :
    splitCRLF (c :: rest) =
      match splitCRLF rest with
      | [] => [[c]]
      | h :: t => (c :: h) :: t := by
  rw [splitCRLF.eq_def]
  split
  · rename_i heq; cases heq
  · rename_i r heq
    injection heq with h1 h2
    exact (hne r h1 h2).elim
  · rename_i c2 rest2 _ heq
    have h1 : c2 = c := by injection heq with ha _; exact ha.symm
    have h2 : rest2 = rest := by injection heq with _ hb; exact hb.symm
    rw [h1, h2]

theorem splitCRLF_ne_nil (s : Str) : splitCRLF s ≠ [] := by
  induction s using splitCRLF.induct with
  | case1 => simp [splitCRLF]
  | case2 rest ih => rw [splitCRLF_crlf]; simp
  | case3 c rest hno hnil ih =>
    rw [splitCRLF_cons_eq hno, hnil]
    simp
  | case4 c rest hno h t hsplit ih =>
    rw [splitCRLF_cons_eq hno, hsplit]
    simp

theorem splitCRLF_append_line {l : Str} (hl : '\r' ∉ l) (rest : Str) :
    splitCRLF (l ++ '\r' :: '\n' :: rest) = l :: splitCRLF rest := by
  induction l with
  | nil => rw [List.nil_append, splitCRLF_crlf]
  | cons c l ih =>
    have hc : c ≠ '\r' := fun hh => hl (by rw [← hh]; exact List.mem_cons_self _ _)
    have hne : ∀ r, c = '\r' → (l ++ '\r' :: '\n' :: rest) = '\n' :: r → False :=
      fun _ h1 _ => hc h1
    rw [List.cons_append, splitCRLF_cons_eq hne,
      ih (fun hh => hl (List.mem_cons_of_mem _ hh))]

theorem splitCRLF_joinCRLF {ls : List Str} (h : ∀ l ∈ ls, '\r' ∉ l) :
    splitCRLF (joinCRLF ls) = ls ++ [[]] := by
  induction ls with
  | nil => rfl
  | cons l ls ih =>
    rw [joinCRLF, splitCRLF_append_line (h l (List.mem_cons_self _ _)),
      ih (fun x hx => h x (List.mem_cons_of_mem _ hx))]
    rfl

theorem padStart_zero (c : Char) (s : Str) : padStart 0 c s = s := by
  simp [padStart]

/-- Parsing a zero-padded `toFixed(k)` rendering of a nonnegative rational
recovers the rounded value. -/
theorem parseFloatMag_padded_fixed (j k : ℕ) (hk : 1 ≤ k) (q : ℚ) :
    parseFloatMag (padStart j '0' (fixedNonneg k q)) =
      some (((jsRound (q * 10 ^ k)).toNat : ℚ) / 10 ^ k) := by
  rw [fixedNonneg]
  set n := (jsRound (q * (10 : ℚ) ^ k)).toNat with hn
  set A0 := renderNat (n / 10 ^ k) with hA0
  set B := padStart k '0' (renderNat (n % 10 ^ k)) with hB
  have hlen : (A0 ++ '.' :: B).length = A0.length + 1 + B.length := by
    rw [List.length_append, List.length_cons]
    omega
  have hpad : padStart j '0' (A0 ++ '.' :: B) =
      (List.replicate (j - (A0.length + 1 + B.length)) '0' ++ A0) ++ '.' :: B := by
    rw [padStart, hlen, List.append_assoc]
  rw [hpad]
  set A := List.replicate (j - (A0.length + 1 + B.length)) '0' ++ A0 with hA
  have hAne : A ≠ [] := by
    rw [hA]
    intro hh
    exact renderNat_ne_nil _ (List.append_eq_nil.mp hh).2
  have hAdig : ∀ c ∈ A, c.isDigit = true := by
    intro c hc
    rcases List.mem_append.mp hc with hh | hh
    · rw [List.eq_of_mem_replicate hh]; rfl
    · exact renderNat_isDigit _ c hh
  have hBdig : ∀ c ∈ B, c.isDigit = true := by
    rw [hB, padStart]
    intro c hc
    rcases List.mem_append.mp hc with hh | hh
    · rw [List.eq_of_mem_replicate hh]; rfl
    · exact renderNat_isDigit _ c hh
  rw [parseFloatMag_digits_dot hAne hAdig hBdig]
  have hBlen : B.length = k := by
    rw [hB]
    refine padStart_length ?_ '0'
    exact renderNat_length_le hk (Nat.mod_lt _ (by positivity))
  have hAval : parseNatDigits A = n / 10 ^ k := by
    rw [hA, parseNatDigits_replicate_zero, hA0, parseNat_renderNat]
  have hBval : parseNatDigits B = n % 10 ^ k := by
    rw [hB, parseNat_padStart, parseNat_renderNat]
  rw [hAval, hBval, hBlen]
  congr 1
  have hmod := Nat.div_add_mod n (10 ^ k)
  have hcast : ((10 : ℚ) ^ k) ≠ 0 := by positivity
  field_simp
  have : (10 : ℚ) ^ k * ((n / 10 ^ k : ℕ) : ℚ) + ((n % 10 ^ k : ℕ) : ℚ) = (n : ℚ) := by
    exact_mod_cast congrArg (fun x : ℕ => (x : ℚ)) hmod
  linarith

/-- `parseFloat` on `q.toFixed(k)` recovers the value rounded to `k`
decimal places. -/
theorem parseFloatQ_toFixedQ (k : ℕ) (hk : 1 ≤ k) (q : ℚ) :
    parseFloatQ (toFixedQ k q) = some (fixedValue k q) := by
  rw [toFixedQ, fixedValue]
  by_cases hq : q < 0
  · simp only [hq, if_true]
    rw [parseFloatQ, if_pos rfl]
    have := parseFloatMag_padded_fixed 0 k hk (-q)
    rw [padStart_zero] at this
    rw [this]
    rfl
  · simp only [hq, if_false]
    have hmag := parseFloatMag_padded_fixed 0 k hk q
    rw [padStart_zero] at hmag
    obtain ⟨d, ds, hrn⟩ := List.exists_cons_of_ne_nil
      (renderNat_ne_nil ((jsRound (q * (10 : ℚ) ^ k)).toNat / 10 ^ k))
    have hddig : d.isDigit = true :=
      renderNat_isDigit _ d (by rw [hrn]; exact List.mem_cons_self _ _)
    have hfix : fixedNonneg k q = d :: (ds ++ '.' :: padStart k '0'
        (renderNat ((jsRound (q * (10 : ℚ) ^ k)).toNat % 10 ^ k))) := by
      simp only [fixedNonneg]
      rw [hrn]
      rfl
    rw [hfix, parseFloatQ_of_digit_head hddig, ← hfix, hmag]

theorem cleanStr_spec {s : Str} (h : cleanStr s = true) :
    ';' ∉ s ∧ '\r' ∉ s ∧ '\n' ∉ s := by
  rw [cleanStr, Bool.and_eq_true, Bool.and_eq_true] at h
  obtain ⟨⟨h1, h2⟩, h3⟩ := h
  rw [Bool.not_eq_true'] at h1 h2 h3
  simp only [List.contains_eq_any_beq, List.any_eq_false, beq_iff_eq] at h1 h2 h3
  refine ⟨?_, ?_, ?_⟩ <;> intro hmem
  · exact h1 ';' hmem rfl
  · exact h2 '\r' hmem rfl
  · exact h3 '\n' hmem rfl

theorem intercalate_cons2 {x : Char} (f f2 : Str) (rest : List Str) :
    List.intercalate [x] (f :: f2 :: rest) =
      f ++ [x] ++ List.intercalate [x] (f2 :: rest) := by
  simp [List.intercalate, List.intersperse]

theorem mem_intercalate_sep {x c : Char} {fields : List Str}
    (h : c ∈ List.intercalate [x] fields) : c = x ∨ ∃ f ∈ fields, c ∈ f := by
  induction fields with
  | nil => simp [List.intercalate] at h
  | cons f rest ih =>
    rcases rest with _ | ⟨f2, rest2⟩
    · right
      refine ⟨f, List.mem_cons_self _ _, ?_⟩
      simpa [List.intercalate] using h
    · rw [intercalate_cons2] at h
      rcases List.mem_append.mp h with hh | hh
      · rcases List.mem_append.mp hh with hh2 | hh2
        · exact Or.inr ⟨f, List.mem_cons_self _ _, hh2⟩
        · exact Or.inl (List.mem_singleton.mp hh2)
      · rcases ih hh with hh2 | ⟨g, hg, hcg⟩
        · exact Or.inl hh2
        · exact Or.inr ⟨g, List.mem_cons_of_mem _ hg, hcg⟩

theorem toFixedQ_chars {k : ℕ} {q : ℚ} :
    ∀ c ∈ toFixedQ k q, (48 ≤ c.toNat ∧ c.toNat ≤ 57) ∨ c = '.' ∨ c = '-' := by
  intro c hc
  have hfix : ∀ q' : ℚ, c ∈ fixedNonneg k q' →
      (48 ≤ c.toNat ∧ c.toNat ≤ 57) ∨ c = '.' ∨ c = '-' := by
    intro q' hmem
    rw [fixedNonneg] at hmem
    rcases List.mem_append.mp hmem with hh | hh
    · exact Or.inl (renderNat_digits _ c hh)
    · rcases List.mem_cons.mp hh with hh2 | hh2
      · exact Or.inr (Or.inl hh2)
      · rw [padStart] at hh2
        rcases List.mem_append.mp hh2 with hh3 | hh3
        · rw [List.eq_of_mem_replicate hh3]
          left
          exact ⟨by decide, by decide⟩
        · exact Or.inl (renderNat_digits _ c hh3)
  rw [toFixedQ] at hc
  split at hc
  · rcases List.mem_cons.mp hc with hh | hh
    · exact Or.inr (Or.inr hh)
    · exact hfix _ hh
  · exact hfix _ hc

theorem toFixedQ_no_sep {k : ℕ} {q : ℚ} :
    ∀ c ∈ toFixedQ k q, c ≠ ';' ∧ c ≠ '\r' ∧ c ≠ '\n' ∧ c ≠ ',' := by
  intro c hc
  rcases toFixedQ_chars c hc with ⟨h1, h2⟩ | h | h
  · refine ⟨?_, ?_, ?_, ?_⟩ <;> intro hh <;> rw [hh] at h1 h2 <;> revert h1 h2 <;> decide
  · rw [h]; refine ⟨by decide, by decide, by decide, by decide⟩
  · rw [h]; refine ⟨by decide, by decide, by decide, by decide⟩

theorem renderNat_no_sep (n : ℕ) :
    ∀ c ∈ renderNat n, c ≠ ';' ∧ c ≠ '\r' ∧ c ≠ '\n' ∧ c ≠ ',' := by
  intro c hc
  obtain ⟨h1, h2⟩ := renderNat_digits n c hc
  refine ⟨?_, ?_, ?_, ?_⟩ <;> intro hh <;> rw [hh] at h1 h2 <;>
    revert h1 h2 <;> decide

theorem joinCRLF_append (a b : List Str) :
    joinCRLF (a ++ b) = joinCRLF a ++ joinCRLF b := by
  induction a with
  | nil => rfl
  | cons l ls ih => rw [List.cons_append, joinCRLF, joinCRLF, ih]; simp

theorem strStarts_head_ne {a b : Char} (h : a ≠ b) (p s : Str) :
    strStarts (a :: p) (b :: s) = false := by
  rw [strStarts, Bool.and_eq_false_iff]
  left
  exact beq_eq_false_iff_ne.mpr h

/-- The eighteen fields of an `STR` line contain no separator characters
when the station's string fields are clean. -/
theorem strFields_clean {opts : CasterOptions} {kv : Str × LiveStation}
    {la lo : ℚ} (h : cleanEntry opts kv = true) :
    ∀ f ∈ [ str "STR", kv.1, jsOrStr kv.2.meta.identifier kv.1,
        jsOrStr kv.2.meta.format (str "RTCM 3.2"),
        jsOrStr kv.2.meta.formatDetails
          (str "1004(1),1005/1006(5),1019(5),1020(5)"),
        jsOrStr kv.2.meta.carrier (str "2"),
        jsOrStr kv.2.meta.navSystem (str "GPS+GLO+GAL+BDS"),
        jsOrStr kv.2.meta.network (str "CORS"),
        jsOrStr kv.2.meta.country opts.country,
        toFixedQ 4 la, toFixedQ 4 lo,
        (if kv.2.meta.nmea then str "1" else str "0"),
        jsOrStr kv.2.meta.solution (str "1"),
        jsOrStr kv.2.meta.generator (str "NTRIP-JS-Relay/1.0"),
        jsOrStr kv.2.meta.compression (str "none"),
        str "B",
        (if kv.2.meta.fee then str "Y" else str "N"),
        jsOrStr kv.2.meta.bitrate (str "2400") ],
      ';' ∉ f ∧ '\r' ∉ f ∧ '\n' ∉ f := by
  rw [cleanEntry] at h
  simp only [Bool.and_eq_true] at h
  obtain ⟨⟨⟨⟨⟨⟨⟨⟨⟨⟨⟨h1, h2⟩, h3⟩, h4⟩, h5⟩, h6⟩, h7⟩, h8⟩, h9⟩, h10⟩, h11⟩, h12⟩ := h
  intro f hf
  simp only [List.mem_cons, List.not_mem_nil, or_false] at hf
  rcases hf with hf | hf | hf | hf | hf | hf | hf | hf | hf | hf | hf | hf | hf | hf | hf | hf | hf | hf
  all_goals (try (rw [hf]; exact ⟨by decide, by decide, by decide⟩))
  · rw [hf]; exact cleanStr_spec h1
  · rw [hf]; exact cleanStr_spec h2
  · rw [hf]; exact cleanStr_spec h3
  · rw [hf]; exact cleanStr_spec h4
  · rw [hf]; exact cleanStr_spec h5
  · rw [hf]; exact cleanStr_spec h6
  · rw [hf]; exact cleanStr_spec h7
  · rw [hf]; exact cleanStr_spec h8
  · rw [hf]
    refine ⟨?_, ?_, ?_⟩ <;> intro hmem
    · exact (toFixedQ_no_sep _ hmem).1 rfl
    · exact (toFixedQ_no_sep _ hmem).2.1 rfl
    · exact (toFixedQ_no_sep _ hmem).2.2.1 rfl
  · rw [hf]
    refine ⟨?_, ?_, ?_⟩ <;> intro hmem
    · exact (toFixedQ_no_sep _ hmem).1 rfl
    · exact (toFixedQ_no_sep _ hmem).2.1 rfl
    · exact (toFixedQ_no_sep _ hmem).2.2.1 rfl
  · rw [hf]
    by_cases hn : kv.2.meta.nmea <;> simp [hn] <;> decide
  · rw [hf]; exact cleanStr_spec h9
  · rw [hf]; exact cleanStr_spec h10
  · rw [hf]; exact cleanStr_spec h11
  · rw [hf]
    by_cases hn : kv.2.meta.fee <;> simp [hn] <;> decide
  · rw [hf]; exact cleanStr_spec h12

theorem renderSTRline_no_crlf {opts : CasterOptions} {kv : Str × LiveStation}
    {la lo : ℚ} (h : cleanEntry opts kv = true) :
    '\r' ∉ renderSTRline opts kv.1 kv.2.meta la lo ∧
    '\n' ∉ renderSTRline opts kv.1 kv.2.meta la lo := by
  have hf := @strFields_clean opts kv la lo h
  rw [renderSTRline]
  constructor <;> intro hmem <;>
    rcases mem_intercalate_sep hmem with hc | ⟨f, hfm, hcm⟩
  · exact absurd hc (by decide)
  · exact (hf f hfm).2.1 hcm
  · exact absurd hc (by decide)
  · exact (hf f hfm).2.2 hcm

theorem renderSTRline_starts {opts : CasterOptions} {kv : Str × LiveStation}
    {la lo : ℚ} :
    strStarts (str "STR;") (renderSTRline opts kv.1 kv.2.meta la lo) = true := by
  rw [renderSTRline, intercalate_cons2]
  have he : str "STR" ++ [';'] = str "STR;" := rfl
  rw [he]
  exact strStarts_append_self _ _

theorem parseSTRline_render {opts : CasterOptions} {kv : Str × LiveStation}
    {la lo : ℚ} (h : cleanEntry opts kv = true) :
    (parseSTRline (renderSTRline opts kv.1 kv.2.meta la lo)).mountpoint = kv.1 ∧
    (parseSTRline (renderSTRline opts kv.1 kv.2.meta la lo)).latitude =
      fixedValue 4 la ∧
    (parseSTRline (renderSTRline opts kv.1 kv.2.meta la lo)).longitude =
      fixedValue 4 lo := by
  have hsplit : (renderSTRline opts kv.1 kv.2.meta la lo).splitOn ';' =
      [ str "STR", kv.1, jsOrStr kv.2.meta.identifier kv.1,
        jsOrStr kv.2.meta.format (str "RTCM 3.2"),
        jsOrStr kv.2.meta.formatDetails
          (str "1004(1),1005/1006(5),1019(5),1020(5)"),
        jsOrStr kv.2.meta.carrier (str "2"),
        jsOrStr kv.2.meta.navSystem (str "GPS+GLO+GAL+BDS"),
        jsOrStr kv.2.meta.network (str "CORS"),
        jsOrStr kv.2.meta.country opts.country,
        toFixedQ 4 la, toFixedQ 4 lo,
        (if kv.2.meta.nmea then str "1" else str "0"),
        jsOrStr kv.2.meta.solution (str "1"),
        jsOrStr kv.2.meta.generator (str "NTRIP-JS-Relay/1.0"),
        jsOrStr kv.2.meta.compression (str "none"),
        str "B",
        (if kv.2.meta.fee then str "Y" else str "N"),
        jsOrStr kv.2.meta.bitrate (str "2400") ] := by
    rw [renderSTRline]
    exact List.splitOn_intercalate _ ';'
      (fun f hf => (@strFields_clean opts kv la lo h f hf).1)
      (by simp)
  rw [parseSTRline]
  simp only [hsplit, List.getD_cons_succ, List.getD_cons_zero]
  refine ⟨trivial, ?_, ?_⟩
  · rw [parseFloatOr0, parseFloatQ_toFixedQ 4 (by omega) la, Option.getD_some]
  · rw [parseFloatOr0, parseFloatQ_toFixedQ 4 (by omega) lo, Option.getD_some]

/-! The `CAS` / `NET` lines are free of `"\r\n"` and do not start with
`"STR;"`, so the probe neither mis-splits nor mis-keeps them. -/

theorem casLine_no_crlf {opts : CasterOptions} (h : cleanOpts opts = true) :
    '\r' ∉ casLine opts ∧ '\n' ∉ casLine opts := by
  rw [cleanOpts, Bool.and_eq_true, Bool.and_eq_true] at h
  obtain ⟨⟨hh, ho⟩, hc⟩ := h
  have e : casLine opts = List.intercalate [';']
      [ str "CAS",
        (if opts.host == str "0.0.0.0" then str "127.0.0.1" else opts.host),
        renderNat opts.port, str "VN_CASTER", opts.operatorName,
        str "0", opts.country, str "16.0000", str "106.0000", [] ] := rfl
  rw [e]
  have hfield : ∀ f ∈ [ str "CAS",
        (if opts.host == str "0.0.0.0" then str "127.0.0.1" else opts.host),
        renderNat opts.port, str "VN_CASTER", opts.operatorName,
        str "0", opts.country, str "16.0000", str "106.0000", ([] : Str) ],
      '\r' ∉ f ∧ '\n' ∉ f := by
    intro f hf
    simp only [List.mem_cons, List.not_mem_nil, or_false] at hf
    rcases hf with hf | hf | hf | hf | hf | hf | hf | hf | hf | hf
    · rw [hf]; exact ⟨by decide, by decide⟩
    · rw [hf]
      by_cases hb : opts.host == str "0.0.0.0"
      · rw [if_pos hb]; exact ⟨by decide, by decide⟩
      · rw [if_neg hb]; exact ⟨(cleanStr_spec hh).2.1, (cleanStr_spec hh).2.2⟩
    · rw [hf]
      constructor <;> intro hmem
      · exact (renderNat_no_sep _ _ hmem).2.1 rfl
      · exact (renderNat_no_sep _ _ hmem).2.2.1 rfl
    · rw [hf]; exact ⟨by decide, by decide⟩
    · rw [hf]; exact ⟨(cleanStr_spec ho).2.1, (cleanStr_spec ho).2.2⟩
    · rw [hf]; exact ⟨by decide, by decide⟩
    · rw [hf]; exact ⟨(cleanStr_spec hc).2.1, (cleanStr_spec hc).2.2⟩
    · rw [hf]; exact ⟨by decide, by decide⟩
    · rw [hf]; exact ⟨by decide, by decide⟩
    · rw [hf]; exact ⟨by decide, by decide⟩
  constructor <;> intro hmem <;>
    rcases mem_intercalate_sep hmem with hsep | ⟨f, hfm, hcm⟩
  · exact absurd hsep (by decide)
  · exact (hfield f hfm).1 hcm
  · exact absurd hsep (by decide)
  · exact (hfield f hfm).2 hcm

theorem netLine_no_crlf {opts : CasterOptions} (h : cleanOpts opts = true) :
    '\r' ∉ netLine opts ∧ '\n' ∉ netLine opts := by
  rw [cleanOpts, Bool.and_eq_true, Bool.and_eq_true] at h
  obtain ⟨⟨_, ho⟩, _⟩ := h
  rw [netLine]
  have hfield : ∀ f ∈ [ str "NET", str "VN_NETWORK", opts.operatorName,
        str "B", str "N", ([] : Str), ([] : Str),
        str "Vietnam CORS Network Relay" ],
      '\r' ∉ f ∧ '\n' ∉ f := by
    intro f hf
    simp only [List.mem_cons, List.not_mem_nil, or_false] at hf
    rcases hf with hf | hf | hf | hf | hf | hf | hf | hf
    · rw [hf]; exact ⟨by decide, by decide⟩
    · rw [hf]; exact ⟨by decide, by decide⟩
    · rw [hf]; exact ⟨(cleanStr_spec ho).2.1, (cleanStr_spec ho).2.2⟩
    · rw [hf]; exact ⟨by decide, by decide⟩
    · rw [hf]; exact ⟨by decide, by decide⟩
    · rw [hf]; exact ⟨by decide, by decide⟩
    · rw [hf]; exact ⟨by decide, by decide⟩
    · rw [hf]; exact ⟨by decide, by decide⟩
  constructor <;> intro hmem <;>
    rcases mem_intercalate_sep hmem with hsep | ⟨f, hfm, hcm⟩
  · exact absurd hsep (by decide)
  · exact (hfield f hfm).1 hcm
  · exact absurd hsep (by decide)
  · exact (hfield f hfm).2 hcm

theorem strStarts_STR_cons_ne {c : Char} (h : c ≠ 'S') (s : Str) :
    strStarts (str "STR;") (c :: s) = false := by
  have e : str "STR;" = 'S' :: str "TR;" := rfl
  rw [e]
  exact strStarts_head_ne (fun hh => h hh.symm) _ _

theorem strStarts_STR_casLine (opts : CasterOptions) :
    strStarts (str "STR;") (casLine opts) = false := by
  have e : casLine opts = List.intercalate [';']
      (str "CAS" ::
        [ (if opts.host == str "0.0.0.0" then str "127.0.0.1" else opts.host),
          renderNat opts.port, str "VN_CASTER", opts.operatorName,
          str "0", opts.country, str "16.0000", str "106.0000", [] ]) := rfl
  rw [e, intercalate_cons2]
  exact strStarts_STR_cons_ne (by decide) _

theorem strStarts_STR_netLine (opts : CasterOptions) :
    strStarts (str "STR;") (netLine opts) = false := by
  have e : netLine opts = List.intercalate [';']
      (str "NET" ::
        [ str "VN_NETWORK", opts.operatorName, str "B", str "N",
          [], [], str "Vietnam CORS Network Relay" ]) := rfl
  rw [e, intercalate_cons2]
  exact strStarts_STR_cons_ne (by decide) _

theorem strStarts_STR_content_length (n : ℕ) :
    strStarts (str "STR;") (str "Content-Length: " ++ renderNat n) = false :=
  strStarts_STR_cons_ne (by decide) _

/-- Projecting mountpoint, latitude and longitude out of the probe's parse of
each rendered `STR` line recovers exactly the renderer's emissions. -/
theorem probe_map_renders {opts : CasterOptions}
    {stations : List (Str × LiveStation)}
    (hst : ∀ kv ∈ stations, cleanEntry opts kv = true) :
    ((stations.filterMap (strEntryOf opts)).map parseSTRline).map
        (fun r => (r.mountpoint, r.latitude, r.longitude)) =
      renderedMps stations := by
  induction stations with
  | nil => rfl
  | cons kv rest ih =>
    have hrest := ih (fun x hx => hst x (List.mem_cons_of_mem _ hx))
    have hkv := hst kv (List.mem_cons_self _ _)
    by_cases hg : (kv.2.meta.active && qTruthy kv.2.meta.lat &&
        qTruthy kv.2.meta.lon) = true
    · have hs : strEntryOf opts kv = some (renderSTRline opts kv.1 kv.2.meta
          (kv.2.meta.lat.getD 0) (kv.2.meta.lon.getD 0)) := by
        rw [strEntryOf, if_pos hg]
      have hr : renderedMps (kv :: rest) =
          (kv.1, fixedValue 4 (kv.2.meta.lat.getD 0),
            fixedValue 4 (kv.2.meta.lon.getD 0)) :: renderedMps rest := by
        rw [renderedMps, renderedMps]
        simp only [List.filterMap_cons, if_pos hg]
      obtain ⟨h1, h2, h3⟩ := @parseSTRline_render opts kv
        (kv.2.meta.lat.getD 0) (kv.2.meta.lon.getD 0) hkv
      rw [hr]
      simp only [List.filterMap_cons, hs, List.map_cons, hrest, h1, h2, h3]
    · have hs : strEntryOf opts kv = none := by
        rw [strEntryOf, if_neg hg]
      have hr : renderedMps (kv :: rest) = renderedMps rest := by
        rw [renderedMps, renderedMps]
        simp only [List.filterMap_cons, if_neg hg]
      rw [hr]
      simp only [List.filterMap_cons, hs, hrest]

/-- C7: for every caster options record and station list whose
interpolated string fields contain no `';'`, `'\r'` or `'\n'` (the
separators of the wire format), probing the rendered sourcetable
with `fetchMountpointsFromSource`'s parser succeeds and recovers exactly
the rendered mountpoints: each record's name equals the rendered mountpoint
name and its latitude and longitude equal the rendered 4-decimal values. -/
theorem c7_sourcetable_probe_roundtrip (opts : CasterOptions)
    (stations : List (Str × LiveStation))
    (hopts : cleanOpts opts = true)
    (hst : ∀ kv ∈ stations, cleanEntry opts kv = true) :
    ∃ records : List MpRecord,
      fetchMountpoints (getSourcetable opts stations) =
        ProbeResult.ok records ∧
      records.map (fun r => (r.mountpoint, r.latitude, r.longitude)) =
        renderedMps stations := by
  have hall : getSourcetable opts stations =
      joinCRLF (sourcetableHeaderLines (tableBody opts stations).length ++
        tableLines opts stations) := by
    rw [getSourcetable, joinCRLF_append, tableBody]
  have hsub : isSubstr (str "SOURCETABLE 200 OK")
      (getSourcetable opts stations) = true := by
    rw [hall]
    have hhd : joinCRLF (sourcetableHeaderLines
          (tableBody opts stations).length ++ tableLines opts stations) =
        str "SOURCETABLE 200 OK" ++ ('\r' :: '\n' ::
          joinCRLF ([ str "Server: NTRIP-JS-Caster/1.0",
            str "Content-Type: text/plain", str "Connection: close",
            str "Content-Length: " ++
              renderNat (tableBody opts stations).length, [] ] ++
            tableLines opts stations)) := rfl
    rw [hhd]
    exact isSubstr_of_starts (strStarts_append_self _ _)
  have hlines : ∀ l ∈ sourcetableHeaderLines
      (tableBody opts stations).length ++ tableLines opts stations,
      '\r' ∉ l := by
    intro l hl
    rcases List.mem_append.mp hl with hl | hl
    · simp only [sourcetableHeaderLines, List.mem_cons, List.not_mem_nil,
        or_false] at hl
      rcases hl with hl | hl | hl | hl | hl | hl
      · rw [hl]; decide
      · rw [hl]; decide
      · rw [hl]; decide
      · rw [hl]; decide
      · rw [hl]
        intro hmem
        rcases List.mem_append.mp hmem with hm | hm
        · revert hm; decide
        · exact (renderNat_no_sep _ _ hm).2.1 rfl
      · rw [hl]; decide
    · rw [tableLines] at hl
      rcases List.mem_append.mp hl with hl | hl
      · obtain ⟨kv, hkv, hsome⟩ := List.mem_filterMap.mp hl
        have hclean := hst kv hkv
        rw [strEntryOf] at hsome
        by_cases hg : (kv.2.meta.active && qTruthy kv.2.meta.lat &&
            qTruthy kv.2.meta.lon) = true
        · rw [if_pos hg] at hsome
          rw [← Option.some.inj hsome]
          exact (renderSTRline_no_crlf hclean).1
        · rw [if_neg hg] at hsome
          exact absurd hsome (by simp)
      · simp only [List.mem_cons, List.not_mem_nil, or_false] at hl
        rcases hl with hl | hl | hl
        · rw [hl]; exact (casLine_no_crlf hopts).1
        · rw [hl]; exact (netLine_no_crlf hopts).1
        · rw [hl]; decide
  have hsplit : splitCRLF (getSourcetable opts stations) =
      (sourcetableHeaderLines (tableBody opts stations).length ++
        tableLines opts stations) ++ [[]] := by
    rw [hall]
    exact splitCRLF_joinCRLF hlines
  have hfilter : ((sourcetableHeaderLines (tableBody opts stations).length ++
      tableLines opts stations) ++ [[]]).filter
        (fun l => strStarts (str "STR;") l) =
      stations.filterMap (strEntryOf opts) := by
    rw [List.filter_append, List.filter_append, tableLines,
      List.filter_append]
    have h1 : (sourcetableHeaderLines
        (tableBody opts stations).length).filter
          (fun l => strStarts (str "STR;") l) = [] := by
      rw [List.filter_eq_nil_iff]
      intro l hl
      simp only [sourcetableHeaderLines, List.mem_cons, List.not_mem_nil,
        or_false] at hl
      rcases hl with hl | hl | hl | hl | hl | hl
      · rw [hl]; decide
      · rw [hl]; decide
      · rw [hl]; decide
      · rw [hl]; decide
      · rw [hl]
        simp only [strStarts_STR_content_length, Bool.false_eq_true,
          not_false_eq_true]
      · rw [hl]; decide
    have h2 : (stations.filterMap (strEntryOf opts)).filter
        (fun l => strStarts (str "STR;") l) =
        stations.filterMap (strEntryOf opts) := by
      rw [List.filter_eq_self]
      intro l hl
      obtain ⟨kv, hkv, hsome⟩ := List.mem_filterMap.mp hl
      rw [strEntryOf] at hsome
      by_cases hg : (kv.2.meta.active && qTruthy kv.2.meta.lat &&
          qTruthy kv.2.meta.lon) = true
      · rw [if_pos hg] at hsome
        rw [← Option.some.inj hsome]
        exact renderSTRline_starts
      · rw [if_neg hg] at hsome
        exact absurd hsome (by simp)
    have h3 : ([casLine opts, netLine opts,
        str "ENDSOURCETABLE"]).filter
          (fun l => strStarts (str "STR;") l) = [] := by
      rw [List.filter_eq_nil_iff]
      intro l hl
      simp only [List.mem_cons, List.not_mem_nil, or_false] at hl
      rcases hl with hl | hl | hl
      · rw [hl]
        simp only [strStarts_STR_casLine, Bool.false_eq_true,
          not_false_eq_true]
      · rw [hl]
        simp only [strStarts_STR_netLine, Bool.false_eq_true,
          not_false_eq_true]
      · rw [hl]; decide
    have h4 : ([([] : Str)]).filter
        (fun l => strStarts (str "STR;") l) = [] := by decide
    rw [h1, h2, h3, h4]
    simp
  have hfetch : fetchMountpoints (getSourcetable opts stations) =
      ProbeResult.ok ((stations.filterMap (strEntryOf opts)).map
        parseSTRline) := by
    rw [fetchMountpoints, hsub]
    simp only [Bool.not_true]
    rw [if_neg (by simp), hsplit, hfilter]
  exact ⟨(stations.filterMap (strEntryOf opts)).map parseSTRline, hfetch,
    probe_map_renders hst⟩

/-- Witness for C7 at the demo options and the demo station list. -/
theorem c7_sourcetable_probe_roundtrip_witness :
    cleanOpts demoOpts = true ∧
    (∀ kv ∈ demoCaster.stations, cleanEntry demoOpts kv = true) ∧
    ∃ records : List MpRecord,
      fetchMountpoints (getSourcetable demoOpts demoCaster.stations) =
        ProbeResult.ok records ∧
      records.map (fun r => (r.mountpoint, r.latitude, r.longitude)) =
        renderedMps demoCaster.stations :=
  ⟨by decide, by decide, c7_sourcetable_probe_roundtrip demoOpts
    demoCaster.stations (by decide) (by decide)⟩

/-! Toolkit for the GGA round trip: splitting the formatted sentence back
into its comma-separated fields and evaluating the JS number parsers on
the formatter's coordinate texts. -/

theorem take_len_append {α : Type} (a b : List α) :
    (a ++ b).take a.length = a := by
  induction a with
  | nil => rfl
  | cons x t ih =>
    rw [List.cons_append, List.length_cons, List.take_succ_cons, ih]

theorem drop_len_append {α : Type} (a b : List α) :
    (a ++ b).drop a.length = b := by
  induction a with
  | nil => rfl
  | cons x t ih =>
    rw [List.cons_append, List.length_cons, List.drop_succ_cons, ih]

theorem intercalate_append_last {x : Char} (t : Str) :
    ∀ (fs : List Str) (f : Str),
    List.intercalate [x] (fs ++ [f]) ++ t =
      List.intercalate [x] (fs ++ [f ++ t]) := by
  intro fs
  induction fs with
  | nil =>
    intro f
    simp [List.intercalate]
  | cons g gs ih =>
    intro f
    rcases gs with _ | ⟨g2, gs2⟩
    · simp only [List.nil_append, List.cons_append]
      rw [intercalate_cons2, intercalate_cons2]
      have h1 : List.intercalate [x] [f] = f := by simp [List.intercalate]
      have h2 : List.intercalate [x] [f ++ t] = f ++ t := by
        simp [List.intercalate]
      rw [h1, h2, List.append_assoc, List.append_assoc]
    · simp only [List.cons_append]
      rw [intercalate_cons2, intercalate_cons2]
      have hh := ih f
      simp only [List.cons_append] at hh
      rw [List.append_assoc, List.append_assoc, hh, List.append_assoc]

theorem cons_intercalate_head {x : Char} (c : Char) (f g : Str)
    (rest : List Str) :
    c :: List.intercalate [x] (f :: g :: rest) =
      List.intercalate [x] ((c :: f) :: g :: rest) := by
  rw [intercalate_cons2, intercalate_cons2]
  rfl

theorem gga_sentence_fields (timeStr latStr latHem lonStr lonHem altStr t1 t2 :
    Str) :
    ('$' :: List.intercalate [',']
        (ggaBodyFields timeStr latStr latHem lonStr lonHem altStr) ++ t1) ++ t2 =
      List.intercalate [',']
        [ str "$GPGGA", timeStr, latStr, latHem, lonStr, lonHem, str "1",
          str "08", str "1.0", altStr, str "M", str "0.0", str "M", [],
          t1 ++ t2 ] := by
  rw [List.append_assoc, ggaBodyFields]
  have e : ([str "GPGGA", timeStr, latStr, latHem, lonStr, lonHem, str "1",
      str "08", str "1.0", altStr, str "M", str "0.0", str "M", ([] : Str),
      ([] : Str)] : List Str) =
      [str "GPGGA", timeStr, latStr, latHem, lonStr, lonHem, str "1",
       str "08", str "1.0", altStr, str "M", str "0.0", str "M",
       ([] : Str)] ++ [([] : Str)] := rfl
  rw [e, List.cons_append, intercalate_append_last]
  simp only [List.cons_append, List.nil_append]
  exact cons_intercalate_head '$' (str "GPGGA") timeStr _

theorem fixedNonneg_chars {k : ℕ} {q : ℚ} :
    ∀ c ∈ fixedNonneg k q, c.isDigit = true ∨ c = '.' := by
  intro c hc
  simp only [fixedNonneg] at hc
  rcases List.mem_append.mp hc with h | h
  · exact Or.inl (renderNat_isDigit _ c h)
  · rcases List.mem_cons.mp h with h | h
    · exact Or.inr h
    · exact Or.inl
        (padStart_all (p := fun c => c.isDigit = true) rfl
          (renderNat_isDigit _) c h)

theorem padStart_fixed_head (j k : ℕ) (q : ℚ) :
    ∃ c cs, padStart j '0' (fixedNonneg k q) = c :: cs ∧ c.isDigit = true := by
  obtain ⟨d, ds, hrn⟩ := List.exists_cons_of_ne_nil
    (renderNat_ne_nil ((jsRound (q * (10 : ℚ) ^ k)).toNat / 10 ^ k))
  have hfx : fixedNonneg k q = d :: (ds ++ '.' :: padStart k '0'
      (renderNat ((jsRound (q * (10 : ℚ) ^ k)).toNat % 10 ^ k))) := by
    simp only [fixedNonneg]
    rw [hrn]
    rfl
  have hd : d.isDigit = true :=
    renderNat_isDigit _ d (by rw [hrn]; exact List.mem_cons_self _ _)
  rcases hn : j - (fixedNonneg k q).length with _ | n
  · refine ⟨d, ds ++ '.' :: padStart k '0'
      (renderNat ((jsRound (q * (10 : ℚ) ^ k)).toNat % 10 ^ k)), ?_, hd⟩
    rw [padStart, hn]
    simp only [List.replicate, List.nil_append]
    exact hfx
  · refine ⟨'0', List.replicate n '0' ++ fixedNonneg k q, ?_, rfl⟩
    rw [padStart, hn, List.replicate_succ, List.cons_append]

theorem parseFloatQ_pad_fixed (j k : ℕ) (hk : 1 ≤ k) (q : ℚ) :
    parseFloatQ (padStart j '0' (fixedNonneg k q)) =
      some (((jsRound (q * (10 : ℚ) ^ k)).toNat : ℚ) / 10 ^ k) := by
  obtain ⟨c, cs, he, hc⟩ := padStart_fixed_head j k q
  rw [he, parseFloatQ_of_digit_head hc, ← he,
    parseFloatMag_padded_fixed j k hk q]

theorem hexDigitChar_ne_comma {m : ℕ} (hm : m < 16) :
    hexDigitChar m ≠ ',' := by
  interval_cases m <;> decide

theorem renderHex_ne_comma (n : ℕ) : ∀ c ∈ renderHex n, c ≠ ',' := by
  induction n using Nat.strong_induction_on with
  | _ n ih =>
    rw [renderHex]
    split
    · rename_i h
      intro c hc
      rw [List.mem_singleton.mp hc]
      exact hexDigitChar_ne_comma h
    · rename_i h
      intro c hc
      rcases List.mem_append.mp hc with hh | hh
      · exact ih (n / 16) (Nat.div_lt_self (by omega) (by omega)) c hh
      · rw [List.mem_singleton.mp hh]
        exact hexDigitChar_ne_comma (Nat.mod_lt _ (by omega))

theorem comma_not_mem_degMinStr (w : ℕ) (q : ℚ) : ',' ∉ degMinStr w q := by
  simp only [degMinStr]
  intro hmem
  rcases List.mem_append.mp hmem with h | h
  · have := padStart_all (p := fun c => c.isDigit = true) rfl
      (renderNat_isDigit _) ',' h
    exact absurd this (by decide)
  · have := padStart_all (p := fun c => c.isDigit = true ∨ c = '.')
      (Or.inl rfl) fixedNonneg_chars ',' h
    rcases this with h2 | h2
    · exact absurd h2 (by decide)
    · exact absurd h2 (by decide)

theorem comma_not_mem_renderAlt (alt : Option ℚ) : ',' ∉ renderAlt alt := by
  cases alt with
  | none => rw [renderAlt]; decide
  | some a =>
    rw [renderAlt]
    intro hmem
    exact (toFixedQ_no_sep ',' hmem).2.2.2 rfl

theorem comma_not_mem_star_tail (K : ℕ) :
    ',' ∉ '*' :: padStart 2 '0' (renderHex K) ++ str "\r\n" := by
  intro hmem
  rcases List.mem_append.mp hmem with h | h
  · rcases List.mem_cons.mp h with h | h
    · exact absurd h (by decide)
    · exact padStart_all (p := fun c => c ≠ ',') (by decide)
        (renderHex_ne_comma K) ',' h rfl
  · revert h; decide

theorem parseNatDigits_lt {s : Str} (hs : ∀ c ∈ s, c.isDigit = true) :
    parseNatDigits s < 10 ^ s.length := by
  suffices h : ∀ (t : Str), (∀ c ∈ t, c.isDigit = true) → ∀ (a : ℕ),
      t.foldl (fun acc c => 10 * acc + (c.toNat - 48)) a <
        (a + 1) * 10 ^ t.length by
    have := h s hs 0
    rw [parseNatDigits]
    simpa using this
  intro t
  induction t with
  | nil => intro _ a; simp
  | cons c t ih =>
    intro hdig a
    simp only [List.foldl_cons, List.length_cons]
    have hc := isDigit_toNat (hdig c (List.mem_cons_self _ _))
    have h1 := ih (fun u hu => hdig u (List.mem_cons_of_mem _ hu))
      (10 * a + (c.toNat - 48))
    have h2 : (10 * a + (c.toNat - 48) + 1) * 10 ^ t.length ≤
        ((a + 1) * 10) * 10 ^ t.length :=
      Nat.mul_le_mul_right _ (by omega)
    have h3 : ((a + 1) * 10) * 10 ^ t.length = (a + 1) * 10 ^ (t.length + 1) := by
      ring
    calc t.foldl (fun acc c => 10 * acc + (c.toNat - 48))
          (10 * a + (c.toNat - 48)) <
        (10 * a + (c.toNat - 48) + 1) * 10 ^ t.length := h1
      _ ≤ ((a + 1) * 10) * 10 ^ t.length := h2
      _ = (a + 1) * 10 ^ (t.length + 1) := h3

theorem parseFloat_two_digit_dot (c d e1 e2 e3 e4 e5 : Char)
    (hc : c.isDigit = true) (hd : d.isDigit = true) (h1 : e1.isDigit = true)
    (h2 : e2.isDigit = true) (h3 : e3.isDigit = true) (h4 : e4.isDigit = true)
    (h5 : e5.isDigit = true) :
    parseFloatQ [c, d, '.', e1, e2, e3, e4, e5] =
      some ((parseNatDigits [c, d] : ℚ) +
        (parseNatDigits [e1, e2, e3, e4, e5] : ℚ) / 10 ^ 5) := by
  rw [parseFloatQ_of_digit_head hc]
  have hm := parseFloatMag_digits_dot (a := [c, d]) (b := [e1, e2, e3, e4, e5])
    (by simp)
    (by intro u hu
        simp only [List.mem_cons, List.not_mem_nil, or_false] at hu
        rcases hu with h | h <;> subst h <;> assumption)
    (by intro u hu
        simp only [List.mem_cons, List.not_mem_nil, or_false] at hu
        rcases hu with h | h | h | h | h <;> subst h <;> assumption)
  have he : ([c, d] : Str) ++ '.' :: [e1, e2, e3, e4, e5] =
      [c, d, '.', e1, e2, e3, e4, e5] := rfl
  rw [he] at hm
  rw [hm]
  norm_num

/-- The formatted sentence is the comma-join of its fifteen fields; the
checksum suffix rides on the final (empty) field. -/
theorem formatNmeaGGA_eq_intercalate (timeStr : Str) (la lo : ℚ)
    (alt : Option ℚ) :
    ∃ K : ℕ, formatNmeaGGA timeStr la lo alt = List.intercalate [',']
      [ str "$GPGGA", timeStr, degMinStr 2 la,
        (if 0 ≤ la then str "N" else str "S"), degMinStr 3 lo,
        (if 0 ≤ lo then str "E" else str "W"), str "1", str "08", str "1.0",
        renderAlt alt, str "M", str "0.0", str "M", [],
        '*' :: padStart 2 '0' (renderHex K) ++ str "\r\n" ] := by
  refine ⟨(List.intercalate [','] (ggaBodyFields timeStr (degMinStr 2 la)
      (if 0 ≤ la then str "N" else str "S") (degMinStr 3 lo)
      (if 0 ≤ lo then str "E" else str "W") (renderAlt alt))).foldl
      (fun a c => a ^^^ c.toNat) 0, ?_⟩
  simp only [formatNmeaGGA]
  exact gga_sentence_fields timeStr (degMinStr 2 la) _ (degMinStr 3 lo) _
    (renderAlt alt) _ _

/-- Reparsing one formatted coordinate: the integer degrees come back
exactly, the minutes within the `toFixed(5)` rounding, so the recovered
decimal degrees sit within `1 / 12000000` of the original magnitude. -/
theorem coord_reparse (w : ℕ) (hw : 1 ≤ w) (q : ℚ)
    (hq : (⌊|q|⌋).toNat < 10 ^ w) (s : Bool) :
    ∃ u : ℚ,
      optNegIf s (optAdd
        ((parseIntQ ((degMinStr w q).take w)).map (fun z => (z : ℚ)))
        (optDiv60 (parseFloatQ ((degMinStr w q).drop w)))) = some u ∧
      |u - (if s = true then -|q| else |q|)| ≤ 1 / 12000000 := by
  simp only [degMinStr]
  set D := (⌊|q|⌋).toNat with hD
  set m := (|q| - (D : ℚ)) * 60 with hm
  set A := padStart w '0' (renderNat D) with hA
  set B := padStart 8 '0' (fixedNonneg 5 m) with hB
  have hAlen : A.length = w := padStart_length (renderNat_length_le hw hq) '0'
  have htake : (A ++ B).take w = A := by
    rw [← hAlen]
    exact take_len_append A B
  have hdropw : (A ++ B).drop w = B := by
    rw [← hAlen]
    exact drop_len_append A B
  have hAne : A ≠ [] := by
    intro hh
    rw [hh] at hAlen
    simp at hAlen
    omega
  have hAdig : ∀ c ∈ A, c.isDigit = true := by
    rw [hA]
    exact padStart_all rfl (renderNat_isDigit D)
  have hint : parseIntQ ((A ++ B).take w) = some ((D : ℤ)) := by
    rw [htake, parseIntQ_all_digits hAne hAdig, hA, parseNat_padStart,
      parseNat_renderNat]
  have hfloat : parseFloatQ ((A ++ B).drop w) =
      some (((jsRound (m * (10 : ℚ) ^ 5)).toNat : ℚ) / 10 ^ 5) := by
    rw [hdropw, hB]
    exact parseFloatQ_pad_fixed 8 5 (by omega) m
  have hfl0 : (0 : ℤ) ≤ ⌊|q|⌋ := Int.floor_nonneg.mpr (abs_nonneg q)
  have hDle : (D : ℚ) ≤ |q| := by
    have h4 : ((D : ℕ) : ℚ) = ((⌊|q|⌋ : ℤ) : ℚ) := by
      rw [hD]
      exact_mod_cast congrArg (fun z : ℤ => (z : ℚ)) (Int.toNat_of_nonneg hfl0)
    rw [h4]
    exact Int.floor_le _
  have hm0 : 0 ≤ m := by
    rw [hm]
    apply mul_nonneg
    · linarith
    · norm_num
  have hjr0 : 0 ≤ jsRound (m * (10 : ℚ) ^ 5) :=
    jsRound_nonneg (mul_nonneg hm0 (by positivity))
  have hcast : ((jsRound (m * (10 : ℚ) ^ 5)).toNat : ℚ) =
      ((jsRound (m * (10 : ℚ) ^ 5) : ℤ) : ℚ) := by
    exact_mod_cast congrArg (fun z : ℤ => (z : ℚ)) (Int.toNat_of_nonneg hjr0)
  have hQ : |q| = (D : ℚ) + m / 60 := by
    rw [hm]
    ring
  have hmag : abs ((((D : ℤ) : ℚ) +
      ((jsRound (m * (10 : ℚ) ^ 5)).toNat : ℚ) / 10 ^ 5 / 60) - |q|) ≤
      1 / 12000000 := by
    have hDD : ((D : ℤ) : ℚ) = (D : ℚ) := by push_cast; ring
    rw [hDD, hcast, hQ, abs_le]
    obtain ⟨hd1, hd2⟩ := abs_le.mp (jsRound_dist (m * (10 : ℚ) ^ 5))
    constructor <;> linarith
  rw [hint, hfloat]
  refine ⟨(if s = true then
      -(((D : ℤ) : ℚ) + ((jsRound (m * (10 : ℚ) ^ 5)).toNat : ℚ) / 10 ^ 5 / 60)
    else
      (((D : ℤ) : ℚ) + ((jsRound (m * (10 : ℚ) ^ 5)).toNat : ℚ) / 10 ^ 5 / 60)),
    ?_, ?_⟩
  · cases s
    · rfl
    · rfl
  · cases s
    · exact hmag
    · rw [if_pos rfl, if_pos rfl, neg_sub_neg, abs_sub_comm]
      exact hmag

/-- Feeding `_formatNmeaGGA`'s sentence back through `_parseGGA` succeeds
and recovers each coordinate within the `toFixed(5)` rounding error of the
minutes field. -/
theorem parseGGA_format {timeStr : Str} (ht : ',' ∉ timeStr) (la lo : ℚ)
    (alt : Option ℚ) (hla : |la| < 100) (hlo : |lo| < 1000) :
    ∃ p2 : ParsedGGA, ∃ la2 lo2 : ℚ,
      parseGGA (formatNmeaGGA timeStr la lo alt) = some p2 ∧
      p2.lat = some la2 ∧ p2.lon = some lo2 ∧
      |la2 - la| ≤ 1 / 12000000 ∧ |lo2 - lo| ≤ 1 / 12000000 := by
  obtain ⟨K, hsent⟩ := formatNmeaGGA_eq_intercalate timeStr la lo alt
  have hcomma : ∀ f ∈ [ str "$GPGGA", timeStr, degMinStr 2 la,
      (if 0 ≤ la then str "N" else str "S"), degMinStr 3 lo,
      (if 0 ≤ lo then str "E" else str "W"), str "1", str "08", str "1.0",
      renderAlt alt, str "M", str "0.0", str "M", ([] : Str),
      '*' :: padStart 2 '0' (renderHex K) ++ str "\r\n" ], ',' ∉ f := by
    intro f hf
    simp only [List.mem_cons, List.not_mem_nil, or_false] at hf
    rcases hf with hf|hf|hf|hf|hf|hf|hf|hf|hf|hf|hf|hf|hf|hf|hf
    · rw [hf]; decide
    · rw [hf]; exact ht
    · rw [hf]; exact comma_not_mem_degMinStr 2 la
    · rw [hf]
      by_cases hpos : 0 ≤ la
      · rw [if_pos hpos]; decide
      · rw [if_neg hpos]; decide
    · rw [hf]; exact comma_not_mem_degMinStr 3 lo
    · rw [hf]
      by_cases hpos : 0 ≤ lo
      · rw [if_pos hpos]; decide
      · rw [if_neg hpos]; decide
    · rw [hf]; decide
    · rw [hf]; decide
    · rw [hf]; decide
    · rw [hf]; exact comma_not_mem_renderAlt alt
    · rw [hf]; decide
    · rw [hf]; decide
    · rw [hf]; decide
    · rw [hf]; simp
    · rw [hf]; exact comma_not_mem_star_tail K
  have hsplit : (formatNmeaGGA timeStr la lo alt).splitOn ',' =
      [ str "$GPGGA", timeStr, degMinStr 2 la,
        (if 0 ≤ la then str "N" else str "S"), degMinStr 3 lo,
        (if 0 ≤ lo then str "E" else str "W"), str "1", str "08", str "1.0",
        renderAlt alt, str "M", str "0.0", str "M", ([] : Str),
        '*' :: padStart 2 '0' (renderHex K) ++ str "\r\n" ] := by
    rw [hsent]
    exact List.splitOn_intercalate _ ',' hcomma (by simp)
  have hqla : (⌊|la|⌋).toNat < 10 ^ 2 := by
    have h1 : ⌊|la|⌋ < 100 := Int.floor_lt.mpr (by exact_mod_cast hla)
    have h2 : (0 : ℤ) ≤ ⌊|la|⌋ := Int.floor_nonneg.mpr (abs_nonneg la)
    omega
  have hqlo : (⌊|lo|⌋).toNat < 10 ^ 3 := by
    have h1 : ⌊|lo|⌋ < 1000 := Int.floor_lt.mpr (by exact_mod_cast hlo)
    have h2 : (0 : ℤ) ≤ ⌊|lo|⌋ := Int.floor_nonneg.mpr (abs_nonneg lo)
    omega
  have hlatopt : ∃ u, optNegIf ((if 0 ≤ la then str "N" else str "S") == str "S")
      (optAdd ((parseIntQ ((degMinStr 2 la).take 2)).map (fun z => (z : ℚ)))
        (optDiv60 (parseFloatQ ((degMinStr 2 la).drop 2)))) = some u ∧
      |u - la| ≤ 1 / 12000000 := by
    by_cases hpos : 0 ≤ la
    · rw [if_pos hpos, show (str "N" == str "S") = false from rfl]
      obtain ⟨u, hu, hub⟩ := coord_reparse 2 (by omega) la hqla false
      refine ⟨u, hu, ?_⟩
      have h1 : (if (false = true) then -|la| else |la|) = |la| := by simp
      rw [h1, abs_of_nonneg hpos] at hub
      exact hub
    · rw [if_neg hpos, show (str "S" == str "S") = true from rfl]
      obtain ⟨u, hu, hub⟩ := coord_reparse 2 (by omega) la hqla true
      refine ⟨u, hu, ?_⟩
      have h1 : (if (true = true) then -|la| else |la|) = -|la| := by simp
      have h2 : -|la| = la := by
        rw [abs_of_neg (lt_of_not_le hpos)]
        ring
      rw [h1, h2] at hub
      exact hub
  have hlonopt : ∃ u, optNegIf ((if 0 ≤ lo then str "E" else str "W") == str "W")
      (optAdd ((parseIntQ ((degMinStr 3 lo).take 3)).map (fun z => (z : ℚ)))
        (optDiv60 (parseFloatQ ((degMinStr 3 lo).drop 3)))) = some u ∧
      |u - lo| ≤ 1 / 12000000 := by
    by_cases hpos : 0 ≤ lo
    · rw [if_pos hpos, show (str "E" == str "W") = false from rfl]
      obtain ⟨u, hu, hub⟩ := coord_reparse 3 (by omega) lo hqlo false
      refine ⟨u, hu, ?_⟩
      have h1 : (if (false = true) then -|lo| else |lo|) = |lo| := by simp
      rw [h1, abs_of_nonneg hpos] at hub
      exact hub
    · rw [if_neg hpos, show (str "W" == str "W") = true from rfl]
      obtain ⟨u, hu, hub⟩ := coord_reparse 3 (by omega) lo hqlo true
      refine ⟨u, hu, ?_⟩
      have h1 : (if (true = true) then -|lo| else |lo|) = -|lo| := by simp
      have h2 : -|lo| = lo := by
        rw [abs_of_neg (lt_of_not_le hpos)]
        ring
      rw [h1, h2] at hub
      exact hub
  obtain ⟨u, huu, hub⟩ := hlatopt
  obtain ⟨v, hvv, hvb⟩ := hlonopt
  refine ⟨ParsedGGA.mk (some u) (some v) (parseFloatQ (renderAlt alt))
    (parseIntQ (str "1")) (parseIntQ (str "08")), u, v, ?_, rfl, rfl, hub, hvb⟩
  simp only [parseGGA, hsplit]
  rw [if_neg (by simp)]
  simp only [List.getD_cons_succ, List.getD_cons_zero]
  rw [huu, hvv]

/-- A field accepted by `latFieldOK` is literally `DDMM.mmmmm`. -/
theorem latFieldOK_shape {s : Str} (h : latFieldOK s = true) :
    ∃ a b c d e1 e2 e3 e4 e5, s = [a, b, c, d, '.', e1, e2, e3, e4, e5] ∧
      a.isDigit = true ∧ b.isDigit = true ∧ c.isDigit = true ∧
      d.isDigit = true ∧ e1.isDigit = true ∧ e2.isDigit = true ∧
      e3.isDigit = true ∧ e4.isDigit = true ∧ e5.isDigit = true ∧
      10 * (a.toNat - 48) + (b.toNat - 48) ≤ 90 ∧
      10 * (c.toNat - 48) + (d.toNat - 48) ≤ 59 := by
  rcases s with _ | ⟨a, s⟩
  · exact absurd h Bool.false_ne_true
  rcases s with _ | ⟨b, s⟩
  · exact absurd h Bool.false_ne_true
  rcases s with _ | ⟨c, s⟩
  · exact absurd h Bool.false_ne_true
  rcases s with _ | ⟨d, s⟩
  · exact absurd h Bool.false_ne_true
  rcases s with _ | ⟨dot, s⟩
  · exact absurd h Bool.false_ne_true
  rcases s with _ | ⟨e1, s⟩
  · exact absurd h Bool.false_ne_true
  rcases s with _ | ⟨e2, s⟩
  · exact absurd h Bool.false_ne_true
  rcases s with _ | ⟨e3, s⟩
  · exact absurd h Bool.false_ne_true
  rcases s with _ | ⟨e4, s⟩
  · exact absurd h Bool.false_ne_true
  rcases s with _ | ⟨e5, s⟩
  · exact absurd h Bool.false_ne_true
  rcases s with _ | ⟨z, s⟩
  · have hcs : (a.isDigit && b.isDigit && c.isDigit && d.isDigit &&
        (dot == '.') && e1.isDigit && e2.isDigit && e3.isDigit &&
        e4.isDigit && e5.isDigit &&
        decide (10 * (a.toNat - 48) + (b.toNat - 48) ≤ 90) &&
        decide (10 * (c.toNat - 48) + (d.toNat - 48) ≤ 59)) = true := h
    simp only [Bool.and_eq_true, beq_iff_eq, decide_eq_true_eq] at hcs
    obtain ⟨⟨⟨⟨⟨⟨⟨⟨⟨⟨⟨ha, hb⟩, hc⟩, hd⟩, hdot⟩, he1⟩, he2⟩, he3⟩, he4⟩,
      he5⟩, h90⟩, h59⟩ := hcs
    subst hdot
    exact ⟨a, b, c, d, e1, e2, e3, e4, e5, rfl, ha, hb, hc, hd, he1, he2,
      he3, he4, he5, h90, h59⟩
  · exact absurd h Bool.false_ne_true

/-- A field accepted by `lonFieldOK` is literally `DDDMM.mmmmm`. -/
theorem lonFieldOK_shape {s : Str} (h : lonFieldOK s = true) :
    ∃ a b c d e g1 g2 g3 g4 g5,
      s = [a, b, c, d, e, '.', g1, g2, g3, g4, g5] ∧
      a.isDigit = true ∧ b.isDigit = true ∧ c.isDigit = true ∧
      d.isDigit = true ∧ e.isDigit = true ∧ g1.isDigit = true ∧
      g2.isDigit = true ∧ g3.isDigit = true ∧ g4.isDigit = true ∧
      g5.isDigit = true ∧
      100 * (a.toNat - 48) + 10 * (b.toNat - 48) + (c.toNat - 48) ≤ 180 ∧
      10 * (d.toNat - 48) + (e.toNat - 48) ≤ 59 := by
  rcases s with _ | ⟨a, s⟩
  · exact absurd h Bool.false_ne_true
  rcases s with _ | ⟨b, s⟩
  · exact absurd h Bool.false_ne_true
  rcases s with _ | ⟨c, s⟩
  · exact absurd h Bool.false_ne_true
  rcases s with _ | ⟨d, s⟩
  · exact absurd h Bool.false_ne_true
  rcases s with _ | ⟨e, s⟩
  · exact absurd h Bool.false_ne_true
  rcases s with _ | ⟨dot, s⟩
  · exact absurd h Bool.false_ne_true
  rcases s with _ | ⟨g1, s⟩
  · exact absurd h Bool.false_ne_true
  rcases s with _ | ⟨g2, s⟩
  · exact absurd h Bool.false_ne_true
  rcases s with _ | ⟨g3, s⟩
  · exact absurd h Bool.false_ne_true
  rcases s with _ | ⟨g4, s⟩
  · exact absurd h Bool.false_ne_true
  rcases s with _ | ⟨g5, s⟩
  · exact absurd h Bool.false_ne_true
  rcases s with _ | ⟨z, s⟩
  · have hcs : (a.isDigit && b.isDigit && c.isDigit && d.isDigit &&
        e.isDigit && (dot == '.') && g1.isDigit && g2.isDigit &&
        g3.isDigit && g4.isDigit && g5.isDigit &&
        decide (100 * (a.toNat - 48) + 10 * (b.toNat - 48) +
          (c.toNat - 48) ≤ 180) &&
        decide (10 * (d.toNat - 48) + (e.toNat - 48) ≤ 59)) = true := h
    simp only [Bool.and_eq_true, beq_iff_eq, decide_eq_true_eq] at hcs
    obtain ⟨⟨⟨⟨⟨⟨⟨⟨⟨⟨⟨⟨ha, hb⟩, hc⟩, hd⟩, he⟩, hdot⟩, hg1⟩, hg2⟩, hg3⟩,
      hg4⟩, hg5⟩, h180⟩, h59⟩ := hcs
    subst hdot
    exact ⟨a, b, c, d, e, g1, g2, g3, g4, g5, rfl, ha, hb, hc, hd, he,
      hg1, hg2, hg3, hg4, hg5, h180, h59⟩
  · exact absurd h Bool.false_ne_true

/-- Evaluating the parser's latitude expression on a literal `DDMM.mmmmm`
field with hemisphere `N` or `S`: some value of magnitude below `91`. -/
theorem lat_component (a b c d e1 e2 e3 e4 e5 : Char) (hem : Str)
    (ha : a.isDigit = true) (hb : b.isDigit = true) (hc : c.isDigit = true)
    (hd : d.isDigit = true) (he1 : e1.isDigit = true)
    (he2 : e2.isDigit = true) (he3 : e3.isDigit = true)
    (he4 : e4.isDigit = true) (he5 : e5.isDigit = true)
    (hhem : hem = str "N" ∨ hem = str "S")
    (hD90 : 10 * (a.toNat - 48) + (b.toNat - 48) ≤ 90)
    (hM59 : 10 * (c.toNat - 48) + (d.toNat - 48) ≤ 59) :
    ∃ la, optNegIf (hem == str "S")
      (optAdd ((parseIntQ [a, b]).map (fun z => (z : ℚ)))
        (optDiv60 (parseFloatQ [c, d, '.', e1, e2, e3, e4, e5]))) =
        some la ∧ |la| < 91 := by
  have hint2 : parseIntQ [a, b] = some ((parseNatDigits [a, b] : ℤ)) :=
    parseIntQ_all_digits (by simp) (by
      intro u hu
      simp only [List.mem_cons, List.not_mem_nil, or_false] at hu
      rcases hu with h | h <;> subst h <;> assumption)
  have hfl2 := parseFloat_two_digit_dot c d e1 e2 e3 e4 e5 hc hd he1 he2
    he3 he4 he5
  have hDval : parseNatDigits [a, b] = 10 * (a.toNat - 48) + (b.toNat - 48) := by
    simp only [parseNatDigits, List.foldl_cons, List.foldl_nil]
    omega
  have hCDval : parseNatDigits [c, d] = 10 * (c.toNat - 48) + (d.toNat - 48) := by
    simp only [parseNatDigits, List.foldl_cons, List.foldl_nil]
    omega
  have hE : parseNatDigits [e1, e2, e3, e4, e5] < 10 ^ 5 := by
    have h := parseNatDigits_lt (s := [e1, e2, e3, e4, e5]) (by
      intro u hu
      simp only [List.mem_cons, List.not_mem_nil, or_false] at hu
      rcases hu with h | h | h | h | h <;> subst h <;> assumption)
    have hl : ([e1, e2, e3, e4, e5] : Str).length = 5 := rfl
    rw [hl] at h
    exact h
  have hlatmag : |((parseNatDigits [a, b] : ℤ) : ℚ) +
      ((parseNatDigits [c, d] : ℚ) +
        (parseNatDigits [e1, e2, e3, e4, e5] : ℚ) / 10 ^ 5) / 60| < 91 := by
    have hd1 : (0 : ℚ) ≤ ((parseNatDigits [a, b] : ℤ) : ℚ) := by
      exact_mod_cast Nat.zero_le (parseNatDigits [a, b])
    have hd2 : ((parseNatDigits [a, b] : ℤ) : ℚ) ≤ 90 := by
      have : parseNatDigits [a, b] ≤ 90 := by omega
      exact_mod_cast this
    have hm1 : (0 : ℚ) ≤ (parseNatDigits [c, d] : ℚ) +
        (parseNatDigits [e1, e2, e3, e4, e5] : ℚ) / 10 ^ 5 :=
      add_nonneg (Nat.cast_nonneg _)
        (div_nonneg (Nat.cast_nonneg _) (by norm_num))
    have hm2 : (parseNatDigits [c, d] : ℚ) +
        (parseNatDigits [e1, e2, e3, e4, e5] : ℚ) / 10 ^ 5 < 60 := by
      have hc1 : (parseNatDigits [c, d] : ℚ) ≤ 59 := by
        have : parseNatDigits [c, d] ≤ 59 := by omega
        exact_mod_cast this
      have hc2 : (parseNatDigits [e1, e2, e3, e4, e5] : ℚ) / 10 ^ 5 < 1 := by
        rw [div_lt_one (by norm_num)]
        exact_mod_cast hE
      linarith
    have hnn : (0 : ℚ) ≤ ((parseNatDigits [a, b] : ℤ) : ℚ) +
        ((parseNatDigits [c, d] : ℚ) +
          (parseNatDigits [e1, e2, e3, e4, e5] : ℚ) / 10 ^ 5) / 60 :=
      add_nonneg hd1 (div_nonneg hm1 (by norm_num))
    rw [abs_of_nonneg hnn]
    have hdiv : ((parseNatDigits [c, d] : ℚ) +
        (parseNatDigits [e1, e2, e3, e4, e5] : ℚ) / 10 ^ 5) / 60 < 1 := by
      rw [div_lt_one (by norm_num)]
      linarith
    linarith
  rw [hint2, hfl2]
  rcases hhem with h | h <;> rw [h]
  · exact ⟨_, rfl, hlatmag⟩
  · refine ⟨_, rfl, ?_⟩
    rw [abs_neg]
    exact hlatmag

/-- Evaluating the parser's longitude expression on a literal `DDDMM.mmmmm`
field with hemisphere `E` or `W`: some value of magnitude below `181`. -/
theorem lon_component (a b c d e g1 g2 g3 g4 g5 : Char) (hem : Str)
    (ha : a.isDigit = true) (hb : b.isDigit = true) (hc : c.isDigit = true)
    (hd : d.isDigit = true) (he : e.isDigit = true)
    (hg1 : g1.isDigit = true) (hg2 : g2.isDigit = true)
    (hg3 : g3.isDigit = true) (hg4 : g4.isDigit = true)
    (hg5 : g5.isDigit = true)
    (hhem : hem = str "E" ∨ hem = str "W")
    (hD180 : 100 * (a.toNat - 48) + 10 * (b.toNat - 48) + (c.toNat - 48) ≤ 180)
    (hN59 : 10 * (d.toNat - 48) + (e.toNat - 48) ≤ 59) :
    ∃ lo, optNegIf (hem == str "W")
      (optAdd ((parseIntQ [a, b, c]).map (fun z => (z : ℚ)))
        (optDiv60 (parseFloatQ [d, e, '.', g1, g2, g3, g4, g5]))) =
        some lo ∧ |lo| < 181 := by
  have hint3 : parseIntQ [a, b, c] = some ((parseNatDigits [a, b, c] : ℤ)) :=
    parseIntQ_all_digits (by simp) (by
      intro u hu
      simp only [List.mem_cons, List.not_mem_nil, or_false] at hu
      rcases hu with h | h | h <;> subst h <;> assumption)
  have hfl3 := parseFloat_two_digit_dot d e g1 g2 g3 g4 g5 hd he hg1 hg2
    hg3 hg4 hg5
  have hD3val : parseNatDigits [a, b, c] =
      100 * (a.toNat - 48) + 10 * (b.toNat - 48) + (c.toNat - 48) := by
    simp only [parseNatDigits, List.foldl_cons, List.foldl_nil]
    omega
  have hDEval : parseNatDigits [d, e] =
      10 * (d.toNat - 48) + (e.toNat - 48) := by
    simp only [parseNatDigits, List.foldl_cons, List.foldl_nil]
    omega
  have hG : parseNatDigits [g1, g2, g3, g4, g5] < 10 ^ 5 := by
    have h := parseNatDigits_lt (s := [g1, g2, g3, g4, g5]) (by
      intro u hu
      simp only [List.mem_cons, List.not_mem_nil, or_false] at hu
      rcases hu with h | h | h | h | h <;> subst h <;> assumption)
    have hl : ([g1, g2, g3, g4, g5] : Str).length = 5 := rfl
    rw [hl] at h
    exact h
  have hlonmag : |((parseNatDigits [a, b, c] : ℤ) : ℚ) +
      ((parseNatDigits [d, e] : ℚ) +
        (parseNatDigits [g1, g2, g3, g4, g5] : ℚ) / 10 ^ 5) / 60| < 181 := by
    have hd1 : (0 : ℚ) ≤ ((parseNatDigits [a, b, c] : ℤ) : ℚ) := by
      exact_mod_cast Nat.zero_le (parseNatDigits [a, b, c])
    have hd2 : ((parseNatDigits [a, b, c] : ℤ) : ℚ) ≤ 180 := by
      have : parseNatDigits [a, b, c] ≤ 180 := by omega
      exact_mod_cast this
    have hm1 : (0 : ℚ) ≤ (parseNatDigits [d, e] : ℚ) +
        (parseNatDigits [g1, g2, g3, g4, g5] : ℚ) / 10 ^ 5 :=
      add_nonneg (Nat.cast_nonneg _)
        (div_nonneg (Nat.cast_nonneg _) (by norm_num))
    have hm2 : (parseNatDigits [d, e] : ℚ) +
        (parseNatDigits [g1, g2, g3, g4, g5] : ℚ) / 10 ^ 5 < 60 := by
      have hc1 : (parseNatDigits [d, e] : ℚ) ≤ 59 := by
        have : parseNatDigits [d, e] ≤ 59 := by omega
        exact_mod_cast this
      have hc2 : (parseNatDigits [g1, g2, g3, g4, g5] : ℚ) / 10 ^ 5 < 1 := by
        rw [div_lt_one (by norm_num)]
        exact_mod_cast hG
      linarith
    have hnn : (0 : ℚ) ≤ ((parseNatDigits [a, b, c] : ℤ) : ℚ) +
        ((parseNatDigits [d, e] : ℚ) +
          (parseNatDigits [g1, g2, g3, g4, g5] : ℚ) / 10 ^ 5) / 60 :=
      add_nonneg hd1 (div_nonneg hm1 (by norm_num))
    rw [abs_of_nonneg hnn]
    have hdiv : ((parseNatDigits [d, e] : ℚ) +
        (parseNatDigits [g1, g2, g3, g4, g5] : ℚ) / 10 ^ 5) / 60 < 1 := by
      rw [div_lt_one (by norm_num)]
      linarith
    linarith
  rw [hint3, hfl3]
  rcases hhem with h | h <;> rw [h]
  · exact ⟨_, rfl, hlonmag⟩
  · refine ⟨_, rfl, ?_⟩
    rw [abs_neg]
    exact hlonmag

/-- Parsing a syntactically valid sentence succeeds, yields numeric
coordinates, and the coordinates are bounded by the degree ranges the
validity predicate imposes. -/
theorem parseGGA_valid {x : Str} (hx : validGGA x = true) :
    ∃ p : ParsedGGA, ∃ la lo : ℚ, parseGGA x = some p ∧
      p.lat = some la ∧ p.lon = some lo ∧ |la| < 91 ∧ |lo| < 181 := by
  simp only [validGGA] at hx
  simp only [Bool.and_eq_true, Bool.or_eq_true, beq_iff_eq,
    decide_eq_true_eq] at hx
  obtain ⟨⟨⟨⟨h10, hlat⟩, h3⟩, hlon⟩, h5⟩ := hx
  obtain ⟨a, b, c, d, e1, e2, e3, e4, e5, heq2, ha, hb, hc, hd, he1, he2,
    he3, he4, he5, hD90, hM59⟩ := latFieldOK_shape hlat
  obtain ⟨a2, b2, c2, d2, ee, g1, g2, g3, g4, g5, heq4, ha2, hb2, hc2, hd2,
    hee, hg1, hg2, hg3, hg4, hg5, hD180, hN59⟩ := lonFieldOK_shape hlon
  have htake2 : ((x.splitOn ',').getD 2 []).take 2 = [a, b] := by
    rw [heq2]
    rfl
  have hdrop2 : ((x.splitOn ',').getD 2 []).drop 2 =
      [c, d, '.', e1, e2, e3, e4, e5] := by
    rw [heq2]
    rfl
  have htake3 : ((x.splitOn ',').getD 4 []).take 3 = [a2, b2, c2] := by
    rw [heq4]
    rfl
  have hdrop3 : ((x.splitOn ',').getD 4 []).drop 3 =
      [d2, ee, '.', g1, g2, g3, g4, g5] := by
    rw [heq4]
    rfl
  have hlatopt : ∃ la, optNegIf ((x.splitOn ',').getD 3 [] == str "S")
      (optAdd ((parseIntQ (((x.splitOn ',').getD 2 []).take 2)).map
          (fun z => (z : ℚ)))
        (optDiv60 (parseFloatQ (((x.splitOn ',').getD 2 []).drop 2)))) =
        some la ∧ |la| < 91 := by
    rw [htake2, hdrop2]
    exact lat_component a b c d e1 e2 e3 e4 e5 _ ha hb hc hd he1 he2 he3
      he4 he5 h3 hD90 hM59
  have hlonopt : ∃ lo, optNegIf ((x.splitOn ',').getD 5 [] == str "W")
      (optAdd ((parseIntQ (((x.splitOn ',').getD 4 []).take 3)).map
          (fun z => (z : ℚ)))
        (optDiv60 (parseFloatQ (((x.splitOn ',').getD 4 []).drop 3)))) =
        some lo ∧ |lo| < 181 := by
    rw [htake3, hdrop3]
    exact lon_component a2 b2 c2 d2 ee g1 g2 g3 g4 g5 _ ha2 hb2 hc2 hd2
      hee hg1 hg2 hg3 hg4 hg5 h5 hD180 hN59
  obtain ⟨la, hla1, hla2⟩ := hlatopt
  obtain ⟨lo, hlo1, hlo2⟩ := hlonopt
  refine ⟨ParsedGGA.mk (some la) (some lo)
      (parseFloatQ ((x.splitOn ',').getD 9 []))
      (parseIntQ ((x.splitOn ',').getD 6 []))
      (parseIntQ ((x.splitOn ',').getD 7 [])), la, lo, ?_, rfl, rfl,
    hla2, hlo2⟩
  simp only [parseGGA]
  rw [if_neg (by omega), hla1, hlo1]

/-- C8: for every syntactically valid GGA sentence `x` (well-formed
`DDMM.mmmmm` latitude and `DDDMM.mmmmm` longitude fields with hemisphere
letters `N`/`S`/`E`/`W`) and any comma-free UTC time string, parsing `x`
with `_parseGGA` succeeds, formatting the parsed position back with
`_formatNmeaGGA` and reparsing recovers latitude and longitude to within
`1e-5` degrees. -/
theorem c8_gga_position_roundtrip (x timeStr : Str)
    (hx : validGGA x = true) (ht : ',' ∉ timeStr) :
    ∃ p p2 : ParsedGGA, ∃ la lo la2 lo2 : ℚ,
      parseGGA x = some p ∧ p.lat = some la ∧ p.lon = some lo ∧
      parseGGA (formatNmeaGGA timeStr la lo p.alt) = some p2 ∧
      p2.lat = some la2 ∧ p2.lon = some lo2 ∧
      |la2 - la| < 1 / 100000 ∧ |lo2 - lo| < 1 / 100000 := by
  obtain ⟨p, la, lo, hpg, hplat, hplon, hla, hlo⟩ := parseGGA_valid hx
  obtain ⟨p2, la2, lo2, hpg2, h2lat, h2lon, hb1, hb2⟩ :=
    parseGGA_format ht la lo p.alt (by linarith) (by linarith)
  exact ⟨p, p2, la, lo, la2, lo2, hpg, hplat, hplon, hpg2, h2lat, h2lon,
    lt_of_le_of_lt hb1 (by norm_num), lt_of_le_of_lt hb2 (by norm_num)⟩

/-- Witness for C8 at a concrete valid sentence. -/
theorem c8_gga_position_roundtrip_witness :
    validGGA (str
      "$GPGGA,060000.00,2101.71000,N,10551.25000,E,1,08,1.0,100.0,M,0.0,M,,*47")
      = true ∧
    ',' ∉ str "060000.00" ∧
    ∃ p p2 : ParsedGGA, ∃ la lo la2 lo2 : ℚ,
      parseGGA (str
        "$GPGGA,060000.00,2101.71000,N,10551.25000,E,1,08,1.0,100.0,M,0.0,M,,*47")
        = some p ∧ p.lat = some la ∧ p.lon = some lo ∧
      parseGGA (formatNmeaGGA (str "060000.00") la lo p.alt) = some p2 ∧
      p2.lat = some la2 ∧ p2.lon = some lo2 ∧
      |la2 - la| < 1 / 100000 ∧ |lo2 - lo| < 1 / 100000 :=
  ⟨by decide, by decide,
    c8_gga_position_roundtrip _ _ (by decide) (by decide)⟩
